import Mathlib

/-!
# CornerCulling: geometric primitives and angle utilities

A shallow embedding of `Source/CornerCulling/Utils.h`,
`Source/CornerCulling/GeometricPrimitives.h` and the default vertices of
`Source/CornerCulling/OccludingCuboid.h`.

Conventions of the embedding.

* Two readings of `float` are used.  In the exact reading a finite `float` is a
  rational number (`ℚ`) and an operation returns its exact result; it serves
  where the code only compares, selects or is evaluated at inputs on which no
  operation rounds.  In the binary32 reading (`F32`, names ending in `32`, and
  `Utils.CheckSegmentsIntersect`) every operation rounds its exact result to the
  nearest binary32 number, ties to even, with subnormal numbers, overflow to an
  infinity and NaN; the sign of a zero is not held, and a product followed by a
  sum is two roundings (no fused multiply-add).
* Engine functions the sources call but do not define (`FVector::Reciprocal`,
  `FVector::GetSafeNormal`, `FVector::CrossProduct`, `FVector2D::CrossProduct`)
  are written out next to the code that uses them; what they leave open (the
  stand-in for the reciprocal of zero, the inverse square root, the square root
  of the ray intersector) is a parameter.  The engine's own stand-in for the
  reciprocal of zero is the constant `BIG_NUMBER`.
* Memory that a constructor leaves untouched is an explicit argument
  (`Uninit`), an out-of-range array read is `none`.
-/

namespace CornerCulling

/-! ## Vectors -/

/-- Engine type `FVector`: three float coordinates. -/
structure FVector where
  X : ℚ
  Y : ℚ
  Z : ℚ
  deriving DecidableEq, Repr

/-- Engine type `FVector2D`: two float coordinates. -/
structure FVector2D where
  X : ℚ
  Y : ℚ
  deriving DecidableEq, Repr

namespace FVector

/-- Engine `operator-` on `FVector`. -/
def sub (A B : FVector) : FVector := ⟨A.X - B.X, A.Y - B.Y, A.Z - B.Z⟩

/-- Engine `operator+` on `FVector`. -/
def add (A B : FVector) : FVector := ⟨A.X + B.X, A.Y + B.Y, A.Z + B.Z⟩

/-- Engine `operator*` of an `FVector` by a scalar. -/
def scale (A : FVector) (s : ℚ) : FVector := ⟨A.X * s, A.Y * s, A.Z * s⟩

/-- Engine `FVector::DotProduct`. -/
def DotProduct (A B : FVector) : ℚ := A.X * B.X + A.Y * B.Y + A.Z * B.Z

/-- Engine `FVector::CrossProduct`. -/
def CrossProduct (A B : FVector) : FVector :=
  ⟨A.Y * B.Z - A.Z * B.Y, A.Z * B.X - A.X * B.Z, A.X * B.Y - A.Y * B.X⟩

/-- Engine `FVector::ZeroVector`. -/
def ZeroVector : FVector := ⟨0, 0, 0⟩

/-- Modelled from the spec: the engine's `FVector::Reciprocal` is not part of the
repository.  Each component is replaced by its reciprocal; section 3 of the spec
lets the reciprocal of a zero component be "infinite", which over exact numbers
is the stand-in `Big` chosen by the caller (the engine uses a large finite
float). -/
def Reciprocal (Big : ℚ) (A : FVector) : FVector :=
  ⟨if A.X ≠ 0 then 1 / A.X else Big,
   if A.Y ≠ 0 then 1 / A.Y else Big,
   if A.Z ≠ 0 then 1 / A.Z else Big⟩

/-- Modelled from the spec: the engine's `FVector::GetSafeNormal` is not part of
the repository.  Section 3 of the spec asks for a unit normal and a zero normal
for a degenerate face: a vector of squared length 1 is returned as it is, one of
squared length below `Tolerance` becomes the zero vector, any other is scaled by
the inverse square root of its squared length.  The inverse square root is not a
rational function and is the parameter `InvSqrt`. -/
def GetSafeNormal (InvSqrt : ℚ → ℚ) (A : FVector) (Tolerance : ℚ) : FVector :=
  let SquareSum := A.X * A.X + A.Y * A.Y + A.Z * A.Z
  if SquareSum = 1 then A
  else if SquareSum < Tolerance then ZeroVector
  else A.scale (InvSqrt SquareSum)

end FVector

namespace FVector2D

/-- Engine `operator-` on `FVector2D`. -/
def sub (A B : FVector2D) : FVector2D := ⟨A.X - B.X, A.Y - B.Y⟩

/-- Engine `FVector2D::CrossProduct`. -/
def CrossProduct (A B : FVector2D) : ℚ := A.X * B.Y - A.Y * B.X

end FVector2D

/-! ## `Utils.h`: angles and 2D segments -/

namespace Utils

/-- `MIN_SAFE_LENGTH = 1e-9`: smallest float that is safe to divide by, as the
exact number; the float constant is `MIN_SAFE_LENGTH32`. -/
def MIN_SAFE_LENGTH : ℚ := 1 / 1000000000

/-- `FAST_ATAN_MAX = 1 / MIN_SAFE_LENGTH`. -/
def FAST_ATAN_MAX : ℚ := 1 / MIN_SAFE_LENGTH

/-- `FAST_ATAN_MIN = -1 / MIN_SAFE_LENGTH`. -/
def FAST_ATAN_MIN : ℚ := -1 / MIN_SAFE_LENGTH

/-- `Utils::GetAngle`: `atan2f(det, dot)`.  The two-argument arctangent of
`(y, x)` is the argument of the complex number `x + y i`, in `(-π, π]`; it is
not a rational function, so this one definition is not executable. -/
noncomputable def GetAngle (V1 V2 : FVector2D) : ℝ :=
  Complex.arg ⟨((V1.X * V2.X + V1.Y * V2.Y : ℚ) : ℝ), ((V1.X * V2.Y - V1.Y * V2.X : ℚ) : ℝ)⟩

/-- `Utils::FastAtan`: the clamp of `X` to `[FAST_ATAN_MIN, FAST_ATAN_MAX]`. -/
def FastAtan (X : ℚ) : ℚ :=
  if X ≤ FAST_ATAN_MIN then FAST_ATAN_MIN
  else if X ≤ FAST_ATAN_MAX then X
  else FAST_ATAN_MAX

/-- `Utils::CrossProductPositive`. -/
def CrossProductPositive (V1 V2 : FVector2D) : Bool :=
  decide (V1.X * V2.Y - V1.Y * V2.X > 0)

/-- C library `copysign(x, y)`: the magnitude of `x` with the sign of `y`; a
zero `y` counts as positive. -/
def copysign (x y : ℚ) : ℚ := if y < 0 then -|x| else |x|

/-- `Utils::GetAngleFast`, in the exact reading; `GetAngleFast32` is the binary32
reading. -/
def GetAngleFast (V1 V2 : FVector2D) : ℚ :=
  let det := V1.X * V2.Y - V1.Y * V2.X
  let dot := V1.X * V2.X + V1.Y * V2.Y
  if -MIN_SAFE_LENGTH < dot ∧ dot < MIN_SAFE_LENGTH then
    copysign FAST_ATAN_MAX det
  else
    let tan := det / dot
    if dot > 0 then FastAtan tan
    else if det > 0 then FastAtan tan + FAST_ATAN_MAX
    else FastAtan tan - FAST_ATAN_MAX

end Utils

/-- The point `P + t * (Q - P)` of a 2D segment. -/
def pointAt2D (P Q : FVector2D) (t : ℚ) : FVector2D :=
  ⟨P.X + t * (Q.X - P.X), P.Y + t * (Q.Y - P.Y)⟩

/-- The open segments `(P1, P2)` and `(P3, P4)` cross at a point interior to
both: `P1 + s (P2 - P1) = P4 + u (P3 - P4)` with `s` and `u` strictly between 0
and 1. -/
def ProperCrossing (P1 P2 P3 P4 : FVector2D) : Prop :=
  ∃ s u : ℚ, 0 < s ∧ s < 1 ∧ 0 < u ∧ u < 1 ∧ pointAt2D P1 P2 s = pointAt2D P4 P3 u

/-! ## `GeometricPrimitives.h`: segments and axis-aligned boxes -/

/-- `struct OptSegment`: start point and `1 / (End - Start)`. -/
structure OptSegment where
  Start : FVector
  Reciprocal : FVector
  deriving DecidableEq, Repr

/-- `OptSegment::OptSegment(FVector Start, FVector End)`. -/
def OptSegment.ofEndpoints (Big : ℚ) (Start End : FVector) : OptSegment :=
  { Start := Start, Reciprocal := (End.sub Start).Reciprocal Big }

/-- `struct AABB`: axis-aligned bounding box. -/
structure AABB where
  Min : FVector
  Max : FVector
  deriving DecidableEq, Repr

/-- `AABB::Intersects(OptSegment)`, statement by statement, in the exact reading
(`AABB32.Intersects` is the binary32 reading): the X axis sets both `TimeMin` and
`TimeMax` to `std::min(TimeX1, TimeX2)`. -/
def AABB.Intersects (B : AABB) (Segment : OptSegment) : Bool :=
  let TimeX1 := (B.Min.X - Segment.Start.X) * Segment.Reciprocal.X
  let TimeX2 := (B.Max.X - Segment.Start.X) * Segment.Reciprocal.X
  let TimeMin0 := min TimeX1 TimeX2
  let TimeMax0 := min TimeX1 TimeX2
  let TimeY1 := (B.Min.Y - Segment.Start.Y) * Segment.Reciprocal.Y
  let TimeY2 := (B.Max.Y - Segment.Start.Y) * Segment.Reciprocal.Y
  let TimeMin1 := max TimeMin0 (min TimeY1 TimeY2)
  let TimeMax1 := min TimeMax0 (max TimeY1 TimeY2)
  let TimeZ1 := (B.Min.Z - Segment.Start.Z) * Segment.Reciprocal.Z
  let TimeZ2 := (B.Max.Z - Segment.Start.Z) * Segment.Reciprocal.Z
  let TimeMin2 := max TimeMin1 (min TimeZ1 TimeZ2)
  let TimeMax2 := min TimeMax1 (max TimeZ1 TimeZ2)
  decide (TimeMax2 ≥ max 0 TimeMin2) && decide (TimeMin2 < 1)

/-- The slab fold as the specification words it: per-axis entry and exit times,
the entry time the largest of the three per-axis minima, the exit time the
smallest of the three per-axis maxima. -/
def slabFoldSpec (B : AABB) (Segment : OptSegment) : Bool :=
  let t1X := (B.Min.X - Segment.Start.X) * Segment.Reciprocal.X
  let t2X := (B.Max.X - Segment.Start.X) * Segment.Reciprocal.X
  let t1Y := (B.Min.Y - Segment.Start.Y) * Segment.Reciprocal.Y
  let t2Y := (B.Max.Y - Segment.Start.Y) * Segment.Reciprocal.Y
  let t1Z := (B.Min.Z - Segment.Start.Z) * Segment.Reciprocal.Z
  let t2Z := (B.Max.Z - Segment.Start.Z) * Segment.Reciprocal.Z
  let tEntry := max (max (min t1X t2X) (min t1Y t2Y)) (min t1Z t2Z)
  let tExit := min (min (max t1X t2X) (max t1Y t2Y)) (max t1Z t2Z)
  decide (tExit ≥ max 0 tEntry) && decide (tEntry < 1)

/-- The point `Start + t * (End - Start)` of a segment. -/
def pointAt (Start End : FVector) (t : ℚ) : FVector :=
  Start.add ((End.sub Start).scale t)

/-- A point lies inside a box on all three axes. -/
def AABB.Contains (B : AABB) (P : FVector) : Prop :=
  B.Min.X ≤ P.X ∧ P.X ≤ B.Max.X ∧ B.Min.Y ≤ P.Y ∧ P.Y ≤ B.Max.Y ∧
    B.Min.Z ≤ P.Z ∧ P.Z ≤ B.Max.Z

/-- The box is well formed: `Min <= Max` componentwise. -/
def AABB.WellFormed (B : AABB) : Prop :=
  B.Min.X ≤ B.Max.X ∧ B.Min.Y ≤ B.Max.Y ∧ B.Min.Z ≤ B.Max.Z

/-- The unit box `[(-1,-1,-1), (1,1,1)]` of the specification's examples. -/
def unitBox : AABB := ⟨⟨-1, -1, -1⟩, ⟨1, 1, 1⟩⟩

/-- Both endpoints of the segment lie, on some axis, above the box's maximum or
both below its minimum. -/
def AABB.SeparatedOnAxis (B : AABB) (Start End : FVector) : Prop :=
  ((B.Max.X < Start.X ∧ B.Max.X < End.X) ∨ (Start.X < B.Min.X ∧ End.X < B.Min.X)) ∨
    ((B.Max.Y < Start.Y ∧ B.Max.Y < End.Y) ∨ (Start.Y < B.Min.Y ∧ End.Y < B.Min.Y)) ∨
    ((B.Max.Z < Start.Z ∧ B.Max.Z < End.Z) ∨ (Start.Z < B.Min.Z ∧ End.Z < B.Min.Z))

/-! ## `GeometricPrimitives.h`: faces and cuboids -/

/-- `CUBOID_V`: number of vertices of a cuboid. -/
def CUBOID_V : Nat := 8

/-- `CUBOID_F`: number of faces of a cuboid. -/
def CUBOID_F : Nat := 6

/-- `CUBOID_FACE_V`: number of vertices of a face. -/
def CUBOID_FACE_V : Nat := 4

/-- `struct Face`: a normal and the indexes (`unsigned char`) of the four
perimeter vertices. -/
structure Face where
  Normal : FVector
  Perimeter : Fin 4 → Nat

/-- A read `Vertices[k]` of the eight-element vertex array: `none` when `k` is
out of range. -/
def readVertex (Vertices : Fin 8 → FVector) (k : Nat) : Option FVector :=
  if h : k < 8 then some (Vertices ⟨k, h⟩) else none

/-- The `switch (i)` of `Face::Face(int, FVector[])`: the perimeter of face `i`;
for any other `i` the four entries keep what the memory held (`Uninit`). -/
def Face.perimeterOf (Uninit : Fin 4 → Nat) (i : Int) : Fin 4 → Nat :=
  match i with
  | 0 => ![0, 1, 2, 3]
  | 1 => ![2, 6, 7, 3]
  | 2 => ![0, 3, 7, 4]
  | 3 => ![0, 4, 5, 1]
  | 4 => ![1, 5, 6, 2]
  | 5 => ![4, 7, 6, 5]
  | _ => Uninit

/-- The entry `Perimeter[j]` of face `i`, for `i` in `0 .. 5`, as an index of the
vertex array (the value the `switch` assigns, reduced modulo 8, which changes
nothing since every entry of the table is below 8). -/
def Face.perimeterIndex (i : Fin 6) (j : Fin 4) : Fin 8 :=
  ⟨Face.perimeterOf (fun _ => 0) (i.val : Int) j % 8, Nat.mod_lt _ (by decide)⟩

/-- The cross product `Face::Face` normalises:
`(Vertices[Perimeter[1]] - Vertices[Perimeter[0]]) x
(Vertices[Perimeter[2]] - Vertices[Perimeter[0]])`. -/
def Face.crossOf (Vertices : Fin 8 → FVector) (Perimeter : Fin 4 → Nat) : Option FVector := do
  let P0 ← readVertex Vertices (Perimeter 0)
  let P1 ← readVertex Vertices (Perimeter 1)
  let P2 ← readVertex Vertices (Perimeter 2)
  pure ((P1.sub P0).CrossProduct (P2.sub P0))

/-- `Face::Face(int i, FVector Vertices[])`. -/
def Face.ofIndex (InvSqrt : ℚ → ℚ) (Uninit : Face) (i : Int) (Vertices : Fin 8 → FVector) :
    Option Face := do
  let Perimeter := Face.perimeterOf Uninit.Perimeter i
  let Cross ← Face.crossOf Vertices Perimeter
  pure { Normal := Cross.GetSafeNormal InvSqrt (1 / 1000000), Perimeter := Perimeter }

/-- `struct Cuboid`: six faces and eight vertices. -/
structure Cuboid where
  Faces : Fin 6 → Face
  Vertices : Fin 8 → FVector

/-- `Cuboid::Cuboid(TArray<FVector> V)`.  `Uninit` is what the fields hold before
the constructor body runs, `Temp` what the temporary `Face` holds before its
`switch`.  A list whose length is not `CUBOID_V` leaves the cuboid as it was;
otherwise the first loop copies the vertices and the second builds the faces. -/
def Cuboid.ofVertices (InvSqrt : ℚ → ℚ) (Uninit : Cuboid) (Temp : Face) (V : List FVector) :
    Option Cuboid :=
  if V.length ≠ CUBOID_V then some Uninit
  else do
    let Vertices ← (List.finRange 8).foldlM
      (fun acc i => (V[i.val]?).map (Function.update acc i)) Uninit.Vertices
    let Faces ← (List.finRange 6).foldlM
      (fun acc i => (Face.ofIndex InvSqrt Temp (i.val : Int) Vertices).map
        (Function.update acc i)) Uninit.Faces
    pure { Faces := Faces, Vertices := Vertices }

/-- `Cuboid::GetVertex(int i, int j)`: `Vertices[Faces[i].Perimeter[j]]`, `none`
when one of the three array reads is out of range. -/
def Cuboid.GetVertex (C : Cuboid) (i j : Int) : Option FVector :=
  if hi : 0 ≤ i ∧ i < 6 then
    if hj : 0 ≤ j ∧ j < 4 then
      readVertex C.Vertices
        ((C.Faces ⟨i.toNat, by omega⟩).Perimeter ⟨j.toNat, by omega⟩)
    else none
  else none

/-- A float that may be infinite: `⊤` is `+infinity`, `⊥` is `-infinity`. -/
abbrev FloatExt := WithBot (WithTop ℚ)

/-- A finite float as a `FloatExt`. -/
def FloatExt.ofRat (q : ℚ) : FloatExt := ((q : WithTop ℚ) : WithBot (WithTop ℚ))

/-- `+infinity` as a `FloatExt`. -/
def FloatExt.infinity : FloatExt := ((⊤ : WithTop ℚ) : WithBot (WithTop ℚ))

/-- `FastBVH::Vector3<Float>`. -/
structure Vector3 where
  x : FloatExt
  y : FloatExt
  z : FloatExt

/-- `FastBVH::BBox<Float>`: minimum and maximum corner. -/
structure BBox where
  min : Vector3
  max : Vector3

/-- The six running values of the loop of `CuboidBoxConverter::operator()`. -/
structure BoxAcc where
  MinX : FloatExt
  MinY : FloatExt
  MinZ : FloatExt
  MaxX : FloatExt
  MaxY : FloatExt
  MaxZ : FloatExt

/-- One iteration of the loop of `CuboidBoxConverter::operator()`. -/
def BoxAcc.step (C : Cuboid) (a : BoxAcc) (i : Fin 8) : BoxAcc :=
  { MinX := Min.min a.MinX (FloatExt.ofRat (C.Vertices i).X)
    MinY := Min.min a.MinY (FloatExt.ofRat (C.Vertices i).Y)
    MinZ := Min.min a.MinZ (FloatExt.ofRat (C.Vertices i).Z)
    MaxX := Max.max a.MaxX (FloatExt.ofRat (C.Vertices i).X)
    MaxY := Max.max a.MaxY (FloatExt.ofRat (C.Vertices i).Y)
    MaxZ := Max.max a.MaxZ (FloatExt.ofRat (C.Vertices i).Z) }

/-- `CuboidBoxConverter::operator()(const Cuboid&)` in the reading its
initialisers point at: the minima start at `+infinity`, the maxima at
`-infinity`, and the loop visits the eight vertices.  The source text does not
say this: it names `std::numeric_limits<float>::infinity` without calling it,
see `CuboidBoxConverterFrom`. -/
def CuboidBoxConverter (C : Cuboid) : BBox :=
  let r := (List.finRange 8).foldl (BoxAcc.step C)
    { MinX := FloatExt.infinity, MinY := FloatExt.infinity, MinZ := FloatExt.infinity
      MaxX := ⊥, MaxY := ⊥, MaxZ := ⊥ }
  { min := ⟨r.MinX, r.MinY, r.MinZ⟩, max := ⟨r.MaxX, r.MaxY, r.MaxZ⟩ }

/-- The loop of `CuboidBoxConverter::operator()` from given start values.  The
initialisers of the six running values name the function
`std::numeric_limits<float>::infinity` without calling it (and negate it for the
maxima), an expression that has no `float` value, so the source text fixes no
start values; here they are the argument `Init`. -/
def CuboidBoxConverterFrom (Init : BoxAcc) (C : Cuboid) : BBox :=
  let r := (List.finRange 8).foldl (BoxAcc.step C) Init
  { min := ⟨r.MinX, r.MinY, r.MinZ⟩, max := ⟨r.MaxX, r.MaxY, r.MaxZ⟩ }

/-- The start values the names of the initialisers point at: `+infinity` for the
minima, `-infinity` for the maxima. -/
def BoxAcc.infinite : BoxAcc :=
  { MinX := FloatExt.infinity, MinY := FloatExt.infinity, MinZ := FloatExt.infinity
    MaxX := ⊥, MaxY := ⊥, MaxZ := ⊥ }

/-- A box is tight around the eight vertices of a cuboid: it bounds every vertex
on every axis, and on every axis its minimum and its maximum are each the
coordinate of some vertex. -/
def BBox.Tight (b : BBox) (C : Cuboid) : Prop :=
  (∀ i : Fin 8,
      b.min.x ≤ FloatExt.ofRat (C.Vertices i).X ∧ FloatExt.ofRat (C.Vertices i).X ≤ b.max.x ∧
        b.min.y ≤ FloatExt.ofRat (C.Vertices i).Y ∧ FloatExt.ofRat (C.Vertices i).Y ≤ b.max.y ∧
        b.min.z ≤ FloatExt.ofRat (C.Vertices i).Z ∧ FloatExt.ofRat (C.Vertices i).Z ≤ b.max.z) ∧
    (∃ i, FloatExt.ofRat (C.Vertices i).X = b.min.x) ∧
    (∃ i, FloatExt.ofRat (C.Vertices i).X = b.max.x) ∧
    (∃ i, FloatExt.ofRat (C.Vertices i).Y = b.min.y) ∧
    (∃ i, FloatExt.ofRat (C.Vertices i).Y = b.max.y) ∧
    (∃ i, FloatExt.ofRat (C.Vertices i).Z = b.min.z) ∧
    (∃ i, FloatExt.ofRat (C.Vertices i).Z = b.max.z)

/-! ## `GeometricPrimitives.h`: the ray intersector -/

/-- `FastBVH::Ray<Float>`: origin `o` and direction `d`. -/
structure Ray where
  o : FVector
  d : FVector

/-- The object the body of `CuboidIntersector::operator()` reads as `sphere`: it
has a `center` and a squared radius `r2`.  The name is neither a parameter nor
a member of the class. -/
structure BVHSphere where
  center : FVector
  r2 : ℚ

/-- Modelled from the spec: `FastBVH::Intersection<Float, Cuboid>` is not part of
the repository.  Section 4.4 of the spec describes the result as a hit flag, a
parameter `t` and a normal; the hit flag is the presence of the object the
intersector stores. -/
structure Intersection where
  t : FloatExt
  object : Option Cuboid
  normal : FVector

/-- The value `Intersection<Float, Cuboid>{}`: no object, `t` at infinity. -/
def Intersection.miss : Intersection :=
  { t := FloatExt.infinity, object := none, normal := FVector.ZeroVector }

/-- Library `normalize`: the vector divided by its length; the square root is the
parameter `Sqrt`. -/
def normalize (Sqrt : ℚ → ℚ) (A : FVector) : FVector :=
  A.scale (1 / Sqrt (A.DotProduct A))

/-- `CuboidIntersector::operator()(const Cuboid& C, const Ray& ray)`, statement by
statement; `sphere` is the name the body reads without declaring it. -/
def CuboidIntersector (Sqrt : ℚ → ℚ) (sphere : BVHSphere) (C : Cuboid) (ray : Ray) :
    Intersection :=
  let center := sphere.center
  let r2 := sphere.r2
  let s := center.sub ray.o
  let sd := s.DotProduct ray.d
  let ss := s.DotProduct s
  let disc := sd * sd - ss + r2
  if disc < 0 then Intersection.miss
  else
    let t := sd - Sqrt disc
    let hit_pos := ray.o.add (ray.d.scale t)
    let normal := normalize Sqrt (hit_pos.sub sphere.center)
    { t := FloatExt.ofRat t, object := some C, normal := normal }

/-- The ray crosses the cuboid, in the words of the specification: clipping the
ray against the six face planes leaves a parameter, that is, some point
`o + t d` with `t >= 0` lies on the inner side of the plane of every face (the
plane through the first perimeter vertex of the face, with the face's
normal). -/
def rayCrosses (C : Cuboid) (ray : Ray) : Prop :=
  ∃ t : ℚ, 0 ≤ t ∧ ∀ i : Fin 6, ∃ p, C.GetVertex (i.val : Int) 0 = some p ∧
    (C.Faces i).Normal.DotProduct ((ray.o.add (ray.d.scale t)).sub p) ≤ 0

/-! ## `OccludingCuboid.h`: the default vertices -/

namespace AOccludingCuboid

/-- Default of the property `V0`. -/
def V0 : FVector := ⟨200, 200, 200⟩

/-- Default of the property `V1`. -/
def V1 : FVector := ⟨-200, 200, 200⟩

/-- Default of the property `V2`. -/
def V2 : FVector := ⟨-200, -200, 200⟩

/-- Default of the property `V3`. -/
def V3 : FVector := ⟨200, -200, 200⟩

/-- Default of the property `V4`. -/
def V4 : FVector := ⟨200, 200, -200⟩

/-- Default of the property `V5`. -/
def V5 : FVector := ⟨-200, 200, -200⟩

/-- Default of the property `V6`. -/
def V6 : FVector := ⟨-200, -200, -200⟩

/-- Default of the property `V7`. -/
def V7 : FVector := ⟨200, -200, -200⟩

/-- The eight default vertices in the order of their indexes. -/
def defaultVertices : List FVector := [V0, V1, V2, V3, V4, V5, V6, V7]

end AOccludingCuboid

/-! ## Notions the claims are stated with -/

/-- A 3 x 3 matrix, row by row. -/
structure Mat3 where
  a11 : ℚ
  a12 : ℚ
  a13 : ℚ
  a21 : ℚ
  a22 : ℚ
  a23 : ℚ
  a31 : ℚ
  a32 : ℚ
  a33 : ℚ

/-- The determinant of a 3 x 3 matrix. -/
def Mat3.det (A : Mat3) : ℚ :=
  A.a11 * (A.a22 * A.a33 - A.a23 * A.a32) - A.a12 * (A.a21 * A.a33 - A.a23 * A.a31) +
    A.a13 * (A.a21 * A.a32 - A.a22 * A.a31)

/-- The product of a matrix and a vector. -/
def Mat3.mulVec (A : Mat3) (P : FVector) : FVector :=
  ⟨A.a11 * P.X + A.a12 * P.Y + A.a13 * P.Z, A.a21 * P.X + A.a22 * P.Y + A.a23 * P.Z,
    A.a31 * P.X + A.a32 * P.Y + A.a33 * P.Z⟩

/-- The image of the default vertices, in their order, under `x -> A x + b`. -/
def affineImage (A : Mat3) (b : FVector) : List FVector :=
  AOccludingCuboid.defaultVertices.map fun P => (A.mulVec P).add b

/-- The squared length of a vector. -/
def FVector.SizeSquared (A : FVector) : ℚ := A.X * A.X + A.Y * A.Y + A.Z * A.Z

/-- The mean of the eight vertices of a cuboid. -/
def Cuboid.boxCentroid (C : Cuboid) : FVector :=
  ((List.finRange 8).foldl (fun acc i => acc.add (C.Vertices i)) FVector.ZeroVector).scale (1 / 8)

/-- The mean of the four perimeter vertices of face `i`, read with
`GetVertex`. -/
def Cuboid.faceCentroid (C : Cuboid) (i : Fin 6) : Option FVector := do
  let p0 ← C.GetVertex (i.val : Int) 0
  let p1 ← C.GetVertex (i.val : Int) 1
  let p2 ← C.GetVertex (i.val : Int) 2
  let p3 ← C.GetVertex (i.val : Int) 3
  pure ((((p0.add p1).add p2).add p3).scale (1 / 4))

/-- The cross product used for face `i` of a cuboid. -/
def Cuboid.faceCross (C : Cuboid) (i : Fin 6) : Option FVector :=
  Face.crossOf C.Vertices (C.Faces i).Perimeter

/-- The identity matrix. -/
def Mat3.identity : Mat3 := ⟨1, 0, 0, 0, 1, 0, 0, 0, 1⟩

/-- A face whose memory is filled with zeros. -/
def Face.zeroed : Face := ⟨FVector.ZeroVector, fun _ => 0⟩

/-- A cuboid whose memory is filled with zeros. -/
def Cuboid.zeroed : Cuboid := ⟨fun _ => Face.zeroed, fun _ => FVector.ZeroVector⟩

/-- The six perimeters assigned by `Face::Face(i, ...)` for `i` in `0 .. 5`;
`Uninit` is what the four entries held before. -/
def faceTable (Uninit : Fin 4 → Nat) : Fin 6 → Fin 4 → Nat :=
  fun i => Face.perimeterOf Uninit (i.val : Int)

/-- The directed perimeter edges of a face table, each with its face:
`(i, Perimeter[j], Perimeter[(j + 1) % 4])` for every face `i` and every `j`. -/
def directedEdges (T : Fin 6 → Fin 4 → Nat) : List (Fin 6 × Nat × Nat) :=
  (List.finRange 6).flatMap fun i => (List.finRange 4).map fun j => (i, T i j, T i (j + 1))

/-- The faces of a table in which the vertex index `v` occurs. -/
def facesWithVertex (T : Fin 6 → Fin 4 → Nat) (v : Nat) : List (Fin 6) :=
  (List.finRange 6).filter fun i => decide (∃ j, T i j = v)

/-- The faces of a table that have the edge between `a` and `b` on their
perimeter, in either direction. -/
def facesWithEdge (T : Fin 6 → Fin 4 → Nat) (a b : Nat) : List (Fin 6) :=
  (List.finRange 6).filter fun i =>
    decide (∃ j, (T i j = a ∧ T i (j + 1) = b) ∨ (T i j = b ∧ T i (j + 1) = a))

/-- The undirected edges of a table: each directed edge with its smaller end
first, without repetition. -/
def undirectedEdges (T : Fin 6 → Fin 4 → Nat) : List (Nat × Nat) :=
  ((directedEdges T).map fun e => (min e.2.1 e.2.2, max e.2.1 e.2.2)).dedup

/-- The cuboid `[q + 1, q + 2]^3`, in the documented vertex order, with zeroed
faces. -/
def shiftedCube (q : ℚ) : Cuboid :=
  { Faces := fun _ => Face.zeroed
    Vertices := fun i =>
      ⟨if i.val % 4 = 0 ∨ i.val % 4 = 3 then q + 2 else q + 1,
        if i.val % 4 < 2 then q + 2 else q + 1,
        if i.val < 4 then q + 2 else q + 1⟩ }

/-! ## Binary32 arithmetic -/

/-- The number of binary digits of `n`, by halving at most `fuel` times. -/
def bitLengthAux : Nat → Nat → Nat
  | 0, _ => 0
  | fuel + 1, n => if n = 0 then 0 else bitLengthAux fuel (n / 2) + 1

/-- The number of binary digits of `n` (0 for `n = 0`). -/
def bitLength (n : Nat) : Nat := bitLengthAux n n

/-- For `x ≠ 0`, the exponent `e` with `2 ^ e ≤ |x| < 2 ^ (e + 1)`. -/
def floorLog2 (x : ℚ) : ℤ :=
  if (2 : ℚ) ^ ((bitLength x.num.natAbs : ℤ) - (bitLength x.den : ℤ)) ≤ |x| then
    (bitLength x.num.natAbs : ℤ) - (bitLength x.den : ℤ)
  else (bitLength x.num.natAbs : ℤ) - (bitLength x.den : ℤ) - 1

/-- Rounding to the nearest integer, ties to the even one. -/
def roundHalfEven (q : ℚ) : ℤ :=
  if q - ⌊q⌋ < 1 / 2 then ⌊q⌋
  else if 1 / 2 < q - ⌊q⌋ then ⌊q⌋ + 1
  else if ⌊q⌋ % 2 = 0 then ⌊q⌋ else ⌊q⌋ + 1

/-- A binary32 value (`float`): a finite number, held exactly, one of the two
infinities, or a NaN.  The sign of a zero and the payload of a NaN are not
held. -/
inductive F32 where
  | fin (q : ℚ)
  | pinf
  | ninf
  | nan
  deriving DecidableEq

namespace F32

/-- The spacing of binary32 numbers around `x`: `2 ^ (e - 23)` with `e` the
exponent of `x`, and `2 ^ (-149)` in the subnormal range. -/
def ulp (x : ℚ) : ℚ := (2 : ℚ) ^ (max (floorLog2 x) (-126) - 23)

/-- The number with a 24-bit significand nearest to `x`, ties to even, before
the overflow check. -/
def roundQ (x : ℚ) : ℚ := roundHalfEven (x / ulp x) * ulp x

/-- The largest finite binary32 number, `(2 ^ 24 - 1) * 2 ^ 104`. -/
def maxFinite : ℚ := (2 ^ 24 - 1) * 2 ^ 104

/-- Rounding of an exact result to binary32 (round to nearest, ties to even): a
result beyond the largest finite number becomes an infinity. -/
def round (x : ℚ) : F32 :=
  if maxFinite < roundQ x then pinf
  else if roundQ x < -maxFinite then ninf
  else fin (roundQ x)

/-- The number `x` is a binary32 number: rounding leaves it as it is. -/
def Exact (x : ℚ) : Prop := round x = fin x

/-- Unary minus. -/
def neg : F32 → F32
  | fin a => fin (-a)
  | pinf => ninf
  | ninf => pinf
  | nan => nan

/-- The sign of a value: 1, -1, or 0 for a zero and a NaN. -/
def sign : F32 → Int
  | fin a => if 0 < a then 1 else if a < 0 then -1 else 0
  | pinf => 1
  | ninf => -1
  | nan => 0

/-- Float addition. -/
def add : F32 → F32 → F32
  | fin a, fin b => round (a + b)
  | nan, _ => nan
  | _, nan => nan
  | pinf, ninf => nan
  | ninf, pinf => nan
  | pinf, _ => pinf
  | _, pinf => pinf
  | ninf, _ => ninf
  | _, ninf => ninf

/-- Float subtraction. -/
def sub (a b : F32) : F32 := add a (neg b)

/-- Float multiplication; an infinity times a zero is a NaN. -/
def mul : F32 → F32 → F32
  | fin a, fin b => round (a * b)
  | nan, _ => nan
  | _, nan => nan
  | a, b =>
    if sign a * sign b = 0 then nan else if 0 < sign a * sign b then pinf else ninf

/-- Float division; a zero divisor counts as `+0`. -/
def div : F32 → F32 → F32
  | nan, _ => nan
  | _, nan => nan
  | fin a, fin b =>
    if b = 0 then (if a = 0 then nan else if 0 < a then pinf else ninf) else round (a / b)
  | fin _, _ => fin 0
  | a, fin b => if 0 ≤ b then a else neg a
  | _, _ => nan

/-- The comparison `a < b`: false when either side is a NaN. -/
def lt : F32 → F32 → Bool
  | nan, _ => false
  | _, nan => false
  | fin a, fin b => decide (a < b)
  | ninf, ninf => false
  | ninf, _ => true
  | _, ninf => false
  | pinf, _ => false
  | _, pinf => true

/-- The comparison `a <= b`: false when either side is a NaN. -/
def le : F32 → F32 → Bool
  | nan, _ => false
  | _, nan => false
  | fin a, fin b => decide (a ≤ b)
  | ninf, _ => true
  | _, pinf => true
  | _, _ => false

/-- The absolute value (`abs`, `fabs`). -/
def abs : F32 → F32
  | fin a => fin |a|
  | pinf => pinf
  | ninf => pinf
  | nan => nan

/-- `std::min(a, b)`: `(b < a) ? b : a`. -/
def stdMin (a b : F32) : F32 := if lt b a then b else a

/-- `std::max(a, b)`: `(a < b) ? b : a`. -/
def stdMax (a b : F32) : F32 := if lt a b then b else a

end F32

/-- `FVector2D` with binary32 coordinates. -/
structure FVector2D32 where
  X : F32
  Y : F32
  deriving DecidableEq

/-- `FVector` with binary32 coordinates. -/
structure FVector32 where
  X : F32
  Y : F32
  Z : F32
  deriving DecidableEq

/-- A vector of finite coordinates as a vector of floats. -/
def FVector2D.toF32 (P : FVector2D) : FVector2D32 := ⟨F32.fin P.X, F32.fin P.Y⟩

/-- A vector of finite coordinates as a vector of floats. -/
def FVector.toF32 (P : FVector) : FVector32 := ⟨F32.fin P.X, F32.fin P.Y, F32.fin P.Z⟩

namespace FVector2D32

/-- Engine `operator-` on `FVector2D`, in binary32. -/
def sub (A B : FVector2D32) : FVector2D32 := ⟨F32.sub A.X B.X, F32.sub A.Y B.Y⟩

/-- Engine `FVector2D::CrossProduct`, `A.X * B.Y - A.Y * B.X`, in binary32: each
product and the difference is rounded. -/
def CrossProduct (A B : FVector2D32) : F32 :=
  F32.sub (F32.mul A.X B.Y) (F32.mul A.Y B.X)

end FVector2D32

namespace Utils

/-- `const float MIN_SAFE_LENGTH = 1e-9`: the binary32 number nearest to
`1e-9`. -/
def MIN_SAFE_LENGTH32 : F32 := F32.round (1 / 1000000000)

/-- `const float FAST_ATAN_MAX = 1 / MIN_SAFE_LENGTH`, in binary32. -/
def FAST_ATAN_MAX32 : F32 := F32.div (F32.fin 1) MIN_SAFE_LENGTH32

/-- `const float FAST_ATAN_MIN = -1 / MIN_SAFE_LENGTH`, in binary32. -/
def FAST_ATAN_MIN32 : F32 := F32.div (F32.fin (-1)) MIN_SAFE_LENGTH32

/-- `Utils::FastAtan`, in binary32. -/
def FastAtan32 (X : F32) : F32 :=
  if F32.le X FAST_ATAN_MIN32 then FAST_ATAN_MIN32
  else if F32.le X FAST_ATAN_MAX32 then X
  else FAST_ATAN_MAX32

/-- C library `copysign(x, y)` in binary32.  `SignBit` is the sign bit of `y`
when `y` is a zero or a NaN, which a value of `F32` does not hold. -/
def copysign32 (SignBit : Bool) (x y : F32) : F32 :=
  match y with
  | F32.fin b =>
    if b < 0 then F32.neg (F32.abs x)
    else if 0 < b then F32.abs x
    else if SignBit then F32.neg (F32.abs x) else F32.abs x
  | F32.pinf => F32.abs x
  | F32.ninf => F32.neg (F32.abs x)
  | F32.nan => if SignBit then F32.neg (F32.abs x) else F32.abs x

/-- The determinant `V1.X * V2.Y - V1.Y * V2.X` as `GetAngleFast` computes it. -/
def det32 (V1 V2 : FVector2D32) : F32 :=
  F32.sub (F32.mul V1.X V2.Y) (F32.mul V1.Y V2.X)

/-- The dot product `V1.X * V2.X + V1.Y * V2.Y` as `GetAngleFast` computes it. -/
def dot32 (V1 V2 : FVector2D32) : F32 :=
  F32.add (F32.mul V1.X V2.X) (F32.mul V1.Y V2.Y)

/-- `Utils::GetAngleFast`, in binary32, with its division recorded: the first
component is the value returned, the second is the divisor of `det / dot` when
that statement is executed and `none` when the function returns before it. -/
def GetAngleFast32Traced (SignBit : Bool) (V1 V2 : FVector2D32) : F32 × Option F32 :=
  let det := det32 V1 V2
  let dot := dot32 V1 V2
  if F32.lt (F32.neg MIN_SAFE_LENGTH32) dot && F32.lt dot MIN_SAFE_LENGTH32 then
    (copysign32 SignBit FAST_ATAN_MAX32 det, none)
  else
    let tan := F32.div det dot
    if F32.lt (F32.fin 0) dot then (FastAtan32 tan, some dot)
    else if F32.lt (F32.fin 0) det then (F32.add (FastAtan32 tan) FAST_ATAN_MAX32, some dot)
    else (F32.sub (FastAtan32 tan) FAST_ATAN_MAX32, some dot)

/-- `Utils::GetAngleFast`, in binary32. -/
def GetAngleFast32 (SignBit : Bool) (V1 V2 : FVector2D32) : F32 :=
  let det := det32 V1 V2
  let dot := dot32 V1 V2
  if F32.lt (F32.neg MIN_SAFE_LENGTH32) dot && F32.lt dot MIN_SAFE_LENGTH32 then
    copysign32 SignBit FAST_ATAN_MAX32 det
  else
    let tan := F32.div det dot
    if F32.lt (F32.fin 0) dot then FastAtan32 tan
    else if F32.lt (F32.fin 0) det then F32.add (FastAtan32 tan) FAST_ATAN_MAX32
    else F32.sub (FastAtan32 tan) FAST_ATAN_MAX32

/-- `Utils::CheckSegmentsIntersect`, in binary32: every difference, product and
comparison is the float operation; `abs` is the absolute value of a float. -/
def CheckSegmentsIntersect (P1 P2 P3 P4 : FVector2D32) : Bool :=
  let V1 := P2.sub P1
  let V2 := P3.sub P4
  let V1CrossV2 := FVector2D32.CrossProduct V1 V2
  let P1ToP4 := P4.sub P1
  if F32.le (F32.abs V1CrossV2) MIN_SAFE_LENGTH32 then false
  else
    let T1 := FVector2D32.CrossProduct P1ToP4 V2
    let T2 := FVector2D32.CrossProduct P1ToP4 V1
    (F32.lt (F32.fin 0) V1CrossV2 && F32.lt (F32.fin 0) T1 && F32.lt T1 V1CrossV2 &&
        F32.lt (F32.fin 0) T2 && F32.lt T2 V1CrossV2) ||
      (F32.lt V1CrossV2 T1 && F32.lt T1 (F32.fin 0) && F32.lt V1CrossV2 T2 &&
        F32.lt T2 (F32.fin 0))

end Utils

/-- `struct OptSegment` with binary32 fields. -/
structure OptSegment32 where
  Start : FVector32
  Reciprocal : FVector32

/-- Modelled from the spec: the engine's `FVector::Reciprocal` is not part of the
repository.  One component in binary32: the rounded quotient `1.f / x` when `x`
is not zero, and the stand-in `Big` for a zero, which section 3 of the spec calls
infinite and for which the engine takes `BIG_NUMBER`. -/
def F32.reciprocal (Big : F32) (x : F32) : F32 :=
  if x = F32.fin 0 then Big else F32.div (F32.fin 1) x

/-- `OptSegment::OptSegment(FVector Start, FVector End)`, in binary32. -/
def OptSegment32.ofEndpoints (Big : F32) (Start End : FVector32) : OptSegment32 :=
  { Start := Start
    Reciprocal :=
      ⟨F32.reciprocal Big (F32.sub End.X Start.X), F32.reciprocal Big (F32.sub End.Y Start.Y),
        F32.reciprocal Big (F32.sub End.Z Start.Z)⟩ }

/-- `struct AABB` with binary32 fields. -/
structure AABB32 where
  Min : FVector32
  Max : FVector32

/-- A box of finite coordinates as a box of floats. -/
def AABB.toF32 (B : AABB) : AABB32 := ⟨B.Min.toF32, B.Max.toF32⟩

/-- `AABB::Intersects(OptSegment)`, in binary32, statement by statement: the X
axis sets both `TimeMin` and `TimeMax` to `std::min(TimeX1, TimeX2)`. -/
def AABB32.Intersects (B : AABB32) (Segment : OptSegment32) : Bool :=
  let TimeX1 := F32.mul (F32.sub B.Min.X Segment.Start.X) Segment.Reciprocal.X
  let TimeX2 := F32.mul (F32.sub B.Max.X Segment.Start.X) Segment.Reciprocal.X
  let TimeMin0 := F32.stdMin TimeX1 TimeX2
  let TimeMax0 := F32.stdMin TimeX1 TimeX2
  let TimeY1 := F32.mul (F32.sub B.Min.Y Segment.Start.Y) Segment.Reciprocal.Y
  let TimeY2 := F32.mul (F32.sub B.Max.Y Segment.Start.Y) Segment.Reciprocal.Y
  let TimeMin1 := F32.stdMax TimeMin0 (F32.stdMin TimeY1 TimeY2)
  let TimeMax1 := F32.stdMin TimeMax0 (F32.stdMax TimeY1 TimeY2)
  let TimeZ1 := F32.mul (F32.sub B.Min.Z Segment.Start.Z) Segment.Reciprocal.Z
  let TimeZ2 := F32.mul (F32.sub B.Max.Z Segment.Start.Z) Segment.Reciprocal.Z
  let TimeMin2 := F32.stdMax TimeMin1 (F32.stdMin TimeZ1 TimeZ2)
  let TimeMax2 := F32.stdMin TimeMax1 (F32.stdMax TimeZ1 TimeZ2)
  F32.le (F32.stdMax (F32.fin 0) TimeMin2) TimeMax2 && F32.lt TimeMin2 (F32.fin 1)

/-- Engine constant `BIG_NUMBER` (`3.4e+38f`), which the engine's
`FVector::Reciprocal` returns for a zero component; the engine is not part of
the repository. -/
def BIG_NUMBER : F32 := F32.round 340000000000000000000000000000000000000

instance (x : ℚ) : Decidable (F32.Exact x) :=
  inferInstanceAs (Decidable (F32.round x = F32.fin x))
namespace Utils

/-- The value of the float constant `MIN_SAFE_LENGTH`. -/
def minSafeLength32 : ℚ := 9007199 / 9007199254740992

/-- The two coordinate differences of `A - B` are computed without rounding. -/
def ExactSub (A B : FVector2D) : Prop := F32.Exact (A.X - B.X) ∧ F32.Exact (A.Y - B.Y)

/-- The two products and the difference of `CrossProduct(A, B)` are computed
without rounding. -/
def ExactCross (A B : FVector2D) : Prop :=
  F32.Exact (A.X * B.Y) ∧ F32.Exact (A.Y * B.X) ∧ F32.Exact (A.X * B.Y - A.Y * B.X)

/-- Every operation of `CheckSegmentsIntersect(P1, P2, P3, P4)` is computed
without rounding: the three vector differences and the three cross
products. -/
def ExactSegmentOps (P1 P2 P3 P4 : FVector2D) : Prop :=
  ExactSub P2 P1 ∧ ExactSub P3 P4 ∧ ExactSub P4 P1 ∧
    ExactCross (P2.sub P1) (P3.sub P4) ∧ ExactCross (P4.sub P1) (P3.sub P4) ∧
    ExactCross (P4.sub P1) (P2.sub P1)

instance (A B : FVector2D) : Decidable (ExactSub A B) := by
  unfold ExactSub
  infer_instance

instance (A B : FVector2D) : Decidable (ExactCross A B) := by
  unfold ExactCross
  infer_instance

instance (P1 P2 P3 P4 : FVector2D) : Decidable (ExactSegmentOps P1 P2 P3 P4) := by
  unfold ExactSegmentOps
  infer_instance

end Utils

/-! ## Exactness of the slab operations -/

/-- The six operations of `OptSegment::OptSegment` and `AABB::Intersects` on one
axis have results that binary32 holds exactly: the direction `e - s`, its
reciprocal, the two differences to the slab bounds `m` and `M`, and the two
products. -/
def ExactAxisOps (m M s e : ℚ) : Prop :=
  F32.Exact (e - s) ∧ F32.Exact (1 / (e - s)) ∧ F32.Exact (m - s) ∧ F32.Exact (M - s) ∧
    F32.Exact ((m - s) * (1 / (e - s))) ∧ F32.Exact ((M - s) * (1 / (e - s)))

/-- The operations of the slab test are exact on all three axes. -/
def AABB.ExactSlabOps (B : AABB) (Start End : FVector) : Prop :=
  ExactAxisOps B.Min.X B.Max.X Start.X End.X ∧ ExactAxisOps B.Min.Y B.Max.Y Start.Y End.Y ∧
    ExactAxisOps B.Min.Z B.Max.Z Start.Z End.Z

/-- Both endpoints `s`, `e` lie outside the slab `[m, M]` on the same side, in
one of three ways the float code detects: the direction is not zero and the
operations of the axis are exact; or the direction is zero, the endpoints lie
above `M` and the stand-in `Big` for the reciprocal of zero is at least 1; or the
direction is zero, the endpoints lie below `m` and `Big` is infinite or at least
`1 / (m - s)`. -/
def OutsideOnAxis (Big : F32) (m M s e : ℚ) : Prop :=
  (e - s ≠ 0 ∧ ExactAxisOps m M s e ∧ ((M < s ∧ M < e) ∨ (s < m ∧ e < m))) ∨
    (e = s ∧ F32.Exact (m - s) ∧ F32.Exact (M - s) ∧ M < s ∧ F32.le (F32.fin 1) Big = true) ∨
    (e = s ∧ F32.Exact (m - s) ∧ F32.Exact (M - s) ∧ s < m ∧
      (Big = F32.pinf ∨ ∃ b : ℚ, Big = F32.fin b ∧ 1 ≤ (m - s) * b))

/-- A slab time that is negative or not a number. -/
def F32.NegOrNaN (t : F32) : Prop := t = F32.nan ∨ F32.lt t (F32.fin 0) = true

/-- A slab time that is at least 1 or not a number. -/
def F32.GeOneOrNaN (t : F32) : Prop := t = F32.nan ∨ F32.le (F32.fin 1) t = true

instance (m M s e : ℚ) : Decidable (ExactAxisOps m M s e) := by
  unfold ExactAxisOps
  infer_instance

instance (B : AABB) (Start End : FVector) : Decidable (B.ExactSlabOps Start End) := by
  unfold AABB.ExactSlabOps
  infer_instance

instance (B : AABB) : Decidable B.WellFormed := by
  unfold AABB.WellFormed
  infer_instance

namespace Utils

/-- A float between `FAST_ATAN_MIN` and `FAST_ATAN_MAX`: both comparisons hold,
so the float is a number. -/
def InRange32 (r : F32) : Prop :=
  F32.le FAST_ATAN_MIN32 r = true ∧ F32.le r FAST_ATAN_MAX32 = true

end Utils

/-! ## Theorems -/

/-- C1 (failing input): the box `[(-1,-1,-1), (1,1,1)]` is well formed; the
segment from `(0,0,0)` to `(5,5,5)` starts inside it and the segment from
`(0,-5,0)` to `(0,5,0)` runs through it along the Y axis, so each has a point
with `0 <= t < 1` in the box; `AABB::Intersects` returns false for both. -/
theorem intersects_misses_segments_through_box :
    unitBox.WellFormed ∧
      (∃ t : ℚ, 0 ≤ t ∧ t < 1 ∧ unitBox.Contains (pointAt ⟨0, 0, 0⟩ ⟨5, 5, 5⟩ t)) ∧
      (∀ Big : ℚ,
        unitBox.Intersects (OptSegment.ofEndpoints Big ⟨0, 0, 0⟩ ⟨5, 5, 5⟩) = false) ∧
      (∃ t : ℚ, 0 ≤ t ∧ t < 1 ∧ unitBox.Contains (pointAt ⟨0, -5, 0⟩ ⟨0, 5, 0⟩ t)) ∧
      (∀ Big : ℚ, 0 < Big →
        unitBox.Intersects (OptSegment.ofEndpoints Big ⟨0, -5, 0⟩ ⟨0, 5, 0⟩) = false) := by
  refine ⟨?_, ⟨0, le_refl _, by norm_num, ?_⟩, ?_, ⟨1 / 2, by norm_num, by norm_num, ?_⟩, ?_⟩
  · simp [AABB.WellFormed, unitBox]
  · simp [AABB.Contains, unitBox, pointAt, FVector.add, FVector.sub, FVector.scale]
  · intro Big
    simp [AABB.Intersects, unitBox, OptSegment.ofEndpoints, FVector.Reciprocal, FVector.sub]
  · norm_num [AABB.Contains, unitBox, pointAt, FVector.add, FVector.sub, FVector.scale]
  · intro Big hBig
    rw [Bool.eq_false_iff]
    intro hc
    simp only [AABB.Intersects, Bool.and_eq_true, decide_eq_true_eq, OptSegment.ofEndpoints,
      FVector.Reciprocal, FVector.sub, unitBox, ge_iff_le, sub_self, ne_eq, not_true_eq_false,
      if_false] at hc
    have h1 := le_trans (le_max_left _ _) hc.1
    have h2 := le_trans h1 (le_trans (min_le_left _ _) (le_trans (min_le_left _ _)
      (min_le_left _ _)))
    nlinarith

namespace Utils

/-- C2 (failing input): with reference `V1 = (1,0)`, the vector `A = (0,1)` is at
the true angle `π/2` and `B = (-1,1)` at a larger true angle, yet
`GetAngleFast` gives `A` the value `10^9` and `B` the smaller value
`10^9 - 1`. -/
theorem getAngleFast_reverses_order :
    GetAngle ⟨1, 0⟩ ⟨0, 1⟩ < GetAngle ⟨1, 0⟩ ⟨-1, 1⟩ ∧
      GetAngleFast ⟨1, 0⟩ ⟨0, 1⟩ = 1000000000 ∧
      GetAngleFast ⟨1, 0⟩ ⟨-1, 1⟩ = 999999999 ∧
      ¬ (GetAngleFast ⟨1, 0⟩ ⟨0, 1⟩ < GetAngleFast ⟨1, 0⟩ ⟨-1, 1⟩) := by
  have hA : GetAngleFast ⟨1, 0⟩ ⟨0, 1⟩ = 1000000000 := by
    norm_num [GetAngleFast, copysign, FastAtan, FAST_ATAN_MAX, FAST_ATAN_MIN, MIN_SAFE_LENGTH]
  have hB : GetAngleFast ⟨1, 0⟩ ⟨-1, 1⟩ = 999999999 := by
    norm_num [GetAngleFast, copysign, FastAtan, FAST_ATAN_MAX, FAST_ATAN_MIN, MIN_SAFE_LENGTH]
  refine ⟨?_, hA, hB, ?_⟩
  · have h1 : GetAngle ⟨1, 0⟩ ⟨0, 1⟩ ≤ Real.pi / 2 := by
      unfold GetAngle
      rw [Complex.arg_le_pi_div_two_iff]
      left
      norm_num
    have h2 : Real.pi / 2 < GetAngle ⟨1, 0⟩ ⟨-1, 1⟩ := by
      unfold GetAngle
      rw [← not_le, Complex.arg_le_pi_div_two_iff]
      norm_num
    exact lt_of_le_of_lt h1 h2
  · rw [hA, hB]
    norm_num

end Utils

/-! ### The bounding box of a cuboid -/

/-- A running minimum is below every value it has visited. -/
theorem foldl_min_le {α ι : Type} [LinearOrder α] (f : ι → α) (l : List ι) (a : α) :
    l.foldl (fun m i => Min.min m (f i)) a ≤ a ∧
      ∀ x ∈ l, l.foldl (fun m i => Min.min m (f i)) a ≤ f x := by
  induction l generalizing a with
  | nil => simp
  | cons y ys ih =>
    obtain ⟨h1, h2⟩ := ih (Min.min a (f y))
    refine ⟨le_trans h1 (min_le_left _ _), ?_⟩
    intro x hx
    rcases List.mem_cons.mp hx with rfl | hx
    · exact le_trans h1 (min_le_right _ _)
    · exact h2 x hx

/-- A running minimum is its initial value or one of the values visited. -/
theorem foldl_min_mem {α ι : Type} [LinearOrder α] (f : ι → α) (l : List ι) (a : α) :
    l.foldl (fun m i => Min.min m (f i)) a = a ∨
      ∃ x ∈ l, l.foldl (fun m i => Min.min m (f i)) a = f x := by
  induction l generalizing a with
  | nil => simp
  | cons y ys ih =>
    rcases ih (Min.min a (f y)) with h | ⟨x, hx, h⟩
    · rcases min_choice a (f y) with hc | hc
      · left
        simpa [hc] using h
      · right
        exact ⟨y, List.mem_cons_self _ _, by simpa [hc] using h⟩
    · right
      exact ⟨x, List.mem_cons_of_mem _ hx, h⟩

/-- A running maximum is above every value it has visited. -/
theorem le_foldl_max {α ι : Type} [LinearOrder α] (f : ι → α) (l : List ι) (a : α) :
    a ≤ l.foldl (fun m i => Max.max m (f i)) a ∧
      ∀ x ∈ l, f x ≤ l.foldl (fun m i => Max.max m (f i)) a := by
  induction l generalizing a with
  | nil => simp
  | cons y ys ih =>
    obtain ⟨h1, h2⟩ := ih (Max.max a (f y))
    refine ⟨le_trans (le_max_left _ _) h1, ?_⟩
    intro x hx
    rcases List.mem_cons.mp hx with rfl | hx
    · exact le_trans (le_max_right _ _) h1
    · exact h2 x hx

/-- A running maximum is its initial value or one of the values visited. -/
theorem foldl_max_mem {α ι : Type} [LinearOrder α] (f : ι → α) (l : List ι) (a : α) :
    l.foldl (fun m i => Max.max m (f i)) a = a ∨
      ∃ x ∈ l, l.foldl (fun m i => Max.max m (f i)) a = f x := by
  induction l generalizing a with
  | nil => simp
  | cons y ys ih =>
    rcases ih (Max.max a (f y)) with h | ⟨x, hx, h⟩
    · rcases max_choice a (f y) with hc | hc
      · left
        simpa [hc] using h
      · right
        exact ⟨y, List.mem_cons_self _ _, by simpa [hc] using h⟩
    · right
      exact ⟨x, List.mem_cons_of_mem _ hx, h⟩

/-- The six running values of the bounding-box loop evolve independently: each
is the running minimum or maximum of one coordinate. -/
theorem boxAcc_foldl (C : Cuboid) (l : List (Fin 8)) (a : BoxAcc) :
    (l.foldl (BoxAcc.step C) a).MinX =
        l.foldl (fun m i => Min.min m (FloatExt.ofRat (C.Vertices i).X)) a.MinX ∧
      (l.foldl (BoxAcc.step C) a).MinY =
        l.foldl (fun m i => Min.min m (FloatExt.ofRat (C.Vertices i).Y)) a.MinY ∧
      (l.foldl (BoxAcc.step C) a).MinZ =
        l.foldl (fun m i => Min.min m (FloatExt.ofRat (C.Vertices i).Z)) a.MinZ ∧
      (l.foldl (BoxAcc.step C) a).MaxX =
        l.foldl (fun m i => Max.max m (FloatExt.ofRat (C.Vertices i).X)) a.MaxX ∧
      (l.foldl (BoxAcc.step C) a).MaxY =
        l.foldl (fun m i => Max.max m (FloatExt.ofRat (C.Vertices i).Y)) a.MaxY ∧
      (l.foldl (BoxAcc.step C) a).MaxZ =
        l.foldl (fun m i => Max.max m (FloatExt.ofRat (C.Vertices i).Z)) a.MaxZ := by
  induction l generalizing a with
  | nil => simp
  | cons y ys ih =>
    simp only [List.foldl_cons]
    exact ih (BoxAcc.step C a y)

/-- A finite float is below `+infinity`. -/
theorem ofRat_ne_infinity (q : ℚ) : FloatExt.ofRat q ≠ FloatExt.infinity := by
  simp [FloatExt.ofRat, FloatExt.infinity]

/-- A finite float is above `-infinity`. -/
theorem ofRat_ne_bot (q : ℚ) : FloatExt.ofRat q ≠ (⊥ : FloatExt) := by
  simp [FloatExt.ofRat]

/-- The running minimum over the eight vertices, started at `+infinity`, is
attained at a vertex. -/
theorem min_attained (f : Fin 8 → ℚ) :
    ∃ i, FloatExt.ofRat (f i) =
      (List.finRange 8).foldl (fun m i => Min.min m (FloatExt.ofRat (f i))) FloatExt.infinity := by
  rcases foldl_min_mem (fun i => FloatExt.ofRat (f i)) (List.finRange 8) FloatExt.infinity
    with h | ⟨x, -, h⟩
  · exfalso
    have h0 := (foldl_min_le (fun i => FloatExt.ofRat (f i)) (List.finRange 8)
      FloatExt.infinity).2 0 (List.mem_finRange 0)
    rw [h] at h0
    have : FloatExt.infinity = (⊤ : FloatExt) := rfl
    rw [this, top_le_iff] at h0
    exact ofRat_ne_infinity _ h0
  · exact ⟨x, h.symm⟩

/-- The running maximum over the eight vertices, started at `-infinity`, is
attained at a vertex. -/
theorem max_attained (f : Fin 8 → ℚ) :
    ∃ i, FloatExt.ofRat (f i) =
      (List.finRange 8).foldl (fun m i => Max.max m (FloatExt.ofRat (f i))) ⊥ := by
  rcases foldl_max_mem (fun i => FloatExt.ofRat (f i)) (List.finRange 8) ⊥
    with h | ⟨x, -, h⟩
  · exfalso
    have h0 := (le_foldl_max (fun i => FloatExt.ofRat (f i)) (List.finRange 8)
      ⊥).2 0 (List.mem_finRange 0)
    rw [h, le_bot_iff] at h0
    exact ofRat_ne_bot _ h0
  · exact ⟨x, h.symm⟩

/-- With the start values `+infinity` and `-infinity`, the loop of
`CuboidBoxConverter` gives a box that bounds every vertex of the cuboid on every
axis, and whose minimum and maximum on every axis are each the coordinate of
some vertex. -/
theorem tight_from_infinite_start (C : Cuboid) :
    (CuboidBoxConverterFrom BoxAcc.infinite C).Tight C := by
  obtain ⟨e1, e2, e3, e4, e5, e6⟩ := boxAcc_foldl C (List.finRange 8) BoxAcc.infinite
  simp only [CuboidBoxConverterFrom, BBox.Tight]
  rw [e1, e2, e3, e4, e5, e6]
  refine ⟨fun i => ⟨?_, ?_, ?_, ?_, ?_, ?_⟩, ?_, ?_, ?_, ?_, ?_, ?_⟩
  · exact (foldl_min_le (fun i => FloatExt.ofRat (C.Vertices i).X) _ _).2 i (List.mem_finRange i)
  · exact (le_foldl_max (fun i => FloatExt.ofRat (C.Vertices i).X) _ _).2 i (List.mem_finRange i)
  · exact (foldl_min_le (fun i => FloatExt.ofRat (C.Vertices i).Y) _ _).2 i (List.mem_finRange i)
  · exact (le_foldl_max (fun i => FloatExt.ofRat (C.Vertices i).Y) _ _).2 i (List.mem_finRange i)
  · exact (foldl_min_le (fun i => FloatExt.ofRat (C.Vertices i).Z) _ _).2 i (List.mem_finRange i)
  · exact (le_foldl_max (fun i => FloatExt.ofRat (C.Vertices i).Z) _ _).2 i (List.mem_finRange i)
  · exact min_attained fun i => (C.Vertices i).X
  · exact max_attained fun i => (C.Vertices i).X
  · exact min_attained fun i => (C.Vertices i).Y
  · exact max_attained fun i => (C.Vertices i).Y
  · exact min_attained fun i => (C.Vertices i).Z
  · exact max_attained fun i => (C.Vertices i).Z

/-- The order of finite floats inside the extended floats. -/
theorem ofRat_le_ofRat (a b : ℚ) : FloatExt.ofRat a ≤ FloatExt.ofRat b ↔ a ≤ b := by
  simp [FloatExt.ofRat]

/-- C4 (failing input): the tight box of the claim needs start values the source
does not supply.  From `+infinity` and `-infinity` the loop of
`CuboidBoxConverter` returns a tight box for every cuboid, and
`CuboidBoxConverter` as embedded is that reading; from any start values whose
`MinX` is a finite number `q` the box returned for the cube `[q + 1, q + 2]^3` is
not tight, its minimum `q` on the X axis being the coordinate of no vertex. -/
theorem cuboidBoxConverter_tight_needs_infinite_start :
    (∀ C : Cuboid, (CuboidBoxConverterFrom BoxAcc.infinite C).Tight C) ∧
      (∀ C : Cuboid, CuboidBoxConverter C = CuboidBoxConverterFrom BoxAcc.infinite C) ∧
      ∀ (Init : BoxAcc) (q : ℚ),
        ¬ (CuboidBoxConverterFrom { Init with MinX := FloatExt.ofRat q }
          (shiftedCube q)).Tight (shiftedCube q) := by
  refine ⟨tight_from_infinite_start, fun _ => rfl, ?_⟩
  rintro Init q ⟨-, ⟨i, hi⟩, -⟩
  obtain ⟨e1, -⟩ := boxAcc_foldl (shiftedCube q) (List.finRange 8)
    { Init with MinX := FloatExt.ofRat q }
  simp only [CuboidBoxConverterFrom] at hi
  rw [e1] at hi
  have hle := (foldl_min_le (fun i => FloatExt.ofRat ((shiftedCube q).Vertices i).X)
    (List.finRange 8) (FloatExt.ofRat q)).1
  rw [← hi, ofRat_le_ofRat] at hle
  simp only [shiftedCube] at hle
  split_ifs at hle <;> linarith

/-! ### The slab test -/

/-- C6 (failing input): for the box `[(-1,-1,-1), (1,1,1)]` and the segment with
start `(0,0,0)` and reciprocal `(1/5,1/5,1/5)`, the slab fold of the
specification is true and `AABB::Intersects` is false. -/
theorem intersects_differs_from_slab_fold :
    slabFoldSpec unitBox ⟨⟨0, 0, 0⟩, ⟨1 / 5, 1 / 5, 1 / 5⟩⟩ = true ∧
      unitBox.Intersects ⟨⟨0, 0, 0⟩, ⟨1 / 5, 1 / 5, 1 / 5⟩⟩ = false := by
  constructor
  · norm_num [slabFoldSpec, unitBox]
  · norm_num [AABB.Intersects, unitBox]

/-! ### Construction of a cuboid -/

/-- The loop bounds `0 .. CUBOID_V - 1`. -/
theorem finRange_eight : List.finRange 8 = [0, 1, 2, 3, 4, 5, 6, 7] := by decide

/-- The loop bounds `0 .. CUBOID_F - 1`. -/
theorem finRange_six : List.finRange 6 = [0, 1, 2, 3, 4, 5] := by decide

/-- The first loop of the constructor copies the eight vertices of the list. -/
theorem copy_loop (U : Fin 8 → FVector) (v0 v1 v2 v3 v4 v5 v6 v7 : FVector) :
    (List.finRange 8).foldlM
        (fun acc i => ([v0, v1, v2, v3, v4, v5, v6, v7][i.val]?).map (Function.update acc i)) U =
      some ![v0, v1, v2, v3, v4, v5, v6, v7] := by
  rw [finRange_eight]
  simp only [List.foldlM, Option.bind_eq_bind]
  simp
  funext i
  fin_cases i <;> rfl

/-- A loop that stores a successfully built value in each of six slots ends with
exactly these values. -/
theorem store_loop {β : Type} (f : Fin 6 → Option β) (g : Fin 6 → β) (U : Fin 6 → β)
    (h : ∀ i, f i = some (g i)) :
    (List.finRange 6).foldlM (fun acc i => (f i).map (Function.update acc i)) U = some g := by
  rw [finRange_six]
  simp only [List.foldlM, Option.bind_eq_bind, h]
  simp
  funext i
  fin_cases i <;> rfl

/-- The perimeter the `switch` assigns to face `i` in `0 .. 5` holds indexes
below 8, whatever the memory held before. -/
theorem perimeterOf_val (U : Fin 4 → Nat) (i : Fin 6) (j : Fin 4) :
    Face.perimeterOf U (i.val : Int) j = (Face.perimeterIndex i j).val := by
  fin_cases i <;> fin_cases j <;> rfl

/-- The table of perimeter indexes. -/
theorem perimeterIndex_table :
    Face.perimeterIndex =
      ![![0, 1, 2, 3], ![2, 6, 7, 3], ![0, 3, 7, 4], ![0, 4, 5, 1], ![1, 5, 6, 2],
        ![4, 7, 6, 5]] := by
  funext i j
  fin_cases i <;> fin_cases j <;> rfl

/-- A read at an index below 8 returns the vertex. -/
theorem readVertex_val (V : Fin 8 → FVector) (k : Fin 8) : readVertex V k.val = some (V k) := by
  simp [readVertex]

/-- The cross product of face `i` in `0 .. 5`, in terms of the vertices. -/
theorem crossOf_perimeterOf (V : Fin 8 → FVector) (U : Fin 4 → Nat) (i : Fin 6) :
    Face.crossOf V (Face.perimeterOf U (i.val : Int)) =
      some (((V (Face.perimeterIndex i 1)).sub (V (Face.perimeterIndex i 0))).CrossProduct
        ((V (Face.perimeterIndex i 2)).sub (V (Face.perimeterIndex i 0)))) := by
  simp [Face.crossOf, perimeterOf_val, readVertex_val]

/-- Building face `i` for `i` in `0 .. 5` reads only vertices in range: it
succeeds, with the perimeter of the `switch` and the normalised cross
product. -/
theorem ofIndex_some (InvSqrt : ℚ → ℚ) (Temp : Face) (V : Fin 8 → FVector) (i : Fin 6) :
    Face.ofIndex InvSqrt Temp (i.val : Int) V =
      some { Normal :=
               (((V (Face.perimeterIndex i 1)).sub (V (Face.perimeterIndex i 0))).CrossProduct
                 ((V (Face.perimeterIndex i 2)).sub (V (Face.perimeterIndex i 0)))).GetSafeNormal
                 InvSqrt (1 / 1000000)
             Perimeter := Face.perimeterOf Temp.Perimeter (i.val : Int) } := by
  simp [Face.ofIndex, crossOf_perimeterOf]

/-- A list of eight vertices yields a cuboid holding these vertices, whose face
`i` is the one `Face::Face(i, Vertices)` builds. -/
theorem ofVertices_eight (InvSqrt : ℚ → ℚ) (Uninit : Cuboid) (Temp : Face)
    (v0 v1 v2 v3 v4 v5 v6 v7 : FVector) :
    ∃ C, Cuboid.ofVertices InvSqrt Uninit Temp [v0, v1, v2, v3, v4, v5, v6, v7] = some C ∧
      C.Vertices = ![v0, v1, v2, v3, v4, v5, v6, v7] ∧
      ∀ i : Fin 6,
        Face.ofIndex InvSqrt Temp (i.val : Int) ![v0, v1, v2, v3, v4, v5, v6, v7] =
          some (C.Faces i) := by
  have hF : ∀ i : Fin 6, ∃ F,
      Face.ofIndex InvSqrt Temp (i.val : Int) ![v0, v1, v2, v3, v4, v5, v6, v7] = some F := by
    intro i
    exact ⟨_, ofIndex_some InvSqrt Temp ![v0, v1, v2, v3, v4, v5, v6, v7] i⟩
  choose g hg using hF
  refine ⟨{ Faces := g, Vertices := ![v0, v1, v2, v3, v4, v5, v6, v7] }, ?_, rfl, hg⟩
  unfold Cuboid.ofVertices
  rw [if_neg (by simp [CUBOID_V])]
  simp only [Option.bind_eq_bind, bind, copy_loop, Option.bind]
  rw [store_loop _ g Uninit.Faces hg]
  rfl

/-- `GetVertex(i, j)` with `i` in `0 .. 5` and `j` in `0 .. 3` reads
`Vertices[Faces[i].Perimeter[j]]`. -/
theorem getVertex_cast (C : Cuboid) (i : Fin 6) (j : Fin 4) :
    C.GetVertex (i.val : Int) (j.val : Int) =
      readVertex C.Vertices ((C.Faces i).Perimeter j) := by
  have hi : (0 : Int) ≤ (i.val : Int) ∧ (i.val : Int) < 6 := by omega
  have hj : (0 : Int) ≤ (j.val : Int) ∧ (j.val : Int) < 4 := by omega
  simp [Cuboid.GetVertex, hi, hj]

/-- The geometry of a cuboid whose faces were built from its vertices: face by
face, the stored face, the cross product and the centroid in terms of the
vertices. -/
theorem built_face (InvSqrt : ℚ → ℚ) (Temp : Face) (C : Cuboid) (i : Fin 6)
    (hF : Face.ofIndex InvSqrt Temp (i.val : Int) C.Vertices = some (C.Faces i)) :
    (C.Faces i).Perimeter = Face.perimeterOf Temp.Perimeter (i.val : Int) ∧
      (C.Faces i).Normal =
        (((C.Vertices (Face.perimeterIndex i 1)).sub
            (C.Vertices (Face.perimeterIndex i 0))).CrossProduct
          ((C.Vertices (Face.perimeterIndex i 2)).sub
            (C.Vertices (Face.perimeterIndex i 0)))).GetSafeNormal InvSqrt (1 / 1000000) ∧
      C.faceCross i =
        some (((C.Vertices (Face.perimeterIndex i 1)).sub
            (C.Vertices (Face.perimeterIndex i 0))).CrossProduct
          ((C.Vertices (Face.perimeterIndex i 2)).sub
            (C.Vertices (Face.perimeterIndex i 0)))) ∧
      C.faceCentroid i =
        some (((((C.Vertices (Face.perimeterIndex i 0)).add
            (C.Vertices (Face.perimeterIndex i 1))).add
            (C.Vertices (Face.perimeterIndex i 2))).add
            (C.Vertices (Face.perimeterIndex i 3))).scale (1 / 4)) := by
  rw [ofIndex_some] at hF
  have hF1 := (Option.some.inj hF).symm
  have hP : (C.Faces i).Perimeter = Face.perimeterOf Temp.Perimeter (i.val : Int) := by
    rw [hF1]
  refine ⟨hP, by rw [hF1], ?_, ?_⟩
  · rw [Cuboid.faceCross, hP, crossOf_perimeterOf]
  · have e0 := getVertex_cast C i 0
    have e1 := getVertex_cast C i 1
    have e2 := getVertex_cast C i 2
    have e3 := getVertex_cast C i 3
    simp only [hP, perimeterOf_val, readVertex_val] at e0 e1 e2 e3
    have c0 : ((0 : Fin 4).val : Int) = 0 := rfl
    have c1 : ((1 : Fin 4).val : Int) = 1 := rfl
    have c2 : ((2 : Fin 4).val : Int) = 2 := rfl
    have c3 : ((3 : Fin 4).val : Int) = 3 := rfl
    rw [c0] at e0
    rw [c1] at e1
    rw [c2] at e2
    rw [c3] at e3
    simp [Cuboid.faceCentroid, e0, e1, e2, e3]

/-- The four perimeter vertices of each face of a cuboid, by vertex position. -/
theorem perimeter_vertices (v0 v1 v2 v3 v4 v5 v6 v7 : FVector) (C : Cuboid)
    (hV : C.Vertices = ![v0, v1, v2, v3, v4, v5, v6, v7]) (i : Fin 6) :
    (C.Vertices (Face.perimeterIndex i 0), C.Vertices (Face.perimeterIndex i 1),
      C.Vertices (Face.perimeterIndex i 2), C.Vertices (Face.perimeterIndex i 3)) =
      (match i.val with
        | 0 => (v0, v1, v2, v3)
        | 1 => (v2, v6, v7, v3)
        | 2 => (v0, v3, v7, v4)
        | 3 => (v0, v4, v5, v1)
        | 4 => (v1, v5, v6, v2)
        | _ => (v4, v7, v6, v5)) := by
  rw [hV]
  fin_cases i <;> rfl

/-- The centroid of a cuboid, by vertex position. -/
theorem boxCentroid_vertices (v0 v1 v2 v3 v4 v5 v6 v7 : FVector) (C : Cuboid)
    (hV : C.Vertices = ![v0, v1, v2, v3, v4, v5, v6, v7]) :
    C.boxCentroid =
      ((((((((FVector.ZeroVector.add v0).add v1).add v2).add v3).add v4).add v5).add v6).add
        v7).scale (1 / 8) := by
  rw [Cuboid.boxCentroid, finRange_eight, hV]
  rfl

/-! ### Face normals -/

/-- A normalised vector of squared length at least the tolerance is a positive
multiple of the vector. -/
theorem getSafeNormal_dot (InvSqrt : ℚ → ℚ) (hInv : ∀ x, 0 < x → 0 < InvSqrt x)
    (c d : FVector) (tol : ℚ) (htol : 0 < tol) (hc : tol ≤ c.SizeSquared) :
    ∃ k : ℚ, 0 < k ∧ (c.GetSafeNormal InvSqrt tol).DotProduct d = k * c.DotProduct d := by
  unfold FVector.SizeSquared at hc
  unfold FVector.GetSafeNormal
  by_cases h1 : c.X * c.X + c.Y * c.Y + c.Z * c.Z = 1
  · exact ⟨1, one_pos, by simp [h1]⟩
  · refine ⟨InvSqrt (c.X * c.X + c.Y * c.Y + c.Z * c.Z), hInv _ (lt_of_lt_of_le htol hc), ?_⟩
    simp only [h1, if_false, not_lt.mpr hc, FVector.scale, FVector.DotProduct]
    ring

/-- The image of the default vertices as an explicit list of eight vertices. -/
theorem affineImage_eq (A : Mat3) (b : FVector) :
    affineImage A b =
      [(A.mulVec AOccludingCuboid.V0).add b, (A.mulVec AOccludingCuboid.V1).add b,
        (A.mulVec AOccludingCuboid.V2).add b, (A.mulVec AOccludingCuboid.V3).add b,
        (A.mulVec AOccludingCuboid.V4).add b, (A.mulVec AOccludingCuboid.V5).add b,
        (A.mulVec AOccludingCuboid.V6).add b, (A.mulVec AOccludingCuboid.V7).add b] := rfl

/-- A normalised vector has no positive dot product with a direction with which
the vector itself has none. -/
theorem getSafeNormal_dot_nonpos (InvSqrt : ℚ → ℚ) (hInv : ∀ x, 0 < x → 0 < InvSqrt x)
    (c d : FVector) (tol : ℚ) (htol : 0 < tol) (hcd : c.DotProduct d ≤ 0) :
    (c.GetSafeNormal InvSqrt tol).DotProduct d ≤ 0 := by
  by_cases hsz : tol ≤ c.SizeSquared
  · obtain ⟨k, hk, hkd⟩ := getSafeNormal_dot InvSqrt hInv c d tol htol hsz
    rw [hkd]
    exact mul_nonpos_of_nonneg_of_nonpos hk.le hcd
  · unfold FVector.SizeSquared at hsz
    unfold FVector.GetSafeNormal
    by_cases h1 : c.X * c.X + c.Y * c.Y + c.Z * c.Z = 1
    · simpa [h1] using hcd
    · simp [h1, not_le.mp hsz, FVector.ZeroVector, FVector.DotProduct]

namespace Utils

/-- The two clamp bounds as numbers. -/
theorem fast_atan_bounds : FAST_ATAN_MAX = 1000000000 ∧ FAST_ATAN_MIN = -1000000000 := by
  constructor <;> norm_num [FAST_ATAN_MAX, FAST_ATAN_MIN, MIN_SAFE_LENGTH]

/-- `FastAtan` stays between the clamp bounds. -/
theorem fastAtan_mem (X : ℚ) : FAST_ATAN_MIN ≤ FastAtan X ∧ FastAtan X ≤ FAST_ATAN_MAX := by
  obtain ⟨hmax, hmin⟩ := fast_atan_bounds
  unfold FastAtan
  split_ifs with h1 h2
  · constructor <;> linarith
  · constructor <;> linarith
  · constructor <;> linarith

/-- `FastAtan` of a negative number is negative, of a non-negative number
non-negative. -/
theorem fastAtan_sign (X : ℚ) : (X < 0 → FastAtan X < 0) ∧ (0 ≤ X → 0 ≤ FastAtan X) := by
  obtain ⟨hmax, hmin⟩ := fast_atan_bounds
  unfold FastAtan
  constructor <;> intro hX <;> split_ifs with h1 h2 <;> linarith

/-- C20: `FastAtan` is monotone, is the identity on
`(FAST_ATAN_MIN, FAST_ATAN_MAX]`, and takes its values in
`[FAST_ATAN_MIN, FAST_ATAN_MAX]`. -/
theorem fastAtan_monotone_clamp (X Y : ℚ) (hXY : X ≤ Y) :
    FastAtan X ≤ FastAtan Y ∧
      (FAST_ATAN_MIN < X → X ≤ FAST_ATAN_MAX → FastAtan X = X) ∧
      FAST_ATAN_MIN ≤ FastAtan X ∧ FastAtan X ≤ FAST_ATAN_MAX := by
  obtain ⟨hmax, hmin⟩ := fast_atan_bounds
  refine ⟨?_, ?_, fastAtan_mem X⟩
  · unfold FastAtan
    split_ifs <;> linarith
  · intro h1 h2
    unfold FastAtan
    rw [if_neg (not_le.mpr h1), if_pos h2]

/-- C20 (witness): `X = 1`, `Y = 2`. -/
theorem fastAtan_monotone_clamp_witness :
    (1 : ℚ) ≤ 2 ∧ FastAtan 1 ≤ FastAtan 2 ∧
      (FAST_ATAN_MIN < 1 → (1 : ℚ) ≤ FAST_ATAN_MAX → FastAtan 1 = 1) ∧
      FAST_ATAN_MIN ≤ FastAtan 1 ∧ FastAtan 1 ≤ FAST_ATAN_MAX :=
  ⟨by norm_num, fastAtan_monotone_clamp 1 2 (by norm_num)⟩

end Utils

/-! ### The face table -/

/-- The face table does not depend on what the memory held: it is the table of
perimeter indexes. -/
theorem faceTable_eq (U : Fin 4 → Nat) :
    faceTable U =
      fun i j => ((![![0, 1, 2, 3], ![2, 6, 7, 3], ![0, 3, 7, 4], ![0, 4, 5, 1], ![1, 5, 6, 2],
        ![4, 7, 6, 5]] : Fin 6 → Fin 4 → Fin 8) i j).val := by
  funext i j
  rw [← perimeterIndex_table]
  exact perimeterOf_val U i j

/-- C19: over the six perimeters of the face table, every vertex index `0 .. 7`
occurs in exactly three faces; every directed perimeter edge occurs exactly once
and its reverse exactly once, in a different face; there are 12 undirected
edges, each on the perimeter of exactly two faces. -/
theorem face_table_closed_surface (U : Fin 4 → Nat) :
    (∀ v : Fin 8, (facesWithVertex (faceTable U) v.val).length = 3) ∧
      (directedEdges (faceTable U)).length = 24 ∧
      (∀ e ∈ directedEdges (faceTable U),
        ((directedEdges (faceTable U)).filter fun f => decide (f.2 = e.2)).length = 1 ∧
        ((directedEdges (faceTable U)).filter fun f =>
          decide (f.2 = (e.2.2, e.2.1))).length = 1 ∧
        ∀ f ∈ directedEdges (faceTable U), f.2 = (e.2.2, e.2.1) → f.1 ≠ e.1) ∧
      (undirectedEdges (faceTable U)).length = 12 ∧
      (∀ e ∈ undirectedEdges (faceTable U),
        (facesWithEdge (faceTable U) e.1 e.2).length = 2) := by
  rw [faceTable_eq]
  decide

/-! ### Cuboids built from a list of vertices -/

/-- A list of length 8 is a list of eight elements. -/
theorem list_eight {α : Type} (V : List α) (hV : V.length = 8) :
    ∃ v0 v1 v2 v3 v4 v5 v6 v7, V = [v0, v1, v2, v3, v4, v5, v6, v7] := by
  match V, hV with
  | [v0, v1, v2, v3, v4, v5, v6, v7], _ => exact ⟨v0, v1, v2, v3, v4, v5, v6, v7, rfl⟩

/-- A read of the list at an index below 8 is the vertex at that position. -/
theorem list_lookup (v0 v1 v2 v3 v4 v5 v6 v7 : FVector) (k : Fin 8) :
    [v0, v1, v2, v3, v4, v5, v6, v7][k.val]? = some (![v0, v1, v2, v3, v4, v5, v6, v7] k) := by
  fin_cases k <;> rfl

/-- Within a face the four perimeter indexes are pairwise distinct. -/
theorem perimeterIndex_injective (i : Fin 6) (j k : Fin 4)
    (h : Face.perimeterIndex i j = Face.perimeterIndex i k) : j = k := by
  revert i j k
  rw [perimeterIndex_table]
  decide

/-- In a cuboid whose face `i` was built from its vertices, `GetVertex(i, j)`
succeeds and returns the vertex at the perimeter index. -/
theorem built_getVertex (InvSqrt : ℚ → ℚ) (Temp : Face) (C : Cuboid) (i : Fin 6) (j : Fin 4)
    (hF : Face.ofIndex InvSqrt Temp (i.val : Int) C.Vertices = some (C.Faces i)) :
    (C.Faces i).Perimeter j = (Face.perimeterIndex i j).val ∧
      C.GetVertex (i.val : Int) (j.val : Int) = some (C.Vertices (Face.perimeterIndex i j)) := by
  obtain ⟨hP, -, -, -⟩ := built_face InvSqrt Temp C i hF
  have hj : (C.Faces i).Perimeter j = (Face.perimeterIndex i j).val := by
    rw [hP, perimeterOf_val]
  exact ⟨hj, by rw [getVertex_cast, hj, readVertex_val]⟩

/-- The bounding box depends on the vertices of the cuboid only. -/
theorem cuboidBoxConverter_congr (C D : Cuboid) (h : D.Vertices = C.Vertices) :
    CuboidBoxConverter D = CuboidBoxConverter C := by
  have hstep : BoxAcc.step D = BoxAcc.step C := by
    funext a i
    simp only [BoxAcc.step, h]
  simp only [CuboidBoxConverter, hstep]

/-- C11: in the cuboid built from a list of eight vertices, every perimeter
index of every face is below 8, the four indexes of a face are pairwise
distinct, and `GetVertex(i, j)` succeeds with the vertex `V[Faces[i].Perimeter[j]]`
of the list. -/
theorem perimeter_indexes_valid (InvSqrt : ℚ → ℚ) (Uninit : Cuboid) (Temp : Face)
    (V : List FVector) (hV : V.length = 8) :
    ∃ C, Cuboid.ofVertices InvSqrt Uninit Temp V = some C ∧
      ∀ (i : Fin 6) (j : Fin 4),
        (C.Faces i).Perimeter j < 8 ∧
        (∀ k : Fin 4, k ≠ j → (C.Faces i).Perimeter k ≠ (C.Faces i).Perimeter j) ∧
        ∃ v, V[(C.Faces i).Perimeter j]? = some v ∧
          C.GetVertex (i.val : Int) (j.val : Int) = some v := by
  obtain ⟨v0, v1, v2, v3, v4, v5, v6, v7, rfl⟩ := list_eight V hV
  obtain ⟨C, hC, hVert, hF⟩ := ofVertices_eight InvSqrt Uninit Temp v0 v1 v2 v3 v4 v5 v6 v7
  refine ⟨C, hC, fun i j => ?_⟩
  have hFi : ∀ i : Fin 6,
      Face.ofIndex InvSqrt Temp (i.val : Int) C.Vertices = some (C.Faces i) := by
    intro i
    rw [hVert]
    exact hF i
  obtain ⟨hj, hget⟩ := built_getVertex InvSqrt Temp C i j (hFi i)
  refine ⟨by rw [hj]; exact (Face.perimeterIndex i j).isLt, ?_, ?_⟩
  · intro k hk hkj
    rw [hj, (built_getVertex InvSqrt Temp C i k (hFi i)).1] at hkj
    exact hk (perimeterIndex_injective i k j (Fin.ext hkj))
  · refine ⟨C.Vertices (Face.perimeterIndex i j), ?_, hget⟩
    rw [hj, hVert]
    exact list_lookup v0 v1 v2 v3 v4 v5 v6 v7 _

/-- C11 (witness): the eight default vertices, with zero-filled memory. -/
theorem perimeter_indexes_valid_witness :
    AOccludingCuboid.defaultVertices.length = 8 ∧
      ∃ C, Cuboid.ofVertices (fun _ => 1 / 160000) Cuboid.zeroed Face.zeroed
          AOccludingCuboid.defaultVertices = some C ∧
        ∀ (i : Fin 6) (j : Fin 4),
          (C.Faces i).Perimeter j < 8 ∧
          (∀ k : Fin 4, k ≠ j → (C.Faces i).Perimeter k ≠ (C.Faces i).Perimeter j) ∧
          ∃ v, AOccludingCuboid.defaultVertices[(C.Faces i).Perimeter j]? = some v ∧
            C.GetVertex (i.val : Int) (j.val : Int) = some v :=
  ⟨rfl, perimeter_indexes_valid (fun _ => 1 / 160000) Cuboid.zeroed Face.zeroed
    AOccludingCuboid.defaultVertices rfl⟩

/-- C12: a vertex list whose length is not 8 leaves the cuboid as the default
constructor left it: the construction succeeds and returns the untouched
memory, with no vertex copied and no face built. -/
theorem ofVertices_wrong_length (InvSqrt : ℚ → ℚ) (Uninit : Cuboid) (Temp : Face)
    (V : List FVector) (hV : V.length ≠ 8) :
    Cuboid.ofVertices InvSqrt Uninit Temp V = some Uninit := by
  unfold Cuboid.ofVertices
  rw [if_pos (by simpa [CUBOID_V] using hV)]

/-- C12 (witness): a list of three vertices. -/
theorem ofVertices_wrong_length_witness :
    [AOccludingCuboid.V0, AOccludingCuboid.V1, AOccludingCuboid.V2].length ≠ 8 ∧
      Cuboid.ofVertices (fun _ => 1 / 160000) Cuboid.zeroed Face.zeroed
        [AOccludingCuboid.V0, AOccludingCuboid.V1, AOccludingCuboid.V2] = some Cuboid.zeroed :=
  ⟨by decide, ofVertices_wrong_length (fun _ => 1 / 160000) Cuboid.zeroed Face.zeroed
    [AOccludingCuboid.V0, AOccludingCuboid.V1, AOccludingCuboid.V2] (by decide)⟩

/-- C13: rebuilding a cuboid from its own eight vertices, in any memory, gives
the same vertices, the same normal and perimeter for each of the six faces, and
the same bounding box. -/
theorem rebuild_from_own_vertices (InvSqrt : ℚ → ℚ) (Uninit Uninit2 : Cuboid)
    (Temp Temp2 : Face) (V : List FVector) (hV : V.length = 8) :
    ∃ C, Cuboid.ofVertices InvSqrt Uninit Temp V = some C ∧
      ∃ D, Cuboid.ofVertices InvSqrt Uninit2 Temp2 (List.ofFn C.Vertices) = some D ∧
        D.Vertices = C.Vertices ∧
        (∀ i : Fin 6, (D.Faces i).Normal = (C.Faces i).Normal ∧
          (D.Faces i).Perimeter = (C.Faces i).Perimeter) ∧
        CuboidBoxConverter D = CuboidBoxConverter C := by
  obtain ⟨v0, v1, v2, v3, v4, v5, v6, v7, rfl⟩ := list_eight V hV
  obtain ⟨C, hC, hVert, hF⟩ := ofVertices_eight InvSqrt Uninit Temp v0 v1 v2 v3 v4 v5 v6 v7
  obtain ⟨D, hD, hVertD, hFD⟩ := ofVertices_eight InvSqrt Uninit2 Temp2 v0 v1 v2 v3 v4 v5 v6 v7
  have hlist : List.ofFn C.Vertices = [v0, v1, v2, v3, v4, v5, v6, v7] := by
    rw [hVert]
    rfl
  have hVV : D.Vertices = C.Vertices := by rw [hVertD, hVert]
  refine ⟨C, hC, D, by rw [hlist]; exact hD, hVV, fun i => ?_, cuboidBoxConverter_congr C D hVV⟩
  have h1 := hF i
  have h2 := hFD i
  rw [ofIndex_some] at h1 h2
  rw [← Option.some.inj h1, ← Option.some.inj h2]
  refine ⟨rfl, ?_⟩
  funext j
  exact (perimeterOf_val Temp2.Perimeter i j).trans (perimeterOf_val Temp.Perimeter i j).symm

/-- C13 (witness): the eight default vertices, built in zero-filled memory and
rebuilt in zero-filled memory. -/
theorem rebuild_from_own_vertices_witness :
    AOccludingCuboid.defaultVertices.length = 8 ∧
      ∃ C, Cuboid.ofVertices (fun _ => 1 / 160000) Cuboid.zeroed Face.zeroed
          AOccludingCuboid.defaultVertices = some C ∧
        ∃ D, Cuboid.ofVertices (fun _ => 1 / 160000) Cuboid.zeroed Face.zeroed
            (List.ofFn C.Vertices) = some D ∧
          D.Vertices = C.Vertices ∧
          (∀ i : Fin 6, (D.Faces i).Normal = (C.Faces i).Normal ∧
            (D.Faces i).Perimeter = (C.Faces i).Perimeter) ∧
          CuboidBoxConverter D = CuboidBoxConverter C :=
  ⟨rfl, rebuild_from_own_vertices (fun _ => 1 / 160000) Cuboid.zeroed Cuboid.zeroed
    Face.zeroed Face.zeroed AOccludingCuboid.defaultVertices rfl⟩

/-! ### Orientation of the face normals -/

/-- For the image of the default vertices under `x -> A x + b`, the cross product
of every face has, with `firstPerimeterVertex - boxCentroid`, the dot product
`32000000 * det A`. -/
theorem affine_vertex_dot (A : Mat3) (b : FVector) (C : Cuboid)
    (hV : C.Vertices =
      ![(A.mulVec AOccludingCuboid.V0).add b, (A.mulVec AOccludingCuboid.V1).add b,
        (A.mulVec AOccludingCuboid.V2).add b, (A.mulVec AOccludingCuboid.V3).add b,
        (A.mulVec AOccludingCuboid.V4).add b, (A.mulVec AOccludingCuboid.V5).add b,
        (A.mulVec AOccludingCuboid.V6).add b, (A.mulVec AOccludingCuboid.V7).add b])
    (i : Fin 6) :
    (((C.Vertices (Face.perimeterIndex i 1)).sub
          (C.Vertices (Face.perimeterIndex i 0))).CrossProduct
        ((C.Vertices (Face.perimeterIndex i 2)).sub
          (C.Vertices (Face.perimeterIndex i 0)))).DotProduct
      ((C.Vertices (Face.perimeterIndex i 0)).sub C.boxCentroid) =
      32000000 * A.det := by
  have h1 := perimeter_vertices _ _ _ _ _ _ _ _ C hV i
  rw [boxCentroid_vertices _ _ _ _ _ _ _ _ C hV]
  revert h1
  fin_cases i <;>
    (intro h1
     dsimp only at h1 ⊢
     simp only [Prod.mk.injEq] at h1
     obtain ⟨e0, e1, e2, e3⟩ := h1
     rw [e0, e1, e2]
     simp only [FVector.sub, FVector.add, FVector.scale, FVector.CrossProduct,
       FVector.DotProduct, Mat3.mulVec, Mat3.det, AOccludingCuboid.V0, AOccludingCuboid.V1,
       AOccludingCuboid.V2, AOccludingCuboid.V3, AOccludingCuboid.V4, AOccludingCuboid.V5,
       AOccludingCuboid.V6, AOccludingCuboid.V7, FVector.ZeroVector]
     ring)

/-- The default vertices are their own image under the identity map. -/
theorem defaultVertices_eq :
    AOccludingCuboid.defaultVertices = affineImage Mat3.identity ⟨0, 0, 0⟩ := by
  simp [affineImage, AOccludingCuboid.defaultVertices, AOccludingCuboid.V0,
    AOccludingCuboid.V1, AOccludingCuboid.V2, AOccludingCuboid.V3, AOccludingCuboid.V4,
    AOccludingCuboid.V5, AOccludingCuboid.V6, AOccludingCuboid.V7, Mat3.mulVec, FVector.add,
    Mat3.identity]

/-- Exchanging the two ends of a difference negates its dot product. -/
theorem dot_sub_swap (c a b : FVector) :
    c.DotProduct (a.sub b) = -c.DotProduct (b.sub a) := by
  simp only [FVector.DotProduct, FVector.sub]
  ring

/-- C16 (failing input): the result of `CuboidIntersector` does not depend on the
cuboid: for any two cuboids its `t`, its normal and its hit flag agree.  For the
cuboid built from the default vertices, the ray from `(0,0,-1000)` in direction
`(0,0,1)` crosses the cuboid (its point at `t = 1000` lies on the inner side of
all six face planes), and with `sphere` of centre `(0,5000,0)` and squared
radius 1 the intersector reports no hit. -/
theorem cuboidIntersector_ignores_cuboid :
    (∀ (Sqrt : ℚ → ℚ) (sphere : BVHSphere) (ray : Ray) (C D : Cuboid),
        (CuboidIntersector Sqrt sphere C ray).t = (CuboidIntersector Sqrt sphere D ray).t ∧
        (CuboidIntersector Sqrt sphere C ray).normal =
          (CuboidIntersector Sqrt sphere D ray).normal ∧
        (CuboidIntersector Sqrt sphere C ray).object.isSome =
          (CuboidIntersector Sqrt sphere D ray).object.isSome) ∧
      ∀ (InvSqrt : ℚ → ℚ) (Uninit : Cuboid) (Temp : Face), (∀ x, 0 < x → 0 < InvSqrt x) →
        ∃ C, Cuboid.ofVertices InvSqrt Uninit Temp AOccludingCuboid.defaultVertices = some C ∧
          rayCrosses C ⟨⟨0, 0, -1000⟩, ⟨0, 0, 1⟩⟩ ∧
          ∀ Sqrt : ℚ → ℚ,
            (CuboidIntersector Sqrt ⟨⟨0, 5000, 0⟩, 1⟩ C ⟨⟨0, 0, -1000⟩, ⟨0, 0, 1⟩⟩).object =
              none := by
  constructor
  · intro Sqrt sphere ray C D
    unfold CuboidIntersector
    dsimp only
    split_ifs <;> exact ⟨rfl, rfl, rfl⟩
  · intro InvSqrt Uninit Temp hInv
    obtain ⟨C, hC, hV, hF⟩ := ofVertices_eight InvSqrt Uninit Temp
      ((Mat3.identity.mulVec AOccludingCuboid.V0).add ⟨0, 0, 0⟩)
      ((Mat3.identity.mulVec AOccludingCuboid.V1).add ⟨0, 0, 0⟩)
      ((Mat3.identity.mulVec AOccludingCuboid.V2).add ⟨0, 0, 0⟩)
      ((Mat3.identity.mulVec AOccludingCuboid.V3).add ⟨0, 0, 0⟩)
      ((Mat3.identity.mulVec AOccludingCuboid.V4).add ⟨0, 0, 0⟩)
      ((Mat3.identity.mulVec AOccludingCuboid.V5).add ⟨0, 0, 0⟩)
      ((Mat3.identity.mulVec AOccludingCuboid.V6).add ⟨0, 0, 0⟩)
      ((Mat3.identity.mulVec AOccludingCuboid.V7).add ⟨0, 0, 0⟩)
    have hdet : Mat3.identity.det = 1 := by norm_num [Mat3.det, Mat3.identity]
    have hbc : C.boxCentroid = ⟨0, 0, 0⟩ := by
      rw [boxCentroid_vertices _ _ _ _ _ _ _ _ C hV]
      norm_num [FVector.add, FVector.scale, FVector.ZeroVector, Mat3.mulVec, Mat3.identity,
        AOccludingCuboid.V0, AOccludingCuboid.V1, AOccludingCuboid.V2, AOccludingCuboid.V3,
        AOccludingCuboid.V4, AOccludingCuboid.V5, AOccludingCuboid.V6, AOccludingCuboid.V7]
    have hpt : ((⟨0, 0, -1000⟩ : FVector).add ((⟨0, 0, 1⟩ : FVector).scale 1000)) =
        C.boxCentroid := by
      rw [hbc]
      norm_num [FVector.add, FVector.scale]
    refine ⟨C, by rw [defaultVertices_eq, affineImage_eq]; exact hC,
      ⟨1000, by norm_num, fun i => ?_⟩, ?_⟩
    · have hFi : Face.ofIndex InvSqrt Temp (i.val : Int) C.Vertices = some (C.Faces i) := by
        rw [hV]
        exact hF i
      obtain ⟨-, hN, -, -⟩ := built_face InvSqrt Temp C i hFi
      obtain ⟨-, hget⟩ := built_getVertex InvSqrt Temp C i 0 hFi
      refine ⟨C.Vertices (Face.perimeterIndex i 0), hget, ?_⟩
      rw [hN, hpt]
      apply getSafeNormal_dot_nonpos InvSqrt hInv _ _ _ (by norm_num)
      rw [dot_sub_swap, affine_vertex_dot Mat3.identity ⟨0, 0, 0⟩ C hV i, hdet]
      norm_num
    · intro Sqrt
      norm_num [CuboidIntersector, FVector.sub, FVector.DotProduct, Intersection.miss]

/-! ### Binary32 operations on exact results -/

namespace F32

/-- A difference that is a binary32 number is computed exactly. -/
theorem sub_fin (a b : ℚ) (h : Exact (a - b)) : sub (fin a) (fin b) = fin (a - b) := by
  simp only [sub, neg, add]
  rw [← sub_eq_add_neg]
  exact h

/-- A sum that is a binary32 number is computed exactly. -/
theorem add_fin (a b : ℚ) (h : Exact (a + b)) : add (fin a) (fin b) = fin (a + b) := h

/-- A product that is a binary32 number is computed exactly. -/
theorem mul_fin (a b : ℚ) (h : Exact (a * b)) : mul (fin a) (fin b) = fin (a * b) := h

/-- Comparison of finite values. -/
theorem lt_fin (a b : ℚ) : lt (fin a) (fin b) = decide (a < b) := rfl

/-- Comparison of finite values. -/
theorem le_fin (a b : ℚ) : le (fin a) (fin b) = decide (a ≤ b) := rfl

/-- `std::min` of finite values. -/
theorem stdMin_fin (a b : ℚ) : stdMin (fin a) (fin b) = fin (min a b) := by
  simp only [stdMin, lt_fin]
  by_cases h : b < a
  · simp [h, min_eq_right h.le]
  · simp [h, min_eq_left (not_lt.mp h)]

/-- `std::max` of finite values. -/
theorem stdMax_fin (a b : ℚ) : stdMax (fin a) (fin b) = fin (max a b) := by
  simp only [stdMax, lt_fin]
  by_cases h : a < b
  · simp [h, max_eq_right h.le]
  · simp [h, max_eq_left (not_lt.mp h)]

/-- Zero is a binary32 number. -/
theorem exact_zero : Exact 0 := by decide!

/-- A float minus itself is zero, or NaN when the float is infinite or NaN. -/
theorem sub_self_eq (r : F32) : sub r r = fin 0 ∨ sub r r = nan := by
  rcases r with q | _ | _ | _
  · left
    have h : sub (fin q) (fin q) = round (q + -q) := rfl
    rw [h, add_neg_cancel]
    exact exact_zero
  · exact Or.inr rfl
  · exact Or.inr rfl
  · exact Or.inr rfl

end F32

/-- Rounding to nearest, ties to even, commutes with negation. -/
theorem roundHalfEven_neg (q : ℚ) : roundHalfEven (-q) = -roundHalfEven q := by
  by_cases hint : (⌊q⌋ : ℚ) = q
  · have h1 : ⌊-q⌋ = -⌊q⌋ := by
      rw [← hint, ← Int.cast_neg, Int.floor_intCast, Int.floor_intCast]
    have hf : q - ⌊q⌋ < 1 / 2 := by rw [hint]; norm_num
    have hf2 : -q - ⌊-q⌋ < 1 / 2 := by
      rw [h1]
      push_cast
      rw [hint]
      norm_num
    unfold roundHalfEven
    rw [if_pos hf, if_pos hf2, h1]
  · have hlt : (⌊q⌋ : ℚ) < q := lt_of_le_of_ne (Int.floor_le q) hint
    have hlt2 : q < ⌊q⌋ + 1 := Int.lt_floor_add_one q
    have h1 : ⌊-q⌋ = -⌊q⌋ - 1 := by
      rw [Int.floor_eq_iff]
      push_cast
      constructor <;> linarith
    unfold roundHalfEven
    rw [h1]
    push_cast
    by_cases ha : q - ⌊q⌋ < 1 / 2
    · have hb : ¬ (-q - (-(⌊q⌋ : ℚ) - 1) < 1 / 2) := by linarith
      have hc : (1 : ℚ) / 2 < -q - (-(⌊q⌋ : ℚ) - 1) := by linarith
      rw [if_pos ha, if_neg hb, if_pos hc]
      ring
    · by_cases hb : (1 : ℚ) / 2 < q - ⌊q⌋
      · have hc : -q - (-(⌊q⌋ : ℚ) - 1) < 1 / 2 := by linarith
        rw [if_neg ha, if_pos hb, if_pos hc]
        ring
      · have hc : ¬ (-q - (-(⌊q⌋ : ℚ) - 1) < 1 / 2) := by linarith
        have hd : ¬ ((1 : ℚ) / 2 < -q - (-(⌊q⌋ : ℚ) - 1)) := by linarith
        rw [if_neg ha, if_neg hb, if_neg hc, if_neg hd]
        split_ifs <;> omega

/-- The exponent does not depend on the sign. -/
theorem floorLog2_neg (x : ℚ) : floorLog2 (-x) = floorLog2 x := by
  simp only [floorLog2, Rat.neg_num, Rat.neg_den, Int.natAbs_neg, abs_neg]

namespace F32

/-- Rounding commutes with negation. -/
theorem roundQ_neg_arg (x : ℚ) : roundQ (-x) = -roundQ x := by
  have hu : ulp (-x) = ulp x := by simp only [ulp, floorLog2_neg]
  unfold roundQ
  rw [hu, neg_div, roundHalfEven_neg]
  push_cast
  ring

/-- Rounding to a float commutes with negation. -/
theorem round_neg_arg (x : ℚ) : round (-x) = neg (round x) := by
  have hmax : (0 : ℚ) < maxFinite := by norm_num [maxFinite]
  unfold round
  rw [roundQ_neg_arg]
  by_cases h1 : maxFinite < roundQ x
  · rw [if_pos h1, if_neg (by linarith), if_pos (by linarith)]
    rfl
  · by_cases h2 : roundQ x < -maxFinite
    · rw [if_neg h1, if_pos h2, if_pos (by linarith)]
      rfl
    · rw [if_neg h1, if_neg h2, if_neg (by linarith), if_neg (by linarith)]
      rfl

/-- A float difference with its operands exchanged is the negated difference. -/
theorem sub_swap (a b : ℚ) : sub (fin a) (fin b) = neg (sub (fin b) (fin a)) := by
  have h1 : sub (fin a) (fin b) = round (a + -b) := rfl
  have h2 : sub (fin b) (fin a) = round (b + -a) := rfl
  rw [h1, h2, ← round_neg_arg]
  congr 1
  ring

/-- The sign of a negated float. -/
theorem sign_neg (a : F32) : sign (neg a) = -sign a := by
  rcases a with a | _ | _ | _ <;> simp only [neg, sign, neg_zero, Int.reduceNeg, neg_neg]
  rcases lt_trichotomy a 0 with h | h | h
  · simp [h, not_lt.mpr h.le]
  · simp [h]
  · simp [h, not_lt.mpr h.le]

/-- The float product is commutative. -/
theorem mul_comm32 (a b : F32) : mul a b = mul b a := by
  rcases a with a | _ | _ | _ <;> rcases b with b | _ | _ | _ <;>
    simp only [mul, mul_comm]

/-- The float product with a negated factor is the negated product. -/
theorem mul_neg_right (a b : F32) : mul a (neg b) = neg (mul a b) := by
  rcases a with a | _ | _ | _ <;> rcases b with b | _ | _ | _ <;>
    simp only [mul, neg, mul_neg, round_neg_arg] <;>
    (try rw [show sign (fin (-b)) = -sign (fin b) from sign_neg (fin b)]) <;>
    simp only [sign, Int.reduceNeg, mul_neg, mul_one, neg_neg, one_mul, neg_eq_zero, Left.neg_pos_iff,
      Left.neg_neg_iff, neg_zero] <;>
    (try split_ifs) <;> (try rfl) <;> (try omega)

/-- A product with zero is zero, or NaN when the other factor is infinite or
NaN. -/
theorem zero_mul32 (v : F32) : mul (fin 0) v = fin 0 ∨ mul (fin 0) v = nan := by
  rcases v with b | _ | _ | _
  · left
    have h : mul (fin 0) (fin b) = round (0 * b) := rfl
    rw [h, zero_mul]
    exact exact_zero
  · right
    simp [mul, sign]
  · right
    simp [mul, sign]
  · exact Or.inr rfl

/-- A difference of two floats that are each zero or NaN is zero or NaN. -/
theorem sub_zero_or_nan (a b : F32) (ha : a = fin 0 ∨ a = nan) (hb : b = fin 0 ∨ b = nan) :
    sub a b = fin 0 ∨ sub a b = nan := by
  rcases ha with ha | ha <;> rcases hb with hb | hb <;> subst ha <;> subst hb
  · exact sub_self_eq (fin 0)
  · exact Or.inr rfl
  · exact Or.inr rfl
  · exact Or.inr rfl

end F32

/-! ### Segment intersection -/

namespace Utils

/-- The float constants as numbers. -/
theorem float_constants :
    MIN_SAFE_LENGTH32 = F32.fin minSafeLength32 ∧ FAST_ATAN_MAX32 = F32.fin 1000000000 ∧
      FAST_ATAN_MIN32 = F32.fin (-1000000000) := by decide!

/-- A vector difference computed without rounding. -/
theorem sub_exact (A B : FVector2D) (h : ExactSub A B) :
    (A.toF32).sub (B.toF32) = (A.sub B).toF32 := by
  simp only [FVector2D32.sub, FVector2D.toF32, FVector2D.sub, F32.sub_fin _ _ h.1,
    F32.sub_fin _ _ h.2]

/-- A cross product computed without rounding. -/
theorem cross_exact (A B : FVector2D) (h : ExactCross A B) :
    FVector2D32.CrossProduct A.toF32 B.toF32 = F32.fin (FVector2D.CrossProduct A B) := by
  simp only [FVector2D32.CrossProduct, FVector2D.toF32, FVector2D.CrossProduct,
    F32.mul_fin _ _ h.1, F32.mul_fin _ _ h.2.1, F32.sub_fin _ _ h.2.2]

/-- When no operation rounds, the answer of `CheckSegmentsIntersect` is the
condition on the three exact cross products. -/
theorem checkSegmentsIntersect_exact_iff (P1 P2 P3 P4 : FVector2D)
    (hex : ExactSegmentOps P1 P2 P3 P4) :
    CheckSegmentsIntersect P1.toF32 P2.toF32 P3.toF32 P4.toF32 = true ↔
      minSafeLength32 < |FVector2D.CrossProduct (P2.sub P1) (P3.sub P4)| ∧
        ((0 < FVector2D.CrossProduct (P2.sub P1) (P3.sub P4) ∧
            0 < FVector2D.CrossProduct (P4.sub P1) (P3.sub P4) ∧
            FVector2D.CrossProduct (P4.sub P1) (P3.sub P4) <
              FVector2D.CrossProduct (P2.sub P1) (P3.sub P4) ∧
            0 < FVector2D.CrossProduct (P4.sub P1) (P2.sub P1) ∧
            FVector2D.CrossProduct (P4.sub P1) (P2.sub P1) <
              FVector2D.CrossProduct (P2.sub P1) (P3.sub P4)) ∨
          (FVector2D.CrossProduct (P2.sub P1) (P3.sub P4) <
              FVector2D.CrossProduct (P4.sub P1) (P3.sub P4) ∧
            FVector2D.CrossProduct (P4.sub P1) (P3.sub P4) < 0 ∧
            FVector2D.CrossProduct (P2.sub P1) (P3.sub P4) <
              FVector2D.CrossProduct (P4.sub P1) (P2.sub P1) ∧
            FVector2D.CrossProduct (P4.sub P1) (P2.sub P1) < 0)) := by
  obtain ⟨h1, h2, h3, h4, h5, h6⟩ := hex
  unfold CheckSegmentsIntersect
  simp only [sub_exact _ _ h1, sub_exact _ _ h2, sub_exact _ _ h3, cross_exact _ _ h4,
    cross_exact _ _ h5, cross_exact _ _ h6, float_constants.1, F32.abs, F32.le_fin, F32.lt_fin]
  by_cases h : |FVector2D.CrossProduct (P2.sub P1) (P3.sub P4)| ≤ minSafeLength32
  · simp [h, not_lt.mpr h]
  · simp [h, not_le.mp h, and_assoc]

/-- At a crossing point with parameters `s` and `u`, the two numerators the
function computes are `s` and `u` times the cross product of the directions. -/
theorem crossing_numerators (P1 P2 P3 P4 : FVector2D) (s u : ℚ)
    (h : pointAt2D P1 P2 s = pointAt2D P4 P3 u) :
    FVector2D.CrossProduct (P4.sub P1) (P3.sub P4) =
        s * FVector2D.CrossProduct (P2.sub P1) (P3.sub P4) ∧
      FVector2D.CrossProduct (P4.sub P1) (P2.sub P1) =
        u * FVector2D.CrossProduct (P2.sub P1) (P3.sub P4) := by
  simp only [pointAt2D, FVector2D.mk.injEq] at h
  obtain ⟨hx, hy⟩ := h
  simp only [FVector2D.CrossProduct, FVector2D.sub]
  constructor
  · linear_combination (P3.X - P4.X) * hy - (P3.Y - P4.Y) * hx
  · linear_combination (P2.X - P1.X) * hy - (P2.Y - P1.Y) * hx

/-- When the directions are not parallel, the parameters `T1 / D` and `T2 / D`
give one point on both lines. -/
theorem crossing_point (P1 P2 P3 P4 : FVector2D)
    (hD : FVector2D.CrossProduct (P2.sub P1) (P3.sub P4) ≠ 0) :
    pointAt2D P1 P2
        (FVector2D.CrossProduct (P4.sub P1) (P3.sub P4) /
          FVector2D.CrossProduct (P2.sub P1) (P3.sub P4)) =
      pointAt2D P4 P3
        (FVector2D.CrossProduct (P4.sub P1) (P2.sub P1) /
          FVector2D.CrossProduct (P2.sub P1) (P3.sub P4)) := by
  simp only [FVector2D.CrossProduct, FVector2D.sub] at hD
  simp only [pointAt2D, FVector2D.mk.injEq, FVector2D.CrossProduct, FVector2D.sub]
  constructor
  · field_simp
    ring
  · field_simp
    ring

/-- For directions that are not parallel, the condition the function tests on
its three cross products holds exactly when the open segments cross at a point
interior to both. -/
theorem crossing_condition_iff (P1 P2 P3 P4 : FVector2D)
    (hne : FVector2D.CrossProduct (P2.sub P1) (P3.sub P4) ≠ 0) :
    ((0 < FVector2D.CrossProduct (P2.sub P1) (P3.sub P4) ∧
          0 < FVector2D.CrossProduct (P4.sub P1) (P3.sub P4) ∧
          FVector2D.CrossProduct (P4.sub P1) (P3.sub P4) <
            FVector2D.CrossProduct (P2.sub P1) (P3.sub P4) ∧
          0 < FVector2D.CrossProduct (P4.sub P1) (P2.sub P1) ∧
          FVector2D.CrossProduct (P4.sub P1) (P2.sub P1) <
            FVector2D.CrossProduct (P2.sub P1) (P3.sub P4)) ∨
        (FVector2D.CrossProduct (P2.sub P1) (P3.sub P4) <
            FVector2D.CrossProduct (P4.sub P1) (P3.sub P4) ∧
          FVector2D.CrossProduct (P4.sub P1) (P3.sub P4) < 0 ∧
          FVector2D.CrossProduct (P2.sub P1) (P3.sub P4) <
            FVector2D.CrossProduct (P4.sub P1) (P2.sub P1) ∧
          FVector2D.CrossProduct (P4.sub P1) (P2.sub P1) < 0)) ↔
      ProperCrossing P1 P2 P3 P4 := by
  constructor
  · rintro (h | h)
    · obtain ⟨hpos, h1, h2, h3, h4⟩ := h
      exact ⟨_, _, div_pos h1 hpos, (div_lt_one hpos).mpr h2, div_pos h3 hpos,
        (div_lt_one hpos).mpr h4, crossing_point P1 P2 P3 P4 hne⟩
    · obtain ⟨h1, h2, h3, h4⟩ := h
      have hneg : FVector2D.CrossProduct (P2.sub P1) (P3.sub P4) < 0 := lt_trans h1 h2
      exact ⟨_, _, div_pos_of_neg_of_neg h2 hneg, (div_lt_one_of_neg hneg).mpr h1,
        div_pos_of_neg_of_neg h4 hneg, (div_lt_one_of_neg hneg).mpr h3,
        crossing_point P1 P2 P3 P4 hne⟩
  · rintro ⟨s, u, hs0, hs1, hu0, hu1, hpt⟩
    obtain ⟨e1, e2⟩ := crossing_numerators P1 P2 P3 P4 s u hpt
    rw [e1, e2]
    rcases lt_or_gt_of_ne hne with hneg | hpos
    · right
      refine ⟨?_, ?_, ?_, ?_⟩ <;> nlinarith
    · left
      refine ⟨hpos, ?_, ?_, ?_, ?_⟩ <;> nlinarith

/-- C3 (counterexample): at the binary32 points `P1=(-1396,-1794)`,
`P2=P3=(-2878,2367)`, `P4=(2805,1321)` the cross product of the directions is 22096791, far above
`MIN_SAFE_LENGTH`, and the segments only touch at the shared endpoint, so they
have no crossing point interior to both; the float computation rounds the
cross product to 22096792 and both numerators to 22096790, and
`CheckSegmentsIntersect` returns true. -/
theorem checkSegmentsIntersect_true_without_crossing :
    (F32.Exact (-1396) ∧ F32.Exact (-1794) ∧ F32.Exact (-2878) ∧ F32.Exact 2367 ∧
        F32.Exact 2805 ∧ F32.Exact 1321) ∧
      MIN_SAFE_LENGTH <
        |FVector2D.CrossProduct ((⟨-2878, 2367⟩ : FVector2D).sub ⟨-1396, -1794⟩)
          ((⟨-2878, 2367⟩ : FVector2D).sub ⟨2805, 1321⟩)| ∧
      ¬ ProperCrossing ⟨-1396, -1794⟩ ⟨-2878, 2367⟩ ⟨-2878, 2367⟩ ⟨2805, 1321⟩ ∧
      CheckSegmentsIntersect (FVector2D.toF32 ⟨-1396, -1794⟩) (FVector2D.toF32 ⟨-2878, 2367⟩)
        (FVector2D.toF32 ⟨-2878, 2367⟩) (FVector2D.toF32 ⟨2805, 1321⟩) = true := by
  refine ⟨by decide!, by norm_num [MIN_SAFE_LENGTH, FVector2D.CrossProduct, FVector2D.sub], ?_,
    by decide!⟩
  rintro ⟨s, u, -, hs1, -, -, hpt⟩
  obtain ⟨e1, -⟩ := crossing_numerators _ _ _ _ s u hpt
  norm_num [FVector2D.CrossProduct, FVector2D.sub] at e1
  linarith

/-- C3 (amended): when no operation of the function rounds and the cross product
of the two directions exceeds the float constant `MIN_SAFE_LENGTH` in absolute
value, `CheckSegmentsIntersect` returns true exactly when the open segments
`(P1, P2)` and `(P3, P4)` cross at a point interior to both. -/
theorem checkSegmentsIntersect_decides_proper_crossing (P1 P2 P3 P4 : FVector2D)
    (hex : ExactSegmentOps P1 P2 P3 P4)
    (hD : minSafeLength32 < |FVector2D.CrossProduct (P2.sub P1) (P3.sub P4)|) :
    CheckSegmentsIntersect P1.toF32 P2.toF32 P3.toF32 P4.toF32 = true ↔
      ProperCrossing P1 P2 P3 P4 := by
  have heps : (0 : ℚ) < minSafeLength32 := by norm_num [minSafeLength32]
  have hne : FVector2D.CrossProduct (P2.sub P1) (P3.sub P4) ≠ 0 := by
    intro h0
    rw [h0, abs_zero] at hD
    linarith
  rw [checkSegmentsIntersect_exact_iff P1 P2 P3 P4 hex, crossing_condition_iff P1 P2 P3 P4 hne]
  exact ⟨fun h => h.2, fun h => ⟨hD, h⟩⟩

/-- C3 (witness): the crossing pair `P1=(0,0)`, `P2=(2,2)`, `P3=(0,2)`,
`P4=(2,0)` of the specification, whose operations are all exact. -/
theorem checkSegmentsIntersect_decides_proper_crossing_witness :
    ExactSegmentOps ⟨0, 0⟩ ⟨2, 2⟩ ⟨0, 2⟩ ⟨2, 0⟩ ∧
      minSafeLength32 <
        |FVector2D.CrossProduct ((⟨2, 2⟩ : FVector2D).sub ⟨0, 0⟩)
          ((⟨0, 2⟩ : FVector2D).sub ⟨2, 0⟩)| ∧
      (CheckSegmentsIntersect (FVector2D.toF32 ⟨0, 0⟩) (FVector2D.toF32 ⟨2, 2⟩)
          (FVector2D.toF32 ⟨0, 2⟩) (FVector2D.toF32 ⟨2, 0⟩) = true ↔
        ProperCrossing ⟨0, 0⟩ ⟨2, 2⟩ ⟨0, 2⟩ ⟨2, 0⟩) ∧
      CheckSegmentsIntersect (FVector2D.toF32 ⟨0, 0⟩) (FVector2D.toF32 ⟨2, 2⟩)
        (FVector2D.toF32 ⟨0, 2⟩) (FVector2D.toF32 ⟨2, 0⟩) = true :=
  have h1 : ExactSegmentOps ⟨0, 0⟩ ⟨2, 2⟩ ⟨0, 2⟩ ⟨2, 0⟩ := by decide!
  have h2 : minSafeLength32 <
      |FVector2D.CrossProduct ((⟨2, 2⟩ : FVector2D).sub ⟨0, 0⟩)
        ((⟨0, 2⟩ : FVector2D).sub ⟨2, 0⟩)| := by
    norm_num [minSafeLength32, FVector2D.CrossProduct, FVector2D.sub]
  ⟨h1, h2, checkSegmentsIntersect_decides_proper_crossing ⟨0, 0⟩ ⟨2, 2⟩ ⟨0, 2⟩ ⟨2, 0⟩ h1 h2,
    by decide!⟩

/-- C7 (counterexample): `P1=(-1396,-1794)`, `P2=P3=(-2878,2367)`,
`P4=(2805,1321)` share the endpoint `P2 = P3`, all coordinates are binary32
numbers, and `CheckSegmentsIntersect` returns true: the cross product 22096791
is rounded up to 22096792 and both numerators down to 22096790. -/
theorem checkSegmentsIntersect_true_at_shared_endpoint :
    ((⟨-2878, 2367⟩ : FVector2D) = ⟨-2878, 2367⟩) ∧
      (F32.Exact (-1396) ∧ F32.Exact (-1794) ∧ F32.Exact (-2878) ∧ F32.Exact 2367 ∧
        F32.Exact 2805 ∧ F32.Exact 1321) ∧
      FVector2D32.CrossProduct
          ((FVector2D.toF32 ⟨-2878, 2367⟩).sub (FVector2D.toF32 ⟨-1396, -1794⟩))
          ((FVector2D.toF32 ⟨-2878, 2367⟩).sub (FVector2D.toF32 ⟨2805, 1321⟩)) =
        F32.fin 22096792 ∧
      FVector2D32.CrossProduct
          ((FVector2D.toF32 ⟨2805, 1321⟩).sub (FVector2D.toF32 ⟨-1396, -1794⟩))
          ((FVector2D.toF32 ⟨-2878, 2367⟩).sub (FVector2D.toF32 ⟨2805, 1321⟩)) =
        F32.fin 22096790 ∧
      CheckSegmentsIntersect (FVector2D.toF32 ⟨-1396, -1794⟩) (FVector2D.toF32 ⟨-2878, 2367⟩)
        (FVector2D.toF32 ⟨-2878, 2367⟩) (FVector2D.toF32 ⟨2805, 1321⟩) = true := by
  decide!

/-- The cross product of a float vector with itself is zero or NaN. -/
theorem cross_self (W : FVector2D32) :
    FVector2D32.CrossProduct W W = F32.fin 0 ∨ FVector2D32.CrossProduct W W = F32.nan := by
  unfold FVector2D32.CrossProduct
  rw [F32.mul_comm32 W.Y W.X]
  exact F32.sub_self_eq _

/-- The cross product of a float vector with its negation is zero or NaN. -/
theorem cross_neg_self (W : FVector2D32) :
    FVector2D32.CrossProduct W ⟨F32.neg W.X, F32.neg W.Y⟩ = F32.fin 0 ∨
      FVector2D32.CrossProduct W ⟨F32.neg W.X, F32.neg W.Y⟩ = F32.nan := by
  unfold FVector2D32.CrossProduct
  simp only [F32.mul_neg_right]
  rw [F32.mul_comm32 W.Y W.X]
  exact F32.sub_self_eq _

/-- `CheckSegmentsIntersect` returns false when its first numerator `T1` is zero
or NaN. -/
theorem check_false_of_T1 (P1 P2 P3 P4 : FVector2D32)
    (h : FVector2D32.CrossProduct (P4.sub P1) (P3.sub P4) = F32.fin 0 ∨
      FVector2D32.CrossProduct (P4.sub P1) (P3.sub P4) = F32.nan) :
    CheckSegmentsIntersect P1 P2 P3 P4 = false := by
  unfold CheckSegmentsIntersect
  rcases h with h | h <;> simp [h, F32.lt]

/-- `CheckSegmentsIntersect` returns false when its second numerator `T2` is zero
or NaN. -/
theorem check_false_of_T2 (P1 P2 P3 P4 : FVector2D32)
    (h : FVector2D32.CrossProduct (P4.sub P1) (P2.sub P1) = F32.fin 0 ∨
      FVector2D32.CrossProduct (P4.sub P1) (P2.sub P1) = F32.nan) :
    CheckSegmentsIntersect P1 P2 P3 P4 = false := by
  unfold CheckSegmentsIntersect
  rcases h with h | h <;> simp [h, F32.lt]

/-- C7 (amended): `CheckSegmentsIntersect` returns false for two segments that
share an endpoint when the shared endpoint is `P1 = P3`, `P1 = P4` or `P2 = P4`,
whatever the rounding, and when it is `P2 = P3` provided no operation of the
function rounds. -/
theorem checkSegmentsIntersect_shared_endpoint (P1 P2 P3 P4 : FVector2D)
    (h : P1 = P3 ∨ P1 = P4 ∨ P2 = P4 ∨ (P2 = P3 ∧ ExactSegmentOps P1 P2 P3 P4)) :
    CheckSegmentsIntersect P1.toF32 P2.toF32 P3.toF32 P4.toF32 = false := by
  rcases h with h | h | h | ⟨h, hex⟩
  · subst h
    apply check_false_of_T1
    have hV : (P1.toF32).sub (P4.toF32) =
        ⟨F32.neg ((P4.toF32).sub (P1.toF32)).X, F32.neg ((P4.toF32).sub (P1.toF32)).Y⟩ := by
      simp only [FVector2D32.sub, FVector2D.toF32]
      rw [F32.sub_swap P1.X P4.X, F32.sub_swap P1.Y P4.Y]
    rw [hV]
    exact cross_neg_self _
  · subst h
    apply check_false_of_T1
    have hW : (P1.toF32).sub (P1.toF32) = ⟨F32.fin 0, F32.fin 0⟩ := by
      simp only [FVector2D32.sub, FVector2D.toF32]
      rw [F32.sub_fin _ _ (by rw [sub_self]; exact F32.exact_zero),
        F32.sub_fin _ _ (by rw [sub_self]; exact F32.exact_zero), sub_self, sub_self]
    rw [hW]
    unfold FVector2D32.CrossProduct
    exact F32.sub_zero_or_nan _ _ (F32.zero_mul32 _) (F32.zero_mul32 _)
  · subst h
    apply check_false_of_T2
    exact cross_self _
  · subst h
    rw [Bool.eq_false_iff]
    intro hc
    rw [checkSegmentsIntersect_exact_iff P1 P2 P2 P4 hex] at hc
    obtain ⟨-, hc⟩ := hc
    simp only [FVector2D.CrossProduct, FVector2D.sub] at hc
    rcases hc with ⟨a, b, c, d, e⟩ | ⟨a, b, c, d⟩ <;> nlinarith

/-- C7 (witness): in `P1=(0,0)`, `P2=(1,1)`, `P3=(1,1)`, `P4=(2,0)` the point
`(1,1)` is the endpoint `P2 = P3` of both segments and every operation is
exact. -/
theorem checkSegmentsIntersect_shared_endpoint_witness :
    ((⟨1, 1⟩ : FVector2D) = ⟨1, 1⟩ ∧ ExactSegmentOps ⟨0, 0⟩ ⟨1, 1⟩ ⟨1, 1⟩ ⟨2, 0⟩) ∧
      CheckSegmentsIntersect (FVector2D.toF32 ⟨0, 0⟩) (FVector2D.toF32 ⟨1, 1⟩)
        (FVector2D.toF32 ⟨1, 1⟩) (FVector2D.toF32 ⟨2, 0⟩) = false :=
  have h1 : ExactSegmentOps ⟨0, 0⟩ ⟨1, 1⟩ ⟨1, 1⟩ ⟨2, 0⟩ := by decide!
  ⟨⟨rfl, h1⟩,
    checkSegmentsIntersect_shared_endpoint ⟨0, 0⟩ ⟨1, 1⟩ ⟨1, 1⟩ ⟨2, 0⟩
      (Or.inr (Or.inr (Or.inr ⟨rfl, h1⟩)))⟩

/-- The condition `CheckSegmentsIntersect` tests on its three cross products is
unchanged when the denominator changes sign and each numerator `T` becomes
`T - D` or `-T` (the parameter `t` of a crossing point becomes `1 - t` or stays
`t`). -/
theorem crossing_condition_neg (eps D T1 T2 D1 S1 S2 : ℚ) (hD : D1 = -D)
    (h2 : (S1 = T1 - D ∨ S1 = -T1) ∧ (S2 = T2 - D ∨ S2 = -T2) ∨
      (S1 = T2 - D ∨ S1 = -T2) ∧ (S2 = T1 - D ∨ S2 = -T1)) :
    (eps < |D1| ∧
        ((0 < D1 ∧ 0 < S1 ∧ S1 < D1 ∧ 0 < S2 ∧ S2 < D1) ∨
          (D1 < S1 ∧ S1 < 0 ∧ D1 < S2 ∧ S2 < 0))) ↔
      (eps < |D| ∧
        ((0 < D ∧ 0 < T1 ∧ T1 < D ∧ 0 < T2 ∧ T2 < D) ∨
          (D < T1 ∧ T1 < 0 ∧ D < T2 ∧ T2 < 0))) := by
  subst hD
  rw [abs_neg]
  constructor
  · rintro ⟨h, ⟨a, b, c, d, e⟩ | ⟨a, b, c, d⟩⟩ <;> refine ⟨h, ?_⟩ <;>
      rcases h2 with ⟨e1 | e1, e2 | e2⟩ | ⟨e1 | e1, e2 | e2⟩ <;> subst e1 <;> subst e2 <;>
      first
        | (right; refine ⟨?_, ?_, ?_, ?_⟩ <;> linarith)
        | (left; refine ⟨?_, ?_, ?_, ?_, ?_⟩ <;> linarith)
  · rintro ⟨h, ⟨a, b, c, d, e⟩ | ⟨a, b, c, d⟩⟩ <;> refine ⟨h, ?_⟩ <;>
      rcases h2 with ⟨e1 | e1, e2 | e2⟩ | ⟨e1 | e1, e2 | e2⟩ <;> subst e1 <;> subst e2 <;>
      first
        | (right; refine ⟨?_, ?_, ?_, ?_⟩ <;> linarith)
        | (left; refine ⟨?_, ?_, ?_, ?_, ?_⟩ <;> linarith)

/-- C8 (counterexample): at the binary32 points `P1=(196,1674)`, `P2=P3=(-2911,-2933)`,
`P4=(-2949,3632)` the call `(P1, P2, P3, P4)` returns true while the calls with
the segments exchanged, with the first segment reversed and with the second
segment reversed all return false. -/
theorem checkSegmentsIntersect_not_symmetric :
    (F32.Exact 196 ∧ F32.Exact 1674 ∧ F32.Exact (-2911) ∧ F32.Exact (-2933) ∧
        F32.Exact (-2949) ∧ F32.Exact 3632) ∧
      CheckSegmentsIntersect (FVector2D.toF32 ⟨196, 1674⟩) (FVector2D.toF32 ⟨-2911, -2933⟩)
        (FVector2D.toF32 ⟨-2911, -2933⟩) (FVector2D.toF32 ⟨-2949, 3632⟩) = true ∧
      CheckSegmentsIntersect (FVector2D.toF32 ⟨-2911, -2933⟩) (FVector2D.toF32 ⟨-2949, 3632⟩)
        (FVector2D.toF32 ⟨196, 1674⟩) (FVector2D.toF32 ⟨-2911, -2933⟩) = false ∧
      CheckSegmentsIntersect (FVector2D.toF32 ⟨-2911, -2933⟩) (FVector2D.toF32 ⟨196, 1674⟩)
        (FVector2D.toF32 ⟨-2911, -2933⟩) (FVector2D.toF32 ⟨-2949, 3632⟩) = false ∧
      CheckSegmentsIntersect (FVector2D.toF32 ⟨196, 1674⟩) (FVector2D.toF32 ⟨-2911, -2933⟩)
        (FVector2D.toF32 ⟨-2949, 3632⟩) (FVector2D.toF32 ⟨-2911, -2933⟩) = false := by
  decide!

/-- C8 (amended): when no operation rounds in any of the four calls,
`CheckSegmentsIntersect` gives the same answer when the two segments are
exchanged and when the endpoints of either segment are reversed. -/
theorem checkSegmentsIntersect_symmetric (P1 P2 P3 P4 : FVector2D)
    (h0 : ExactSegmentOps P1 P2 P3 P4) (h1 : ExactSegmentOps P3 P4 P1 P2)
    (h2 : ExactSegmentOps P2 P1 P3 P4) (h3 : ExactSegmentOps P1 P2 P4 P3) :
    CheckSegmentsIntersect P1.toF32 P2.toF32 P3.toF32 P4.toF32 =
        CheckSegmentsIntersect P3.toF32 P4.toF32 P1.toF32 P2.toF32 ∧
      CheckSegmentsIntersect P2.toF32 P1.toF32 P3.toF32 P4.toF32 =
        CheckSegmentsIntersect P1.toF32 P2.toF32 P3.toF32 P4.toF32 ∧
      CheckSegmentsIntersect P1.toF32 P2.toF32 P4.toF32 P3.toF32 =
        CheckSegmentsIntersect P1.toF32 P2.toF32 P3.toF32 P4.toF32 := by
  refine ⟨?_, ?_, ?_⟩
  · rw [eq_comm, Bool.eq_iff_iff, checkSegmentsIntersect_exact_iff _ _ _ _ h1,
      checkSegmentsIntersect_exact_iff _ _ _ _ h0]
    apply crossing_condition_neg
    · simp only [FVector2D.CrossProduct, FVector2D.sub]; ring
    · right
      constructor <;> left <;> simp only [FVector2D.CrossProduct, FVector2D.sub] <;> ring
  · rw [Bool.eq_iff_iff, checkSegmentsIntersect_exact_iff _ _ _ _ h2,
      checkSegmentsIntersect_exact_iff _ _ _ _ h0]
    apply crossing_condition_neg
    · simp only [FVector2D.CrossProduct, FVector2D.sub]; ring
    · left
      constructor
      · left; simp only [FVector2D.CrossProduct, FVector2D.sub]; ring
      · right; simp only [FVector2D.CrossProduct, FVector2D.sub]; ring
  · rw [Bool.eq_iff_iff, checkSegmentsIntersect_exact_iff _ _ _ _ h3,
      checkSegmentsIntersect_exact_iff _ _ _ _ h0]
    apply crossing_condition_neg
    · simp only [FVector2D.CrossProduct, FVector2D.sub]; ring
    · left
      constructor
      · right; simp only [FVector2D.CrossProduct, FVector2D.sub]; ring
      · left; simp only [FVector2D.CrossProduct, FVector2D.sub]; ring

/-- C8 (witness): the crossing pair `P1=(0,0)`, `P2=(2,2)`, `P3=(0,2)`,
`P4=(2,0)`, exact in all four calls. -/
theorem checkSegmentsIntersect_symmetric_witness :
    (ExactSegmentOps ⟨0, 0⟩ ⟨2, 2⟩ ⟨0, 2⟩ ⟨2, 0⟩ ∧ ExactSegmentOps ⟨0, 2⟩ ⟨2, 0⟩ ⟨0, 0⟩ ⟨2, 2⟩ ∧
        ExactSegmentOps ⟨2, 2⟩ ⟨0, 0⟩ ⟨0, 2⟩ ⟨2, 0⟩ ∧
        ExactSegmentOps ⟨0, 0⟩ ⟨2, 2⟩ ⟨2, 0⟩ ⟨0, 2⟩) ∧
      CheckSegmentsIntersect (FVector2D.toF32 ⟨0, 0⟩) (FVector2D.toF32 ⟨2, 2⟩)
          (FVector2D.toF32 ⟨0, 2⟩) (FVector2D.toF32 ⟨2, 0⟩) =
        CheckSegmentsIntersect (FVector2D.toF32 ⟨0, 2⟩) (FVector2D.toF32 ⟨2, 0⟩)
          (FVector2D.toF32 ⟨0, 0⟩) (FVector2D.toF32 ⟨2, 2⟩) ∧
      CheckSegmentsIntersect (FVector2D.toF32 ⟨2, 2⟩) (FVector2D.toF32 ⟨0, 0⟩)
          (FVector2D.toF32 ⟨0, 2⟩) (FVector2D.toF32 ⟨2, 0⟩) =
        CheckSegmentsIntersect (FVector2D.toF32 ⟨0, 0⟩) (FVector2D.toF32 ⟨2, 2⟩)
          (FVector2D.toF32 ⟨0, 2⟩) (FVector2D.toF32 ⟨2, 0⟩) ∧
      CheckSegmentsIntersect (FVector2D.toF32 ⟨0, 0⟩) (FVector2D.toF32 ⟨2, 2⟩)
          (FVector2D.toF32 ⟨2, 0⟩) (FVector2D.toF32 ⟨0, 2⟩) =
        CheckSegmentsIntersect (FVector2D.toF32 ⟨0, 0⟩) (FVector2D.toF32 ⟨2, 2⟩)
          (FVector2D.toF32 ⟨0, 2⟩) (FVector2D.toF32 ⟨2, 0⟩) :=
  have h0 : ExactSegmentOps ⟨0, 0⟩ ⟨2, 2⟩ ⟨0, 2⟩ ⟨2, 0⟩ := by decide!
  have h1 : ExactSegmentOps ⟨0, 2⟩ ⟨2, 0⟩ ⟨0, 0⟩ ⟨2, 2⟩ := by decide!
  have h2 : ExactSegmentOps ⟨2, 2⟩ ⟨0, 0⟩ ⟨0, 2⟩ ⟨2, 0⟩ := by decide!
  have h3 : ExactSegmentOps ⟨0, 0⟩ ⟨2, 2⟩ ⟨2, 0⟩ ⟨0, 2⟩ := by decide!
  ⟨⟨h0, h1, h2, h3⟩,
    checkSegmentsIntersect_symmetric ⟨0, 0⟩ ⟨2, 2⟩ ⟨0, 2⟩ ⟨2, 0⟩ h0 h1 h2 h3⟩

/-- C10 (counterexample): the four points are binary32 numbers, the direction
`P3 - P4` is exactly three times `P2 - P1`, so the segments are parallel with
cross product 0, and they lie on different lines (`P4 - P1` is not parallel to
`P2 - P1`); the float differences of
`P3 - P4` are rounded, the computed cross product is -32, the guard of the
function does not fire and `CheckSegmentsIntersect` returns true. -/
theorem checkSegmentsIntersect_true_for_parallel :
    (F32.Exact (-4937521 / 256) ∧ F32.Exact (-834171 / 512) ∧ F32.Exact (-1377997 / 32) ∧
        F32.Exact (2034135 / 512) ∧ F32.Exact (-5799221 / 64) ∧ F32.Exact (3885373 / 256) ∧
        F32.Exact (-4937519 / 256) ∧ F32.Exact (-208543 / 128)) ∧
      (⟨-5799221 / 64, 3885373 / 256⟩ : FVector2D).sub ⟨-4937519 / 256, -208543 / 128⟩ =
        ⟨3 * (-1377997 / 32 - -4937521 / 256), 3 * (2034135 / 512 - -834171 / 512)⟩ ∧
      FVector2D.CrossProduct
          ((⟨-1377997 / 32, 2034135 / 512⟩ : FVector2D).sub ⟨-4937521 / 256, -834171 / 512⟩)
          ((⟨-5799221 / 64, 3885373 / 256⟩ : FVector2D).sub
            ⟨-4937519 / 256, -208543 / 128⟩) = 0 ∧
      FVector2D.CrossProduct
          ((⟨-4937519 / 256, -208543 / 128⟩ : FVector2D).sub ⟨-4937521 / 256, -834171 / 512⟩)
          ((⟨-1377997 / 32, 2034135 / 512⟩ : FVector2D).sub
            ⟨-4937521 / 256, -834171 / 512⟩) ≠ 0 ∧
      FVector2D32.CrossProduct
          ((FVector2D.toF32 ⟨-1377997 / 32, 2034135 / 512⟩).sub
            (FVector2D.toF32 ⟨-4937521 / 256, -834171 / 512⟩))
          ((FVector2D.toF32 ⟨-5799221 / 64, 3885373 / 256⟩).sub
            (FVector2D.toF32 ⟨-4937519 / 256, -208543 / 128⟩)) = F32.fin (-32) ∧
      CheckSegmentsIntersect (FVector2D.toF32 ⟨-4937521 / 256, -834171 / 512⟩)
        (FVector2D.toF32 ⟨-1377997 / 32, 2034135 / 512⟩)
        (FVector2D.toF32 ⟨-5799221 / 64, 3885373 / 256⟩)
        (FVector2D.toF32 ⟨-4937519 / 256, -208543 / 128⟩) = true := by
  decide!

/-- `CheckSegmentsIntersect` returns false when the computed cross product of the
two directions is zero or NaN. -/
theorem check_false_of_cross (P1 P2 P3 P4 : FVector2D32)
    (h : FVector2D32.CrossProduct (P2.sub P1) (P3.sub P4) = F32.fin 0 ∨
      FVector2D32.CrossProduct (P2.sub P1) (P3.sub P4) = F32.nan) :
    CheckSegmentsIntersect P1 P2 P3 P4 = false := by
  have hpos : (0 : ℚ) ≤ minSafeLength32 := by norm_num [minSafeLength32]
  unfold CheckSegmentsIntersect
  rcases h with h | h
  · simp [h, float_constants.1, F32.abs, F32.le, hpos]
  · simp [h, F32.abs, F32.le, F32.lt]

/-- C10 (amended): `CheckSegmentsIntersect` returns false whenever the cross
product of the two directions, as the function computes it in binary32, is at
most `MIN_SAFE_LENGTH` in absolute value; and it returns false for parallel and
collinear segments (exact cross product 0) whenever the two directions `P2 - P1`
and `P3 - P4` are computed without rounding. -/
theorem checkSegmentsIntersect_near_parallel (P1 P2 P3 P4 : FVector2D)
    (h : F32.le (F32.abs (FVector2D32.CrossProduct (P2.toF32.sub P1.toF32)
          (P3.toF32.sub P4.toF32))) MIN_SAFE_LENGTH32 = true ∨
      (ExactSub P2 P1 ∧ ExactSub P3 P4 ∧
        FVector2D.CrossProduct (P2.sub P1) (P3.sub P4) = 0)) :
    CheckSegmentsIntersect P1.toF32 P2.toF32 P3.toF32 P4.toF32 = false := by
  rcases h with h | ⟨h1, h2, hpar⟩
  · simp [CheckSegmentsIntersect, h]
  · apply check_false_of_cross
    rw [sub_exact _ _ h1, sub_exact _ _ h2]
    have hprod : (P2.sub P1).X * (P3.sub P4).Y = (P2.sub P1).Y * (P3.sub P4).X := by
      simp only [FVector2D.CrossProduct] at hpar
      linarith
    have hc : FVector2D32.CrossProduct (P2.sub P1).toF32 (P3.sub P4).toF32 =
        F32.sub (F32.round ((P2.sub P1).X * (P3.sub P4).Y))
          (F32.round ((P2.sub P1).Y * (P3.sub P4).X)) := rfl
    rw [hc, hprod]
    exact F32.sub_self_eq _

/-- C10 (witness): the parallel segments `P1=(0,0)`, `P2=(1,0)`, `P3=(0,1)`,
`P4=(1,1)` of the specification: their directions are exact and their cross
product is 0. -/
theorem checkSegmentsIntersect_near_parallel_witness :
    (ExactSub ⟨1, 0⟩ ⟨0, 0⟩ ∧ ExactSub ⟨0, 1⟩ ⟨1, 1⟩ ∧
        FVector2D.CrossProduct ((⟨1, 0⟩ : FVector2D).sub ⟨0, 0⟩)
          ((⟨0, 1⟩ : FVector2D).sub ⟨1, 1⟩) = 0) ∧
      CheckSegmentsIntersect (FVector2D.toF32 ⟨0, 0⟩) (FVector2D.toF32 ⟨1, 0⟩)
        (FVector2D.toF32 ⟨0, 1⟩) (FVector2D.toF32 ⟨1, 1⟩) = false :=
  have h : ExactSub ⟨1, 0⟩ ⟨0, 0⟩ ∧ ExactSub ⟨0, 1⟩ ⟨1, 1⟩ ∧
      FVector2D.CrossProduct ((⟨1, 0⟩ : FVector2D).sub ⟨0, 0⟩)
        ((⟨0, 1⟩ : FVector2D).sub ⟨1, 1⟩) = 0 := by decide!
  ⟨h, checkSegmentsIntersect_near_parallel ⟨0, 0⟩ ⟨1, 0⟩ ⟨0, 1⟩ ⟨1, 1⟩ (Or.inr h)⟩

end Utils

/-! ### Rounding -/

/-- The digit count by halving: for `n ≤ fuel`, `n < 2 ^ k ≤ 2 n` (the second
when `n > 0`), with `k` the count. -/
theorem bitLengthAux_spec (fuel n : Nat) (h : n ≤ fuel) :
    n < 2 ^ bitLengthAux fuel n ∧ (0 < n → 2 ^ bitLengthAux fuel n ≤ 2 * n) := by
  induction fuel generalizing n with
  | zero =>
    have : n = 0 := by omega
    subst this
    simp [bitLengthAux]
  | succ f ih =>
    by_cases hn : n = 0
    · subst hn
      simp [bitLengthAux]
    · have hpos : 0 < n := Nat.pos_of_ne_zero hn
      have hhalf : n / 2 ≤ f := by omega
      obtain ⟨h1, h2⟩ := ih (n / 2) hhalf
      simp only [bitLengthAux, hn, if_false, pow_succ]
      constructor
      · omega
      · intro _
        by_cases h0 : n / 2 = 0
        · have hk : bitLengthAux f (n / 2) = 0 := by
            rw [h0]
            cases f <;> simp [bitLengthAux]
          rw [hk]
          omega
        · have := h2 (Nat.pos_of_ne_zero h0)
          omega

/-- The digit count `k` of a positive `n` satisfies `n < 2 ^ k ≤ 2 n`. -/
theorem bitLength_spec (n : Nat) (hn : 0 < n) :
    n < 2 ^ bitLength n ∧ 2 ^ bitLength n ≤ 2 * n :=
  ⟨(bitLengthAux_spec n n le_rfl).1, (bitLengthAux_spec n n le_rfl).2 hn⟩

/-- The exponent of a non-zero number is a lower bound: `2 ^ e ≤ |x|`. -/
theorem two_zpow_floorLog2_le (x : ℚ) (hx : x ≠ 0) : (2 : ℚ) ^ floorLog2 x ≤ |x| := by
  unfold floorLog2
  split_ifs with h
  · exact h
  · have hnum : 0 < x.num.natAbs := Int.natAbs_pos.mpr (Rat.num_ne_zero.mpr hx)
    obtain ⟨-, ha⟩ := bitLength_spec x.num.natAbs hnum
    obtain ⟨hb, -⟩ := bitLength_spec x.den x.den_pos
    have habs : |x| = (x.num.natAbs : ℚ) / (x.den : ℚ) := by
      have h1 : |x| = |(x.num : ℚ)| / |(x.den : ℚ)| := by
        conv_lhs => rw [← Rat.num_div_den x]
        rw [abs_div]
      rw [h1, Nat.abs_cast, Nat.cast_natAbs, Int.cast_abs]
    have hden : (0 : ℚ) < (x.den : ℚ) := by exact_mod_cast x.den_pos
    have ha' : (2 : ℚ) ^ bitLength x.num.natAbs ≤ 2 * (x.num.natAbs : ℚ) := by exact_mod_cast ha
    have hb' : (x.den : ℚ) < (2 : ℚ) ^ bitLength x.den := by exact_mod_cast hb
    rw [habs, le_div_iff₀ hden, sub_sub, zpow_sub₀ (by norm_num : (2 : ℚ) ≠ 0), zpow_natCast,
      zpow_add₀ (by norm_num : (2 : ℚ) ≠ 0), zpow_natCast, zpow_one]
    rw [div_mul_eq_mul_div, div_le_iff₀ (by positivity)]
    have hpow : (0 : ℚ) < (2 : ℚ) ^ bitLength x.num.natAbs := by positivity
    have hn0 : (0 : ℚ) ≤ (x.num.natAbs : ℚ) := by positivity
    nlinarith

/-- Rounding to nearest stays below an integer bound. -/
theorem roundHalfEven_le (q : ℚ) (M : ℤ) (h : q ≤ M) : roundHalfEven q ≤ M := by
  have hfl : ⌊q⌋ ≤ M := Int.floor_le_floor h |>.trans (by simp)
  unfold roundHalfEven
  by_cases hq : q = M
  · have : q - ⌊q⌋ < 1 / 2 := by
      rw [hq, Int.floor_intCast]
      norm_num
    rw [if_pos this]
    exact hfl
  · have hlt : q < M := lt_of_le_of_ne h hq
    have hfl' : ⌊q⌋ < M := Int.floor_lt.mpr hlt
    split_ifs <;> omega

/-- Rounding to nearest stays above an integer bound. -/
theorem le_roundHalfEven (q : ℚ) (M : ℤ) (h : (M : ℚ) ≤ q) : M ≤ roundHalfEven q := by
  have hfl : M ≤ ⌊q⌋ := Int.le_floor.mpr h
  unfold roundHalfEven
  split_ifs <;> omega

namespace F32

/-- The spacing is positive. -/
theorem ulp_pos (x : ℚ) : 0 < ulp x := by
  unfold ulp
  positivity

/-- The spacing is at least `2 ^ (-149)`. -/
theorem ulp_ge (x : ℚ) : (2 : ℚ) ^ (-149 : ℤ) ≤ ulp x := by
  unfold ulp
  apply zpow_le_zpow_right₀ (by norm_num)
  have := le_max_right (floorLog2 x) (-126)
  omega

/-- A number of absolute value at least `2 ^ (-149)` is at least one spacing
away from zero. -/
theorem ulp_le_abs (x : ℚ) (hx : (2 : ℚ) ^ (-149 : ℤ) ≤ |x|) : ulp x ≤ |x| := by
  have hx0 : x ≠ 0 := by
    intro h0
    rw [h0, abs_zero] at hx
    have : (0 : ℚ) < (2 : ℚ) ^ (-149 : ℤ) := by positivity
    linarith
  unfold ulp
  rcases le_total (floorLog2 x) (-126) with h | h
  · rw [max_eq_right h]
    exact hx
  · rw [max_eq_left h]
    calc (2 : ℚ) ^ (floorLog2 x - 23) ≤ (2 : ℚ) ^ floorLog2 x :=
          zpow_le_zpow_right₀ (by norm_num) (by omega)
      _ ≤ |x| := two_zpow_floorLog2_le x hx0

/-- Rounding keeps the sign: a non-negative number rounds to a non-negative
one, a non-positive number to a non-positive one. -/
theorem roundQ_sign (x : ℚ) : (0 ≤ x → 0 ≤ roundQ x) ∧ (x ≤ 0 → roundQ x ≤ 0) := by
  have hu := ulp_pos x
  unfold roundQ
  constructor
  · intro hx
    have h := le_roundHalfEven (x / ulp x) 0 (by simpa using div_nonneg hx hu.le)
    have : (0 : ℚ) ≤ (roundHalfEven (x / ulp x) : ℚ) := by exact_mod_cast h
    positivity
  · intro hx
    have h := roundHalfEven_le (x / ulp x) 0 (by simpa using div_nonpos_of_nonpos_of_nonneg hx hu.le)
    have : (roundHalfEven (x / ulp x) : ℚ) ≤ 0 := by exact_mod_cast h
    exact mul_nonpos_of_nonpos_of_nonneg this hu.le

/-- A number at most `-2 ^ (-149)` rounds to a negative number. -/
theorem roundQ_neg (x : ℚ) (hx : x ≤ -(2 : ℚ) ^ (-149 : ℤ)) : roundQ x < 0 := by
  have hu := ulp_pos x
  have hpos : (0 : ℚ) < (2 : ℚ) ^ (-149 : ℤ) := by positivity
  have hxneg : x < 0 := by linarith
  have habs : (2 : ℚ) ^ (-149 : ℤ) ≤ |x| := by
    rw [abs_of_neg hxneg]
    linarith
  have hle := ulp_le_abs x habs
  rw [abs_of_neg hxneg] at hle
  have hq : x / ulp x ≤ ((-1 : ℤ) : ℚ) := by
    rw [div_le_iff₀ hu]
    push_cast
    linarith
  have h := roundHalfEven_le (x / ulp x) (-1) hq
  have : (roundHalfEven (x / ulp x) : ℚ) ≤ -1 := by exact_mod_cast h
  unfold roundQ
  nlinarith

/-- A number at most `-2 ^ (-149)` rounds to a negative float: a negative number
or minus infinity. -/
theorem round_neg (x : ℚ) (hx : x ≤ -(2 : ℚ) ^ (-149 : ℤ)) : lt (round x) (fin 0) = true := by
  have h := roundQ_neg x hx
  have hmax : (0 : ℚ) < maxFinite := by norm_num [maxFinite]
  unfold round
  split_ifs with h1 h2
  · linarith
  · rfl
  · simp [lt, h]

/-- A binary32 number other than zero is at least `2 ^ (-149)` in absolute
value. -/
theorem exact_abs_ge (x : ℚ) (hex : Exact x) (hx : x ≠ 0) : (2 : ℚ) ^ (-149 : ℤ) ≤ |x| := by
  have hr : roundQ x = x := by
    unfold Exact round at hex
    split_ifs at hex
    exact fin.inj hex
  have hu := ulp_pos x
  have hn : roundHalfEven (x / ulp x) ≠ 0 := by
    intro h0
    unfold roundQ at hr
    rw [h0] at hr
    simp at hr
    exact hx hr.symm
  have h1 : (1 : ℚ) ≤ |(roundHalfEven (x / ulp x) : ℚ)| := by
    rw [← Int.cast_abs]
    exact_mod_cast Int.one_le_abs hn
  calc (2 : ℚ) ^ (-149 : ℤ) ≤ ulp x := ulp_ge x
    _ ≤ |(roundHalfEven (x / ulp x) : ℚ)| * ulp x := le_mul_of_one_le_left hu.le h1
    _ = |x| := by
      conv_rhs => rw [← hr]
      unfold roundQ
      rw [abs_mul, abs_of_pos hu]

end F32

/-! ### The slab test in binary32 -/

namespace F32

/-- The minimum of two negative times is negative. -/
theorem stdMin_neg (a b : F32) (ha : lt a (fin 0) = true) (hb : lt b (fin 0) = true) :
    lt (stdMin a b) (fin 0) = true := by
  unfold stdMin
  split_ifs
  · exact hb
  · exact ha

/-- The maximum of two negative times is negative. -/
theorem stdMax_neg (a b : F32) (ha : lt a (fin 0) = true) (hb : lt b (fin 0) = true) :
    lt (stdMax a b) (fin 0) = true := by
  unfold stdMax
  split_ifs
  · exact hb
  · exact ha

/-- The minimum of two times of at least 1 is at least 1. -/
theorem stdMin_geOne (a b : F32) (ha : le (fin 1) a = true) (hb : le (fin 1) b = true) :
    le (fin 1) (stdMin a b) = true := by
  unfold stdMin
  split_ifs
  · exact hb
  · exact ha

/-- `std::min` with a negative second argument is negative or not a number. -/
theorem stdMin_negOrNaN_right (a b : F32) (hb : lt b (fin 0) = true) :
    NegOrNaN (stdMin a b) := by
  unfold stdMin NegOrNaN
  split_ifs with h
  · exact Or.inr hb
  · rcases a with a | _ | _ | _ <;> rcases b with b | _ | _ | _ <;> simp_all [lt]
    linarith

/-- `std::min` keeps a first argument that is negative or not a number so. -/
theorem stdMin_negOrNaN_left (a b : F32) (ha : NegOrNaN a) : NegOrNaN (stdMin a b) := by
  unfold stdMin
  split_ifs with h
  · rcases ha with ha | ha
    · subst ha
      rcases b with b | _ | _ | _ <;> simp [lt] at h
    · right
      rcases a with a | _ | _ | _ <;> rcases b with b | _ | _ | _ <;> simp_all [lt]
      linarith
  · exact ha

/-- `std::max` with a second argument of at least 1 is at least 1 or not a
number. -/
theorem stdMax_geOneOrNaN_right (a b : F32) (hb : le (fin 1) b = true) :
    GeOneOrNaN (stdMax a b) := by
  unfold stdMax GeOneOrNaN
  split_ifs with h
  · exact Or.inr hb
  · rcases a with a | _ | _ | _ <;> rcases b with b | _ | _ | _ <;> simp_all [lt, le]
    linarith

/-- `std::max` keeps a first argument that is at least 1 or not a number so. -/
theorem stdMax_geOneOrNaN_left (a b : F32) (ha : GeOneOrNaN a) : GeOneOrNaN (stdMax a b) := by
  unfold stdMax
  split_ifs with h
  · rcases ha with ha | ha
    · subst ha
      rcases b with b | _ | _ | _ <;> simp [lt] at h
    · right
      rcases a with a | _ | _ | _ <;> rcases b with b | _ | _ | _ <;> simp_all [lt, le]
      linarith
  · exact ha

/-- The test `TimeMax >= std::max(0.0f, TimeMin)` fails when `TimeMax` is
negative or not a number. -/
theorem le_stdMax_zero_false (T c : F32) (hc : NegOrNaN c) :
    le (stdMax (fin 0) T) c = false := by
  unfold stdMax
  rcases hc with hc | hc
  · subst hc
    split_ifs <;> rcases T with T | _ | _ | _ <;> rfl
  · split_ifs with h
    · rcases T with T | _ | _ | _ <;> rcases c with c | _ | _ | _ <;> simp_all [lt, le]
      linarith
    · rcases c with c | _ | _ | _ <;> simp_all [lt, le]

/-- The test `TimeMin < 1` fails when `TimeMin` is at least 1 or not a
number. -/
theorem lt_one_false (T : F32) (hT : GeOneOrNaN T) : lt T (fin 1) = false := by
  rcases hT with hT | hT
  · subst hT
    rfl
  · rcases T with T | _ | _ | _ <;> simp_all [lt, le]

end F32

namespace F32

/-- When the spacing is at most 1, the number 1 is a multiple of it. -/
theorem ulp_dvd_one (x : ℚ) (h : ulp x ≤ 1) : ∃ N : ℤ, (N : ℚ) * ulp x = 1 := by
  unfold ulp at h ⊢
  rcases le_or_lt (max (floorLog2 x) (-126) - 23) 0 with hk | hk
  · obtain ⟨n, hn⟩ := Int.exists_eq_neg_ofNat hk
    refine ⟨2 ^ n, ?_⟩
    rw [hn, zpow_neg, zpow_natCast]
    push_cast
    exact mul_inv_cancel₀ (by positivity)
  · exfalso
    have h2 : (2 : ℚ) ^ (1 : ℤ) ≤ (2 : ℚ) ^ (max (floorLog2 x) (-126) - 23) :=
      zpow_le_zpow_right₀ (by norm_num) (by omega)
    rw [zpow_one] at h2
    linarith

/-- A number at least a multiple of the spacing rounds to at least that
multiple. -/
theorem le_roundQ (x : ℚ) (N : ℤ) (hx : (N : ℚ) * ulp x ≤ x) : (N : ℚ) * ulp x ≤ roundQ x := by
  have hu := ulp_pos x
  have h := le_roundHalfEven (x / ulp x) N ((le_div_iff₀ hu).mpr hx)
  have h1 : (N : ℚ) ≤ (roundHalfEven (x / ulp x) : ℚ) := by exact_mod_cast h
  unfold roundQ
  exact mul_le_mul_of_nonneg_right h1 hu.le

/-- A number at most a multiple of the spacing rounds to at most that
multiple. -/
theorem roundQ_le (x : ℚ) (N : ℤ) (hx : x ≤ (N : ℚ) * ulp x) : roundQ x ≤ (N : ℚ) * ulp x := by
  have hu := ulp_pos x
  have h := roundHalfEven_le (x / ulp x) N ((div_le_iff₀ hu).mpr hx)
  have h1 : (roundHalfEven (x / ulp x) : ℚ) ≤ (N : ℚ) := by exact_mod_cast h
  unfold roundQ
  exact mul_le_mul_of_nonneg_right h1 hu.le

/-- A number of at least 1 rounds to at least 1. -/
theorem one_le_roundQ (x : ℚ) (hx : 1 ≤ x) : 1 ≤ roundQ x := by
  have hu := ulp_pos x
  rcases le_or_lt (ulp x) 1 with h1 | h1
  · obtain ⟨N, hN⟩ := ulp_dvd_one x h1
    have := le_roundQ x N (by rw [hN]; exact hx)
    rwa [hN] at this
  · have habs : (2 : ℚ) ^ (-149 : ℤ) ≤ |x| := by
      rw [abs_of_pos (by linarith)]
      have : (2 : ℚ) ^ (-149 : ℤ) ≤ 1 := zpow_le_one_of_nonpos₀ (by norm_num) (by norm_num)
      linarith
    have hle := ulp_le_abs x habs
    rw [abs_of_pos (by linarith)] at hle
    have := le_roundQ x 1 (by simpa using hle)
    simp only [Int.cast_one, one_mul] at this
    linarith

/-- A number of at least 1 rounds to a float of at least 1: a number or plus
infinity. -/
theorem round_ge_one (x : ℚ) (hx : 1 ≤ x) : le (fin 1) (round x) = true := by
  have h := one_le_roundQ x hx
  have hmax : (0 : ℚ) < maxFinite := by norm_num [maxFinite]
  unfold round
  split_ifs with h1 h2
  · rfl
  · linarith
  · simp [le, h]

/-- A negative float times a stand-in of at least 1 is negative. -/
theorem mul_neg_big (a : ℚ) (ha : a < 0) (hex : Exact a) (Big : F32)
    (hBig : le (fin 1) Big = true) : lt (mul (fin a) Big) (fin 0) = true := by
  rcases Big with b | _ | _ | _
  · have hb : 1 ≤ b := by simpa [le] using hBig
    have habs := exact_abs_ge a hex ha.ne
    rw [abs_of_neg ha] at habs
    have : a * b ≤ -(2 : ℚ) ^ (-149 : ℤ) := by nlinarith
    exact round_neg _ this
  · have h1 : ¬ (0 < a) := by linarith
    simp [mul, sign, h1, ha, lt]
  · simp [le] at hBig
  · simp [le] at hBig

/-- A positive float times a stand-in that is infinite or large enough for the
product to reach 1 is at least 1. -/
theorem mul_pos_big (a : ℚ) (ha : 0 < a) (Big : F32)
    (hBig : Big = pinf ∨ ∃ b : ℚ, Big = fin b ∧ 1 ≤ a * b) :
    le (fin 1) (mul (fin a) Big) = true := by
  rcases hBig with hBig | ⟨b, hBig, hb⟩
  · subst hBig
    simp [mul, sign, ha, le]
  · subst hBig
    exact round_ge_one _ hb

end F32

/-- On one axis with a non-zero direction and exact operations, the two slab
times of the float code are the exact quotients. -/
theorem axis_time_exact (Big : F32) (m M s e : ℚ) (hd : e - s ≠ 0)
    (hex : ExactAxisOps m M s e) :
    F32.mul (F32.sub (F32.fin m) (F32.fin s))
        (F32.reciprocal Big (F32.sub (F32.fin e) (F32.fin s))) =
        F32.fin ((m - s) * (1 / (e - s))) ∧
      F32.mul (F32.sub (F32.fin M) (F32.fin s))
        (F32.reciprocal Big (F32.sub (F32.fin e) (F32.fin s))) =
        F32.fin ((M - s) * (1 / (e - s))) := by
  obtain ⟨h1, h2, h3, h4, h5, h6⟩ := hex
  have hr : F32.reciprocal Big (F32.fin (e - s)) = F32.fin (1 / (e - s)) := by
    unfold F32.reciprocal
    rw [if_neg (by simpa using hd)]
    simp only [F32.div, hd, if_false]
    exact h2
  rw [F32.sub_fin _ _ h1, F32.sub_fin _ _ h3, F32.sub_fin _ _ h4, hr]
  exact ⟨h5, h6⟩

/-- On one axis with a non-zero direction: when both endpoints `s`, `e` lie
above the slab `[m, M]` or both below it, the two slab times are both negative
or both at least 1. -/
theorem axis_separated (m M s e : ℚ) (hmM : m ≤ M) (hd : e - s ≠ 0)
    (h : (M < s ∧ M < e) ∨ (s < m ∧ e < m)) :
    ((m - s) * (1 / (e - s)) < 0 ∧ (M - s) * (1 / (e - s)) < 0) ∨
      (1 ≤ (m - s) * (1 / (e - s)) ∧ 1 ≤ (M - s) * (1 / (e - s))) := by
  rcases lt_or_gt_of_ne hd with hneg | hpos
  · rcases h with ⟨h1, h2⟩ | ⟨h1, h2⟩
    · right
      rw [mul_one_div, mul_one_div, one_le_div_of_neg hneg, one_le_div_of_neg hneg]
      constructor <;> linarith
    · left
      rw [mul_one_div, mul_one_div, div_neg_iff, div_neg_iff]
      constructor <;> left <;> constructor <;> linarith
  · rcases h with ⟨h1, h2⟩ | ⟨h1, h2⟩
    · left
      rw [mul_one_div, mul_one_div, div_neg_iff, div_neg_iff]
      constructor <;> right <;> constructor <;> linarith
    · right
      rw [mul_one_div, mul_one_div, one_le_div hpos, one_le_div hpos]
      constructor <;> linarith

/-- On an axis where the endpoints lie outside the slab in a way the float code
detects, the two computed slab times are both negative or both at least 1. -/
theorem outside_times (Big : F32) (m M s e : ℚ) (hmM : m ≤ M)
    (h : OutsideOnAxis Big m M s e) :
    (F32.lt (F32.mul (F32.sub (F32.fin m) (F32.fin s))
          (F32.reciprocal Big (F32.sub (F32.fin e) (F32.fin s)))) (F32.fin 0) = true ∧
        F32.lt (F32.mul (F32.sub (F32.fin M) (F32.fin s))
          (F32.reciprocal Big (F32.sub (F32.fin e) (F32.fin s)))) (F32.fin 0) = true) ∨
      (F32.le (F32.fin 1) (F32.mul (F32.sub (F32.fin m) (F32.fin s))
          (F32.reciprocal Big (F32.sub (F32.fin e) (F32.fin s)))) = true ∧
        F32.le (F32.fin 1) (F32.mul (F32.sub (F32.fin M) (F32.fin s))
          (F32.reciprocal Big (F32.sub (F32.fin e) (F32.fin s)))) = true) := by
  have hzero : ∀ x : ℚ, F32.reciprocal Big (F32.sub (F32.fin x) (F32.fin x)) = Big := by
    intro x
    rw [F32.sub_fin x x (by rw [sub_self]; exact F32.exact_zero), sub_self]
    simp [F32.reciprocal]
  rcases h with ⟨hd, hex, hsep⟩ | ⟨hes, hm, hM, hlt, hBig⟩ | ⟨hes, hm, hM, hlt, hBig⟩
  · obtain ⟨h1, h2⟩ := axis_time_exact Big m M s e hd hex
    rw [h1, h2]
    rcases axis_separated m M s e hmM hd hsep with ⟨ha, hb⟩ | ⟨ha, hb⟩
    · left
      rw [F32.lt_fin, F32.lt_fin]
      exact ⟨decide_eq_true ha, decide_eq_true hb⟩
    · right
      rw [F32.le_fin, F32.le_fin]
      exact ⟨decide_eq_true ha, decide_eq_true hb⟩
  · subst hes
    left
    rw [hzero, F32.sub_fin _ _ hm, F32.sub_fin _ _ hM]
    exact ⟨F32.mul_neg_big _ (by linarith) hm Big hBig,
      F32.mul_neg_big _ (by linarith) hM Big hBig⟩
  · subst hes
    right
    rw [hzero, F32.sub_fin _ _ hm, F32.sub_fin _ _ hM]
    refine ⟨F32.mul_pos_big _ (by linarith) Big hBig, F32.mul_pos_big _ (by linarith) Big ?_⟩
    rcases hBig with hBig | ⟨b, hBig, hb⟩
    · exact Or.inl hBig
    · refine Or.inr ⟨b, hBig, ?_⟩
      have hpos : 0 < m - e := by linarith
      have hbpos : 0 < b := by
        by_contra hcon
        have : (m - e) * b ≤ 0 := mul_nonpos_of_nonneg_of_nonpos hpos.le (not_lt.mp hcon)
        linarith
      nlinarith

/-- The float slab test answers false as soon as, on one axis, both computed
slab times are negative or both are at least 1, whatever the other axes give,
infinities and NaN included. -/
theorem intersects32_false (B : AABB32) (S : OptSegment32)
    (h : ((F32.lt (F32.mul (F32.sub B.Min.X S.Start.X) S.Reciprocal.X) (F32.fin 0) = true ∧
          F32.lt (F32.mul (F32.sub B.Max.X S.Start.X) S.Reciprocal.X) (F32.fin 0) = true) ∨
        (F32.le (F32.fin 1) (F32.mul (F32.sub B.Min.X S.Start.X) S.Reciprocal.X) = true ∧
          F32.le (F32.fin 1) (F32.mul (F32.sub B.Max.X S.Start.X) S.Reciprocal.X) = true)) ∨
      ((F32.lt (F32.mul (F32.sub B.Min.Y S.Start.Y) S.Reciprocal.Y) (F32.fin 0) = true ∧
          F32.lt (F32.mul (F32.sub B.Max.Y S.Start.Y) S.Reciprocal.Y) (F32.fin 0) = true) ∨
        (F32.le (F32.fin 1) (F32.mul (F32.sub B.Min.Y S.Start.Y) S.Reciprocal.Y) = true ∧
          F32.le (F32.fin 1) (F32.mul (F32.sub B.Max.Y S.Start.Y) S.Reciprocal.Y) = true)) ∨
      ((F32.lt (F32.mul (F32.sub B.Min.Z S.Start.Z) S.Reciprocal.Z) (F32.fin 0) = true ∧
          F32.lt (F32.mul (F32.sub B.Max.Z S.Start.Z) S.Reciprocal.Z) (F32.fin 0) = true) ∨
        (F32.le (F32.fin 1) (F32.mul (F32.sub B.Min.Z S.Start.Z) S.Reciprocal.Z) = true ∧
          F32.le (F32.fin 1) (F32.mul (F32.sub B.Max.Z S.Start.Z) S.Reciprocal.Z) = true))) :
    B.Intersects S = false := by
  simp only [AABB32.Intersects, Bool.and_eq_false_iff]
  rcases h with (⟨h1, h2⟩ | ⟨h1, h2⟩) | (⟨h1, h2⟩ | ⟨h1, h2⟩) | (⟨h1, h2⟩ | ⟨h1, h2⟩)
  · left
    exact F32.le_stdMax_zero_false _ _ (F32.stdMin_negOrNaN_left _ _
      (F32.stdMin_negOrNaN_left _ _ (Or.inr (F32.stdMin_neg _ _ h1 h2))))
  · right
    exact F32.lt_one_false _ (F32.stdMax_geOneOrNaN_left _ _
      (F32.stdMax_geOneOrNaN_left _ _ (Or.inr (F32.stdMin_geOne _ _ h1 h2))))
  · left
    exact F32.le_stdMax_zero_false _ _ (F32.stdMin_negOrNaN_left _ _
      (F32.stdMin_negOrNaN_right _ _ (F32.stdMax_neg _ _ h1 h2)))
  · right
    exact F32.lt_one_false _ (F32.stdMax_geOneOrNaN_left _ _
      (F32.stdMax_geOneOrNaN_right _ _ (F32.stdMin_geOne _ _ h1 h2)))
  · left
    exact F32.le_stdMax_zero_false _ _ (F32.stdMin_negOrNaN_right _ _ (F32.stdMax_neg _ _ h1 h2))
  · right
    exact F32.lt_one_false _ (F32.stdMax_geOneOrNaN_right _ _ (F32.stdMin_geOne _ _ h1 h2))

/-- C9 (counterexample): with the engine's stand-in `BIG_NUMBER` for the
reciprocal of zero, the box `[(-1,0,-1), (1,1,1)]` and the segment from
`(-4, -2^-130, 0)` to `(4, -2^-130, 0)`: the box is well formed, all coordinates
are binary32 numbers, both endpoints lie below the box on the Y axis, and
`AABB::Intersects` returns true. -/
theorem intersects_accepts_separated :
    (⟨⟨-1, 0, -1⟩, ⟨1, 1, 1⟩⟩ : AABB).WellFormed ∧ F32.Exact (-(1 / 2 ^ 130)) ∧
      (⟨⟨-1, 0, -1⟩, ⟨1, 1, 1⟩⟩ : AABB).SeparatedOnAxis ⟨-4, -(1 / 2 ^ 130), 0⟩
        ⟨4, -(1 / 2 ^ 130), 0⟩ ∧
      (AABB.toF32 ⟨⟨-1, 0, -1⟩, ⟨1, 1, 1⟩⟩).Intersects
        (OptSegment32.ofEndpoints BIG_NUMBER (FVector.toF32 ⟨-4, -(1 / 2 ^ 130), 0⟩)
          (FVector.toF32 ⟨4, -(1 / 2 ^ 130), 0⟩)) = true := by
  refine ⟨by decide!, by decide!, ?_, by decide!⟩
  right
  left
  right
  constructor <;> norm_num

/-- C9 (amended): for every well-formed box, every segment and every stand-in
`Big` for the reciprocal of zero, `AABB::Intersects` in binary32 returns false
when on some axis both endpoints lie above the box or both below it and the float
code can detect it: the direction on that axis is not zero and the operations of
that axis are exact, or the direction is zero and `Big` is large enough.  The
other two axes are free. -/
theorem intersects_rejects_separated (Big : F32) (B : AABB) (hB : B.WellFormed)
    (Start End : FVector)
    (h : OutsideOnAxis Big B.Min.X B.Max.X Start.X End.X ∨
      OutsideOnAxis Big B.Min.Y B.Max.Y Start.Y End.Y ∨
      OutsideOnAxis Big B.Min.Z B.Max.Z Start.Z End.Z) :
    B.toF32.Intersects (OptSegment32.ofEndpoints Big Start.toF32 End.toF32) = false := by
  obtain ⟨hBX, hBY, hBZ⟩ := hB
  apply intersects32_false
  rcases h with h | h | h
  · exact Or.inl (outside_times Big _ _ _ _ hBX h)
  · exact Or.inr (Or.inl (outside_times Big _ _ _ _ hBY h))
  · exact Or.inr (Or.inr (outside_times Big _ _ _ _ hBZ h))

/-- C9 (witness): the box `[(-1,-1,-1), (1,1,1)]` and the segment from
`(-5,5,0)` to `(5,5,0)`, which lies above the box on the Y axis with a zero
direction there, with the engine's `BIG_NUMBER`. -/
theorem intersects_rejects_separated_witness :
    unitBox.WellFormed ∧
      OutsideOnAxis BIG_NUMBER unitBox.Min.Y unitBox.Max.Y (5 : ℚ) (5 : ℚ) ∧
      unitBox.toF32.Intersects
        (OptSegment32.ofEndpoints BIG_NUMBER (FVector.toF32 ⟨-5, 5, 0⟩)
          (FVector.toF32 ⟨5, 5, 0⟩)) = false :=
  have h1 : unitBox.WellFormed := by decide!
  have h2 : OutsideOnAxis BIG_NUMBER unitBox.Min.Y unitBox.Max.Y (5 : ℚ) (5 : ℚ) :=
    Or.inr (Or.inl ⟨rfl, by decide!, by decide!, by decide!, by decide!⟩)
  ⟨h1, h2, intersects_rejects_separated BIG_NUMBER unitBox h1 ⟨-5, 5, 0⟩ ⟨5, 5, 0⟩
    (Or.inr (Or.inl h2))⟩

/-! ### The slab test: accepted segments -/

/-- On one axis with a non-zero direction `d`: a time between the two slab times
gives a point between the slab bounds. -/
theorem axis_inside (m M s d t : ℚ) (hmM : m ≤ M) (hd : d ≠ 0)
    (h1 : min ((m - s) * (1 / d)) ((M - s) * (1 / d)) ≤ t)
    (h2 : t ≤ max ((m - s) * (1 / d)) ((M - s) * (1 / d))) :
    m ≤ s + d * t ∧ s + d * t ≤ M := by
  rw [mul_one_div, mul_one_div] at h1 h2
  rcases lt_or_gt_of_ne hd with hneg | hpos
  · have hle : (M - s) / d ≤ (m - s) / d :=
      (div_le_div_right_of_neg hneg).mpr (by linarith)
    rw [min_eq_right hle] at h1
    rw [max_eq_left hle] at h2
    rw [div_le_iff_of_neg hneg] at h1
    rw [le_div_iff_of_neg hneg] at h2
    constructor <;> nlinarith
  · have hle : (m - s) / d ≤ (M - s) / d :=
      (div_le_div_iff_of_pos_right hpos).mpr (by linarith)
    rw [min_eq_left hle] at h1
    rw [max_eq_right hle] at h2
    rw [div_le_iff₀ hpos] at h1
    rw [le_div_iff₀ hpos] at h2
    constructor <;> nlinarith

/-- The slab test on exact slab times: for a well-formed box and a direction
with no zero component, a true answer comes with a `t` in `[0, 1)` whose point
lies in the box. -/
theorem slab_times_inside (Big : ℚ) (B : AABB) (hB : B.WellFormed)
    (Start End : FVector) (hX : End.X - Start.X ≠ 0) (hY : End.Y - Start.Y ≠ 0)
    (hZ : End.Z - Start.Z ≠ 0)
    (h : B.Intersects (OptSegment.ofEndpoints Big Start End) = true) :
    ∃ t : ℚ, 0 ≤ t ∧ t < 1 ∧ B.Contains (pointAt Start End t) := by
  obtain ⟨hBX, hBY, hBZ⟩ := hB
  simp only [AABB.Intersects, Bool.and_eq_true, decide_eq_true_eq, OptSegment.ofEndpoints,
    FVector.Reciprocal, FVector.sub, ge_iff_le, ne_eq, hX, hY, hZ, not_false_eq_true,
    if_true] at h
  obtain ⟨h1, h2⟩ := h
  refine ⟨max 0 (max (max (min ((B.Min.X - Start.X) * (1 / (End.X - Start.X)))
      ((B.Max.X - Start.X) * (1 / (End.X - Start.X))))
    (min ((B.Min.Y - Start.Y) * (1 / (End.Y - Start.Y)))
      ((B.Max.Y - Start.Y) * (1 / (End.Y - Start.Y)))))
    (min ((B.Min.Z - Start.Z) * (1 / (End.Z - Start.Z)))
      ((B.Max.Z - Start.Z) * (1 / (End.Z - Start.Z))))), le_max_left _ _,
    max_lt one_pos h2, ?_⟩
  have hXin := axis_inside B.Min.X B.Max.X Start.X (End.X - Start.X) _ hBX hX
    (le_trans (le_trans (le_max_left _ _) (le_max_left _ _)) (le_max_right _ _))
    (le_trans h1 (le_trans (min_le_left _ _) (le_trans (min_le_left _ _) min_le_max)))
  have hYin := axis_inside B.Min.Y B.Max.Y Start.Y (End.Y - Start.Y) _ hBY hY
    (le_trans (le_trans (le_max_right _ _) (le_max_left _ _)) (le_max_right _ _))
    (le_trans h1 (le_trans (min_le_left _ _) (min_le_right _ _)))
  have hZin := axis_inside B.Min.Z B.Max.Z Start.Z (End.Z - Start.Z) _ hBZ hZ
    (le_trans (le_max_right _ _) (le_max_right _ _))
    (le_trans h1 (min_le_right _ _))
  simp only [AABB.Contains, pointAt, FVector.add, FVector.sub, FVector.scale]
  exact ⟨hXin.1, hXin.2, hYin.1, hYin.2, hZin.1, hZin.2⟩

/-- When the direction has no zero component and the operations of the slab
test are exact on all three axes, the float code gives the answer of the exact
slab times. -/
theorem intersects32_exact (Big : F32) (B : AABB) (Start End : FVector)
    (hX : End.X - Start.X ≠ 0) (hY : End.Y - Start.Y ≠ 0) (hZ : End.Z - Start.Z ≠ 0)
    (hex : B.ExactSlabOps Start End) :
    B.toF32.Intersects (OptSegment32.ofEndpoints Big Start.toF32 End.toF32) =
      B.Intersects (OptSegment.ofEndpoints 0 Start End) := by
  obtain ⟨hexX, hexY, hexZ⟩ := hex
  obtain ⟨hx1, hx2⟩ := axis_time_exact Big _ _ _ _ hX hexX
  obtain ⟨hy1, hy2⟩ := axis_time_exact Big _ _ _ _ hY hexY
  obtain ⟨hz1, hz2⟩ := axis_time_exact Big _ _ _ _ hZ hexZ
  simp only [AABB32.Intersects, AABB.toF32, FVector.toF32, OptSegment32.ofEndpoints, hx1, hx2,
    hy1, hy2, hz1, hz2, F32.stdMin_fin, F32.stdMax_fin, F32.le_fin, F32.lt_fin]
  simp only [AABB.Intersects, OptSegment.ofEndpoints, FVector.Reciprocal, FVector.sub, ne_eq, hX,
    hY, hZ, not_false_eq_true, if_true, ge_iff_le]

/-- C17 (counterexample): the box `[(-1,-1,-1), (1, 0.01f, 1)]`, where `0.01f` is
the float `5368709 / 536870912`, and the segment from `(-2,0,0)` to `(98,1,1)`:
the box is well formed, the coordinates are binary32 numbers, the direction
`(100,1,1)` has no zero component, `AABB::Intersects` returns true, and no point
of the line through the segment lies in the box (the X slab is entered at
`t = 1/100`, past the Y bound `0.01f < 1/100`). -/
theorem intersects_accepts_segment_outside :
    (⟨⟨-1, -1, -1⟩, ⟨1, 5368709 / 536870912, 1⟩⟩ : AABB).WellFormed ∧
      F32.Exact (5368709 / 536870912) ∧
      (AABB.toF32 ⟨⟨-1, -1, -1⟩, ⟨1, 5368709 / 536870912, 1⟩⟩).Intersects
        (OptSegment32.ofEndpoints BIG_NUMBER (FVector.toF32 ⟨-2, 0, 0⟩)
          (FVector.toF32 ⟨98, 1, 1⟩)) = true ∧
      ∀ t : ℚ, ¬ (⟨⟨-1, -1, -1⟩, ⟨1, 5368709 / 536870912, 1⟩⟩ : AABB).Contains
        (pointAt ⟨-2, 0, 0⟩ ⟨98, 1, 1⟩ t) := by
  refine ⟨by decide!, by decide!, by decide!, ?_⟩
  intro t
  simp only [AABB.Contains, pointAt, FVector.add, FVector.sub, FVector.scale]
  rintro ⟨h1, -, -, h2, -, -⟩
  norm_num at h1 h2
  linarith

/-- C17 (amended): for a well-formed box, a segment whose direction has no zero
component, and operations of the slab test that are exact in binary32 on all
three axes, a true answer of `AABB::Intersects` comes with a `t` in `[0, 1)`
whose point `Start + t (End - Start)` lies in the box on all three axes. -/
theorem intersects_no_false_positive (Big : F32) (B : AABB) (hB : B.WellFormed)
    (Start End : FVector) (hX : End.X - Start.X ≠ 0) (hY : End.Y - Start.Y ≠ 0)
    (hZ : End.Z - Start.Z ≠ 0) (hex : B.ExactSlabOps Start End)
    (h : B.toF32.Intersects (OptSegment32.ofEndpoints Big Start.toF32 End.toF32) = true) :
    ∃ t : ℚ, 0 ≤ t ∧ t < 1 ∧ B.Contains (pointAt Start End t) := by
  rw [intersects32_exact Big B Start End hX hY hZ hex] at h
  exact slab_times_inside 0 B hB Start End hX hY hZ h

/-- C17 (witness): the box `[(-1,-1,-1), (1,1,1)]` and the segment from
`(-4,-4,-4)` to `(4,4,4)`, whose slab times `3/8` and `5/8` are exact and which
`AABB::Intersects` accepts. -/
theorem intersects_no_false_positive_witness :
    unitBox.WellFormed ∧ unitBox.ExactSlabOps ⟨-4, -4, -4⟩ ⟨4, 4, 4⟩ ∧
      unitBox.toF32.Intersects (OptSegment32.ofEndpoints BIG_NUMBER
        (FVector.toF32 ⟨-4, -4, -4⟩) (FVector.toF32 ⟨4, 4, 4⟩)) = true ∧
      ∃ t : ℚ, 0 ≤ t ∧ t < 1 ∧ unitBox.Contains (pointAt ⟨-4, -4, -4⟩ ⟨4, 4, 4⟩ t) :=
  have h1 : unitBox.WellFormed := by decide!
  have h2 : unitBox.ExactSlabOps ⟨-4, -4, -4⟩ ⟨4, 4, 4⟩ := by decide!
  have h3 : unitBox.toF32.Intersects (OptSegment32.ofEndpoints BIG_NUMBER
      (FVector.toF32 ⟨-4, -4, -4⟩) (FVector.toF32 ⟨4, 4, 4⟩)) = true := by decide!
  ⟨h1, h2, h3, intersects_no_false_positive BIG_NUMBER unitBox h1 ⟨-4, -4, -4⟩ ⟨4, 4, 4⟩
    (by norm_num) (by norm_num) (by norm_num) h2 h3⟩

/-! ### The fast angle in binary32 -/

namespace F32

/-- The exponent of zero. -/
theorem floorLog2_zero : floorLog2 0 = -2 := by decide!

/-- A number of absolute value at most `10^9` has a spacing that divides
`10^9`. -/
theorem ulp_dvd_bound (x : ℚ) (h : |x| ≤ 1000000000) :
    ∃ N : ℤ, (N : ℚ) * ulp x = 1000000000 := by
  have he : floorLog2 x ≤ 29 := by
    by_cases hx : x = 0
    · rw [hx, floorLog2_zero]
      norm_num
    · by_contra hcon
      have h30 : (2 : ℚ) ^ (30 : ℤ) ≤ (2 : ℚ) ^ floorLog2 x :=
        zpow_le_zpow_right₀ (by norm_num) (by omega)
      have := two_zpow_floorLog2_le x hx
      norm_num at h30
      linarith
  have hk : max (floorLog2 x) (-126) - 23 ≤ 6 := by
    have := max_le he (by norm_num : (-126 : ℤ) ≤ 29)
    omega
  obtain ⟨n, hn⟩ := Int.exists_eq_neg_ofNat (by omega : max (floorLog2 x) (-126) - 23 - 6 ≤ 0)
  refine ⟨15625000 * 2 ^ n, ?_⟩
  have hk2 : max (floorLog2 x) (-126) - 23 = 6 - (n : ℤ) := by omega
  unfold ulp
  rw [hk2, zpow_sub₀ (by norm_num : (2 : ℚ) ≠ 0), zpow_natCast]
  push_cast
  have hpow : (2 : ℚ) ^ n ≠ 0 := by positivity
  field_simp
  ring

/-- A number between 0 and `10^9` rounds to a float between 0 and `10^9`. -/
theorem round_mem_nonneg (y : ℚ) (h0 : 0 ≤ y) (h1 : y ≤ 1000000000) :
    ∃ q : ℚ, round y = fin q ∧ 0 ≤ q ∧ q ≤ 1000000000 := by
  obtain ⟨N, hN⟩ := ulp_dvd_bound y (by rw [abs_of_nonneg h0]; exact h1)
  have hle := roundQ_le y N (by rw [hN]; exact h1)
  rw [hN] at hle
  have hge := (roundQ_sign y).1 h0
  have hmax : (1000000000 : ℚ) < maxFinite := by norm_num [maxFinite]
  refine ⟨roundQ y, ?_, hge, hle⟩
  unfold round
  rw [if_neg (by linarith), if_neg (by linarith)]

/-- A number between `-10^9` and 0 rounds to a float between `-10^9` and 0. -/
theorem round_mem_nonpos (y : ℚ) (h0 : y ≤ 0) (h1 : -1000000000 ≤ y) :
    ∃ q : ℚ, round y = fin q ∧ -1000000000 ≤ q ∧ q ≤ 0 := by
  obtain ⟨N, hN⟩ := ulp_dvd_bound y (by rw [abs_of_nonpos h0]; linarith)
  have hge := le_roundQ y (-N) (by push_cast; rw [neg_mul, hN]; exact h1)
  push_cast at hge
  rw [neg_mul, hN] at hge
  have hle := (roundQ_sign y).2 h0
  have hmax : (1000000000 : ℚ) < maxFinite := by norm_num [maxFinite]
  refine ⟨roundQ y, ?_, hge, hle⟩
  unfold round
  rw [if_neg (by linarith), if_neg (by linarith)]

/-- A non-positive number rounds to minus infinity or to a non-positive
number. -/
theorem round_nonpos (y : ℚ) (h : y ≤ 0) : round y = ninf ∨ ∃ r : ℚ, round y = fin r ∧ r ≤ 0 := by
  have hle := (roundQ_sign y).2 h
  have hmax : (0 : ℚ) < maxFinite := by norm_num [maxFinite]
  unfold round
  rw [if_neg (by linarith)]
  split_ifs
  · exact Or.inl rfl
  · exact Or.inr ⟨_, rfl, hle⟩

/-- A non-negative number rounds to plus infinity or to a non-negative
number. -/
theorem round_nonneg (y : ℚ) (h : 0 ≤ y) : round y = pinf ∨ ∃ r : ℚ, round y = fin r ∧ 0 ≤ r := by
  have hge := (roundQ_sign y).1 h
  have hmax : (0 : ℚ) < maxFinite := by norm_num [maxFinite]
  unfold round
  split_ifs with h1 h2
  · exact Or.inl rfl
  · linarith
  · exact Or.inr ⟨_, rfl, hge⟩

end F32

namespace Utils

/-- `FastAtan` returns a number between `FAST_ATAN_MIN` and `FAST_ATAN_MAX` for
every float, infinities and NaN included. -/
theorem fastAtan32_mem (t : F32) :
    ∃ f : ℚ, FastAtan32 t = F32.fin f ∧ -1000000000 ≤ f ∧ f ≤ 1000000000 := by
  obtain ⟨-, hmax, hmin⟩ := float_constants
  unfold FastAtan32
  rw [hmax, hmin]
  rcases t with r | _ | _ | _
  · simp only [F32.le_fin, decide_eq_true_eq]
    split_ifs with h1 h2
    · exact ⟨_, rfl, by norm_num, by norm_num⟩
    · exact ⟨_, rfl, by linarith, h2⟩
    · exact ⟨_, rfl, by norm_num, by norm_num⟩
  · exact ⟨1000000000, by simp [F32.le], by norm_num, by norm_num⟩
  · exact ⟨-1000000000, by simp [F32.le], by norm_num, by norm_num⟩
  · exact ⟨1000000000, by simp [F32.le], by norm_num, by norm_num⟩

/-- `FastAtan` of minus infinity or of a non-positive number is a non-positive
number. -/
theorem fastAtan32_nonpos (t : F32) (ht : t = F32.ninf ∨ ∃ r : ℚ, t = F32.fin r ∧ r ≤ 0) :
    ∃ f : ℚ, FastAtan32 t = F32.fin f ∧ -1000000000 ≤ f ∧ f ≤ 0 := by
  obtain ⟨-, hmax, hmin⟩ := float_constants
  unfold FastAtan32
  rw [hmax, hmin]
  rcases ht with ht | ⟨r, ht, hr⟩
  · subst ht
    exact ⟨-1000000000, by simp [F32.le], by norm_num, by norm_num⟩
  · subst ht
    simp only [F32.le_fin, decide_eq_true_eq]
    split_ifs with h1 h2
    · exact ⟨_, rfl, by norm_num, by norm_num⟩
    · exact ⟨_, rfl, by linarith, hr⟩
    · linarith

/-- `FastAtan` of plus infinity, of NaN or of a non-negative number is a
non-negative number. -/
theorem fastAtan32_nonneg (t : F32)
    (ht : t = F32.pinf ∨ t = F32.nan ∨ ∃ r : ℚ, t = F32.fin r ∧ 0 ≤ r) :
    ∃ f : ℚ, FastAtan32 t = F32.fin f ∧ 0 ≤ f ∧ f ≤ 1000000000 := by
  obtain ⟨-, hmax, hmin⟩ := float_constants
  unfold FastAtan32
  rw [hmax, hmin]
  rcases ht with ht | ht | ⟨r, ht, hr⟩
  · subst ht
    exact ⟨1000000000, by simp [F32.le], by norm_num, by norm_num⟩
  · subst ht
    exact ⟨1000000000, by simp [F32.le], by norm_num, by norm_num⟩
  · subst ht
    simp only [F32.le_fin, decide_eq_true_eq]
    split_ifs with h1 h2
    · linarith
    · exact ⟨_, rfl, hr, h2⟩
    · exact ⟨_, rfl, by norm_num, by norm_num⟩

/-- A number between `-10^9` and `10^9` is in range. -/
theorem inRange32_fin (q : ℚ) (h1 : -1000000000 ≤ q) (h2 : q ≤ 1000000000) :
    InRange32 (F32.fin q) := by
  obtain ⟨-, hmax, hmin⟩ := float_constants
  unfold InRange32
  rw [hmax, hmin, F32.le_fin, F32.le_fin]
  exact ⟨decide_eq_true h1, decide_eq_true h2⟩

/-- The second-quadrant branch `FastAtan(tan) + FAST_ATAN_MAX` is in range when
`tan` is minus infinity or a non-positive number. -/
theorem add_max_mem (t : F32) (ht : t = F32.ninf ∨ ∃ r : ℚ, t = F32.fin r ∧ r ≤ 0) :
    InRange32 (F32.add (FastAtan32 t) FAST_ATAN_MAX32) := by
  obtain ⟨f, hf, h1, h2⟩ := fastAtan32_nonpos t ht
  obtain ⟨-, hmax, -⟩ := float_constants
  rw [hf, hmax]
  obtain ⟨q, hq, hq1, hq2⟩ := F32.round_mem_nonneg (f + 1000000000) (by linarith) (by linarith)
  have : F32.add (F32.fin f) (F32.fin 1000000000) = F32.fin q := hq
  rw [this]
  exact inRange32_fin q (by linarith) hq2

/-- The third-quadrant branch `FastAtan(tan) - FAST_ATAN_MAX` is in range when
`tan` is plus infinity, NaN or a non-negative number. -/
theorem sub_max_mem (t : F32)
    (ht : t = F32.pinf ∨ t = F32.nan ∨ ∃ r : ℚ, t = F32.fin r ∧ 0 ≤ r) :
    InRange32 (F32.sub (FastAtan32 t) FAST_ATAN_MAX32) := by
  obtain ⟨f, hf, h1, h2⟩ := fastAtan32_nonneg t ht
  obtain ⟨-, hmax, -⟩ := float_constants
  rw [hf, hmax]
  obtain ⟨q, hq, hq1, hq2⟩ := F32.round_mem_nonpos (f + -1000000000) (by linarith) (by linarith)
  have : F32.sub (F32.fin f) (F32.fin 1000000000) = F32.fin q := hq
  rw [this]
  exact inRange32_fin q hq1 (by linarith)

/-- With a negative divisor and a positive determinant, not both infinite, the
quotient is minus infinity or a non-positive number. -/
theorem div_pos_neg (D T : F32) (hD : F32.lt (F32.fin 0) D = true)
    (hT : F32.lt T (F32.fin 0) = true) (hinf : ¬ (D = F32.pinf ∧ T = F32.ninf)) :
    F32.div D T = F32.ninf ∨ ∃ r : ℚ, F32.div D T = F32.fin r ∧ r ≤ 0 := by
  rcases D with a | _ | _ | _ <;> rcases T with d | _ | _ | _ <;>
    simp only [F32.lt, decide_eq_true_eq, Bool.false_eq_true, not_true_eq_false, and_self] at hD hT hinf
  · have hd : d ≠ 0 := hT.ne
    simp only [F32.div, hd, if_false]
    exact F32.round_nonpos _ (div_nonpos_of_nonneg_of_nonpos hD.le hT.le)
  · exact Or.inr ⟨0, rfl, le_rfl⟩
  · left
    simp [F32.div, F32.neg, not_le.mpr hT]

/-- With a negative divisor and a determinant that is not positive, the quotient
is plus infinity, NaN or a non-negative number. -/
theorem div_nonpos_neg (D T : F32) (hD : F32.lt (F32.fin 0) D = false)
    (hT : F32.lt T (F32.fin 0) = true) :
    F32.div D T = F32.pinf ∨ F32.div D T = F32.nan ∨
      ∃ r : ℚ, F32.div D T = F32.fin r ∧ 0 ≤ r := by
  rcases D with a | _ | _ | _ <;> rcases T with d | _ | _ | _ <;>
    simp only [F32.lt, decide_eq_true_eq, decide_eq_false_iff_not, not_lt, Bool.false_eq_true,
      Bool.true_eq_false] at hD hT
  · have hd : d ≠ 0 := hT.ne
    simp only [F32.div, hd, if_false]
    rcases F32.round_nonneg _ (div_nonneg_of_nonpos hD hT.le) with h | h
    · exact Or.inl h
    · exact Or.inr (Or.inr h)
  · exact Or.inr (Or.inr ⟨0, rfl, le_rfl⟩)
  · left
    simp [F32.div, F32.neg, not_le.mpr hT]
  · exact Or.inr (Or.inl rfl)
  · exact Or.inr (Or.inl rfl)
  · exact Or.inr (Or.inl rfl)

end Utils

namespace Utils

/-- The near-right-angle branch returns `FAST_ATAN_MAX` or `FAST_ATAN_MIN`. -/
theorem copysign32_mem (SignBit : Bool) (D : F32) :
    InRange32 (copysign32 SignBit FAST_ATAN_MAX32 D) := by
  obtain ⟨-, hmax, -⟩ := float_constants
  rw [hmax]
  have hp : InRange32 (F32.fin 1000000000) := inRange32_fin _ (by norm_num) (by norm_num)
  have hn : InRange32 (F32.fin (-1000000000)) := inRange32_fin _ (by norm_num) (by norm_num)
  have habs : F32.abs (F32.fin 1000000000) = F32.fin 1000000000 := by
    simp only [F32.abs]
    rw [abs_of_nonneg (by norm_num)]
  rcases D with a | _ | _ | _ <;> simp only [copysign32, habs, F32.neg]
  · split_ifs <;> assumption
  · exact hp
  · exact hn
  · split_ifs <;> assumption

/-- When the guard of `GetAngleFast` fails on a dot product that is not NaN, the
dot product has absolute value at least `MIN_SAFE_LENGTH` and is positive or
negative. -/
theorem guard_far (T : F32) (hT : T ≠ F32.nan)
    (hg : ¬ ((F32.lt (F32.neg MIN_SAFE_LENGTH32) T && F32.lt T MIN_SAFE_LENGTH32) = true)) :
    F32.le MIN_SAFE_LENGTH32 (F32.abs T) = true ∧
      (F32.lt (F32.fin 0) T = true ∨ F32.lt T (F32.fin 0) = true) := by
  obtain ⟨hm, -, -⟩ := float_constants
  have hpos : (0 : ℚ) < minSafeLength32 := by norm_num [minSafeLength32]
  rw [hm] at hg ⊢
  rcases T with d | _ | _ | _
  · simp only [F32.neg, F32.lt_fin, Bool.and_eq_true, decide_eq_true_eq, not_and, not_lt] at hg
    simp only [F32.abs, F32.le_fin, F32.lt_fin, decide_eq_true_eq]
    by_cases h : -minSafeLength32 < d
    · have := hg h
      exact ⟨le_trans this (le_abs_self d), Or.inl (by linarith)⟩
    · have h1 : d ≤ -minSafeLength32 := not_lt.mp h
      exact ⟨le_trans (by linarith) (neg_le_abs d), Or.inr (by linarith)⟩
  · exact ⟨rfl, Or.inl rfl⟩
  · exact ⟨rfl, Or.inr rfl⟩
  · exact absurd rfl hT

/-- C15 (counterexample): for `V1 = (1e20f, 0)` and `V2 = (-1e20f, 1e20f)`, with
`1e20f` the float `100000002004087734272`, the products overflow, the quotient
`det / dot` is NaN and `GetAngleFast` returns `2e9`, which is not in
`[FAST_ATAN_MIN, FAST_ATAN_MAX]`; for `V1 = (1e20f, 1e20f)` and
`V2 = (1e20f, -1e20f)` the dot product is NaN and the division is executed with
it as the divisor. -/
theorem getAngleFast_overflow_out_of_range :
    F32.Exact 100000002004087734272 ∧
      (∀ SignBit : Bool,
        GetAngleFast32 SignBit ⟨F32.fin 100000002004087734272, F32.fin 0⟩
          ⟨F32.fin (-100000002004087734272), F32.fin 100000002004087734272⟩ =
          F32.fin 2000000000) ∧
      ¬ InRange32 (F32.fin 2000000000) ∧
      (∀ SignBit : Bool,
        (GetAngleFast32Traced SignBit
          ⟨F32.fin 100000002004087734272, F32.fin 100000002004087734272⟩
          ⟨F32.fin 100000002004087734272, F32.fin (-100000002004087734272)⟩).2 =
          some F32.nan) ∧
      F32.le MIN_SAFE_LENGTH32 (F32.abs F32.nan) = false := by
  refine ⟨by decide!, ?_, ?_, ?_, ?_⟩
  · intro b
    cases b <;> decide!
  · intro h
    have h2 := h.2
    rw [float_constants.2.1, F32.le_fin, decide_eq_true_eq] at h2
    norm_num at h2
  · intro b
    cases b <;> decide!
  · rw [float_constants.1]
    rfl

/-- C15 (amended): for all binary32 vectors whose computed dot product is not
NaN and is not minus infinity together with a determinant of plus infinity,
`GetAngleFast` executes the division `det / dot` only with a divisor of absolute
value at least `MIN_SAFE_LENGTH`, and its result is a number in
`[FAST_ATAN_MIN, FAST_ATAN_MAX]`.  The recording function returns the same value
as `GetAngleFast`, and the divisor it records is the computed dot product. -/
theorem getAngleFast_safe_and_bounded (SignBit : Bool) (V1 V2 : FVector2D32)
    (hdot : dot32 V1 V2 ≠ F32.nan)
    (hinf : ¬ (det32 V1 V2 = F32.pinf ∧ dot32 V1 V2 = F32.ninf)) :
    (GetAngleFast32Traced SignBit V1 V2).1 = GetAngleFast32 SignBit V1 V2 ∧
      (∀ x, (GetAngleFast32Traced SignBit V1 V2).2 = some x →
        x = dot32 V1 V2 ∧ F32.le MIN_SAFE_LENGTH32 (F32.abs x) = true) ∧
      InRange32 (GetAngleFast32 SignBit V1 V2) := by
  simp only [GetAngleFast32Traced, GetAngleFast32]
  generalize det32 V1 V2 = D at hinf ⊢
  generalize dot32 V1 V2 = T at hdot hinf ⊢
  by_cases hg : (F32.lt (F32.neg MIN_SAFE_LENGTH32) T && F32.lt T MIN_SAFE_LENGTH32) = true
  · rw [if_pos hg, if_pos hg]
    exact ⟨rfl, fun x hx => by simp at hx, copysign32_mem SignBit D⟩
  · obtain ⟨hfar, hsign⟩ := guard_far T hdot hg
    rw [if_neg hg, if_neg hg]
    by_cases hpos : F32.lt (F32.fin 0) T = true
    · rw [if_pos hpos, if_pos hpos]
      refine ⟨rfl, fun x hx => ?_, ?_⟩
      · simp only [Option.some.injEq] at hx
        subst hx
        exact ⟨rfl, hfar⟩
      · obtain ⟨f, hf, h1, h2⟩ := fastAtan32_mem (F32.div D T)
        rw [hf]
        exact inRange32_fin f h1 h2
    · have hneg : F32.lt T (F32.fin 0) = true := hsign.resolve_left hpos
      rw [if_neg hpos, if_neg hpos]
      by_cases hdet : F32.lt (F32.fin 0) D = true
      · rw [if_pos hdet, if_pos hdet]
        refine ⟨rfl, fun x hx => ?_, add_max_mem _ (div_pos_neg D T hdet hneg hinf)⟩
        simp only [Option.some.injEq] at hx
        subst hx
        exact ⟨rfl, hfar⟩
      · rw [if_neg hdet, if_neg hdet]
        refine ⟨rfl, fun x hx => ?_,
          sub_max_mem _ (div_nonpos_neg D T (Bool.eq_false_iff.mpr hdet) hneg)⟩
        simp only [Option.some.injEq] at hx
        subst hx
        exact ⟨rfl, hfar⟩

/-- C15 (witness): `V1 = (1, 0)` and `V2 = (-1, 1)`, where the computed dot
product is `-1` and the second-quadrant branch adds `FAST_ATAN_MAX`. -/
theorem getAngleFast_safe_and_bounded_witness :
    dot32 ⟨F32.fin 1, F32.fin 0⟩ ⟨F32.fin (-1), F32.fin 1⟩ = F32.fin (-1) ∧
      (GetAngleFast32Traced false ⟨F32.fin 1, F32.fin 0⟩ ⟨F32.fin (-1), F32.fin 1⟩).2 =
        some (F32.fin (-1)) ∧
      InRange32 (GetAngleFast32 false ⟨F32.fin 1, F32.fin 0⟩ ⟨F32.fin (-1), F32.fin 1⟩) :=
  ⟨by decide!, by decide!,
    (getAngleFast_safe_and_bounded false ⟨F32.fin 1, F32.fin 0⟩ ⟨F32.fin (-1), F32.fin 1⟩
      (by decide!) (by decide!)).2.2⟩

end Utils

end CornerCulling
